import Mathlib

/-! Tuple storage core of `voltdb::Table` (src/ee/storage/table.cpp).

A shallow embedding of the block allocator (`Table::nextFreeTuple`) and of the
online compaction (`Table::doCompactionWithinSubset`, `Table::doForcedCompaction`).

The number of density buckets, `TUPLE_BLOCK_NUM_BUCKETS`, is defined outside
table.cpp; it is the parameter `B` of every function that uses it. The class
`TupleBlock` is not among the sources either: its operations are modelled
from section 4.2 of the specification.

Blocks are shared objects (`TBPtr`): the table's collections hold block
addresses and the block objects live in a heap indexed by address, so that a
block erased from `m_data` but still referenced from a bucket keeps its state.
Ordered sets (`stx::btree_set`) are lists of addresses, `begin()` is the head.
Loops that the source writes as `while` take a fuel argument and report its
exhaustion explicitly.
-/

namespace voltdb

/-! ## Ordered sets of block addresses -/

/-- Insertion into an ordered set: no effect when the key is present. -/
def setInsert (a : Nat) (s : List Nat) : List Nat :=
  if a ∈ s then s else List.orderedInsert (fun x y => x ≤ y) a s

/-- Removal of a key from an ordered set. -/
def setErase (a : Nat) (s : List Nat) : List Nat :=
  s.filter (fun x => decide (x ≠ a))

/-! ## Tuple slots and blocks -/

/-- Modelled from the spec: a tuple slot (tabletuple.h is not among the
sources): the status byte with its four flags, followed by the column
payload. -/
structure TupleSlot where
  active : Bool
  dirty : Bool
  pendingDelete : Bool
  pendingDeleteOnUndoRelease : Bool
  payload : List Nat
deriving DecidableEq

/-- A slot that was never written. -/
def TupleSlot.unused : TupleSlot :=
  ⟨false, false, false, false, []⟩

/-- Modelled from the spec: the density bucket of a block (tupleblock.h is not
among the sources): `floor(active_count * B / capacity)`, clamped to `[0, B-1]`. -/
def calculateBucketIndex (B capacity activeCount : Nat) : Nat :=
  min (activeCount * B / capacity) (B - 1)

/-- Modelled from the spec: the attributes of a Block (class TupleBlock, whose
header is not among the sources). `currentBucket` is the back-reference to the
bucket holding the block: the bucket array (`true` for the pending-snapshot
array) and the index in it. -/
structure TupleBlock where
  address : Nat
  capacity : Nat
  activeCount : Nat
  freeList : List Nat
  nextUnusedOffset : Nat
  lastCompactionOffset : Nat
  slots : List TupleSlot
  currentBucket : Option (Bool × Nat)
deriving DecidableEq

namespace TupleBlock

/-- Modelled from the spec: `has_free_slots()` of a Block. -/
def hasFreeTuples (b : TupleBlock) : Bool :=
  decide (b.activeCount < b.capacity)

/-- Modelled from the spec: `is_empty()` of a Block (`active_count == 0`). -/
def isEmpty (b : TupleBlock) : Bool :=
  decide (b.activeCount = 0)

/-- Modelled from the spec: the bucket change a Block operation reports,
`Some(b)` exactly when the change of the active count crosses a bucket
boundary. -/
def bucketChange (B capacity before after : Nat) : Option Nat :=
  if calculateBucketIndex B capacity after = calculateBucketIndex B capacity before then none
  else some (calculateBucketIndex B capacity after)

/-- Modelled from the spec: `next_free_slot()` of a Block: pop from the free
list, else bump `next_unused_offset`; returns the block, the slot offset and
the bucket change. -/
def nextFreeTuple (B : Nat) (b : TupleBlock) : TupleBlock × Nat × Option Nat :=
  match b.freeList with
  | o :: rest =>
    ({ b with freeList := rest, activeCount := b.activeCount + 1 }, o,
      bucketChange B b.capacity b.activeCount (b.activeCount + 1))
  | [] =>
    ({ b with nextUnusedOffset := b.nextUnusedOffset + 1, activeCount := b.activeCount + 1 },
      b.nextUnusedOffset, bucketChange B b.capacity b.activeCount (b.activeCount + 1))

/-- Modelled from the spec: `free_slot(slot_ptr)` of a Block: push the offset
onto the free list and decrement the active count; returns the bucket change. -/
def freeTuple (B : Nat) (b : TupleBlock) (o : Nat) : TupleBlock × Option Nat :=
  ({ b with freeList := o :: b.freeList, activeCount := b.activeCount - 1 },
    bucketChange B b.capacity b.activeCount (b.activeCount - 1))

/-- The slot at an offset of the block. -/
def slotAt (b : TupleBlock) (o : Nat) : TupleSlot :=
  b.slots.getD o TupleSlot.unused

/-- A relocation reported to the table: the old slot and the new slot, each as
block address and offset. -/
abbrev Relocation := (Nat × Nat) × (Nat × Nat)

/-- Modelled from the spec: the copy loop of `merge`. It walks the source
offsets in ascending order; each active slot is copied into the next free slot
of the destination, reported as a relocation and freed in the source. It stops
when the destination has no free slot or the source is drained. -/
def mergeLoop (B : Nat) :
    List Nat → TupleBlock → TupleBlock → List Relocation →
      TupleBlock × TupleBlock × List Relocation
  | [], d, s, r => (d, s, r)
  | o :: os, d, s, r =>
    if d.hasFreeTuples && !s.isEmpty then
      if (s.slotAt o).active then
        let nf := d.nextFreeTuple B
        let d1 := { nf.1 with slots := nf.1.slots.set nf.2.1 (s.slotAt o) }
        let s1 := (freeTuple B
          { s with slots := s.slots.set o { s.slotAt o with active := false } } o).1
        mergeLoop B os d1 s1 (r ++ [((s.address, o), (d.address, nf.2.1))])
      else mergeLoop B os d s r
    else (d, s, r)

/-- Modelled from the spec: `merge` of a Block, the receiver being the
destination: moves the active slots of the source below its
`last_compaction_offset`, and returns the two blocks, the relocations and the
pair (destination bucket change, source bucket change). -/
def merge (B : Nat) (dest src : TupleBlock) :
    (TupleBlock × TupleBlock × List Relocation) × (Option Nat × Option Nat) :=
  let res := mergeLoop B (List.range src.lastCompactionOffset) dest src []
  (res, (bucketChange B dest.capacity dest.activeCount res.1.activeCount,
         bucketChange B src.capacity src.activeCount res.2.1.activeCount))

end TupleBlock

/-! ## The table -/

/-- The state of a `Table` that allocation and compaction read and write.
`heap` holds the block objects by address and `nextAddress` is the state of the
block allocator. `relocated`, `compactedAway` and `mergeCalls` record, in
order, the relocation callbacks, the `notifyBlockWasCompactedAway` calls and
the `merge` calls (destination, source). The two bucket arrays are indexed by
bucket number. -/
structure Table where
  m_tuplesPerBlock : Nat
  m_tupleCount : Nat
  heap : Nat → TupleBlock
  nextAddress : Nat
  m_data : List Nat
  m_blocksWithSpace : List Nat
  m_blocksNotPendingSnapshot : List Nat
  m_blocksPendingSnapshot : List Nat
  m_blocksNotPendingSnapshotLoad : Nat → List Nat
  m_blocksPendingSnapshotLoad : Nat → List Nat
  relocated : List TupleBlock.Relocation
  compactedAway : List Nat
  mergeCalls : List (Nat × Nat)

namespace Table

/-- The bucket array a `TBBucketMap*` points to: `true` selects
`m_blocksPendingSnapshotLoad`. -/
def bucketMap (t : Table) (pending : Bool) : Nat → List Nat :=
  if pending then t.m_blocksPendingSnapshotLoad else t.m_blocksNotPendingSnapshotLoad

/-- The partition set that goes with a bucket array. -/
def partitionSet (t : Table) (pending : Bool) : List Nat :=
  if pending then t.m_blocksPendingSnapshot else t.m_blocksNotPendingSnapshot

/-- Replaces one bucket of one of the two bucket arrays. -/
def setBucket (t : Table) (pending : Bool) (i : Nat) (s : List Nat) : Table :=
  if pending then
    { t with m_blocksPendingSnapshotLoad := Function.update t.m_blocksPendingSnapshotLoad i s }
  else
    { t with m_blocksNotPendingSnapshotLoad :=
        Function.update t.m_blocksNotPendingSnapshotLoad i s }

/-- Replaces the block object at an address. -/
def setBlock (t : Table) (a : Nat) (b : TupleBlock) : Table :=
  { t with heap := Function.update t.heap a b }

/-- Modelled from the spec: `swap_to_bucket(new_bucket)` of the block at
address `a`: remove it from its current bucket, insert it into the new bucket,
update the back-reference. -/
def swapToBucket (t : Table) (a : Nat) (pending : Bool) (i : Nat) : Table :=
  let t1 := match (t.heap a).currentBucket with
    | some (p, j) => t.setBucket p j (setErase a (t.bucketMap p j))
    | none => t
  let t2 := t1.setBucket pending i (setInsert a (t1.bucketMap pending i))
  t2.setBlock a { t2.heap a with currentBucket := some (pending, i) }

/-- Modelled from the spec: `allocateNextBlock` (declared in table.h, not
among the sources): a fresh empty block of `m_tuplesPerBlock` slots, not under
iteration, is added to `m_data` and to the not-pending-snapshot partition, that
is to its set and, an empty block having density bucket 0, to bucket 0 of its
bucket array. -/
def allocateNextBlock (t : Table) : Table × Nat :=
  let a := t.nextAddress
  let blk : TupleBlock :=
    { address := a, capacity := t.m_tuplesPerBlock, activeCount := 0, freeList := [],
      nextUnusedOffset := 0, lastCompactionOffset := t.m_tuplesPerBlock,
      slots := List.replicate t.m_tuplesPerBlock TupleSlot.unused,
      currentBucket := some (false, 0) }
  ({ t with
      heap := Function.update t.heap a blk
      nextAddress := a + 1
      m_data := setInsert a t.m_data
      m_blocksNotPendingSnapshot := setInsert a t.m_blocksNotPendingSnapshot
      m_blocksNotPendingSnapshotLoad :=
        Function.update t.m_blocksNotPendingSnapshotLoad 0
          (setInsert a (t.m_blocksNotPendingSnapshotLoad 0)) }, a)

/-- The rebucketing after an allocation from a block of `m_blocksWithSpace`
(table.cpp 187-198): the not-pending set is looked up first; a block in neither set is
left alone. `change` is `retval.second`, with `none` for `-1`. -/
def rebucketUsedBlock (t : Table) (block : Nat) (change : Option Nat) : Table :=
  match change with
  | some b =>
    if block ∈ t.m_blocksNotPendingSnapshot then t.swapToBucket block false b
    else if block ∈ t.m_blocksPendingSnapshot then t.swapToBucket block true b
    else t
  | none => t

/-- The rebucketing after an allocation from a new block (table.cpp 220-233): the
pending set is looked up first. -/
def rebucketNewBlock (t : Table) (block : Nat) (change : Option Nat) : Table :=
  match change with
  | some b =>
    if block ∈ t.m_blocksPendingSnapshot then t.swapToBucket block true b
    else if block ∈ t.m_blocksNotPendingSnapshot then t.swapToBucket block false b
    else t
  | none => t

/-- Embedding of `Table::nextFreeTuple` (table.cpp 175-241): the table after the call and
the slot handed out (block address, offset). -/
def nextFreeTuple (B : Nat) (t : Table) : Table × (Nat × Nat) :=
  match t.m_blocksWithSpace with
  | block :: _ =>
    let retval := (t.heap block).nextFreeTuple B
    let t1 := t.setBlock block retval.1
    let t2 := t1.rebucketUsedBlock block retval.2.2
    let t3 := if !(t2.heap block).hasFreeTuples then
        { t2 with m_blocksWithSpace := setErase block t2.m_blocksWithSpace }
      else t2
    (t3, (block, retval.2.1))
  | [] =>
    let alloc := t.allocateNextBlock
    let block := alloc.2
    let retval := (alloc.1.heap block).nextFreeTuple B
    let t1 := alloc.1.setBlock block retval.1
    let t2 := t1.rebucketNewBlock block retval.2.2
    let t3 := if (t2.heap block).hasFreeTuples then
        { t2 with m_blocksWithSpace := setInsert block t2.m_blocksWithSpace }
      else t2
    (t3, (block, retval.2.1))

/-- The search for `fullest` (table.cpp 566-580): the first block of the
highest non-empty bucket among buckets `B-2` down to `0`. -/
def findFullest (B : Nat) (bm : Nat → List Nat) : Option Nat :=
  ((List.range (B - 1)).reverse.filterMap (fun ii => (bm ii).head?)).head?

/-- The search for `lightest` (table.cpp 588-604): buckets are scanned in
ascending order; in each the first block is taken unless it is `fullest`, in
which case the block after it, if any, is taken. -/
def findLightest (bm : Nat → List Nat) (fullest : Nat) : List Nat → Option Nat
  | [] => none
  | ii :: rest =>
    match bm ii with
    | [] => findLightest bm fullest rest
    | lightest :: more =>
      if lightest ≠ fullest then some lightest
      else match more with
        | [] => findLightest bm fullest rest
        | second :: _ => some second

/-- The call `fullest->merge(this, lightest)`: both block objects are
replaced, the relocations reach the table, the call is recorded. -/
def mergeBlocks (B : Nat) (t : Table) (fullest lightest : Nat) :
    Table × (Option Nat × Option Nat) :=
  let m := TupleBlock.merge B (t.heap fullest) (t.heap lightest)
  ({ t with
      heap := Function.update (Function.update t.heap fullest m.1.1) lightest m.1.2.1
      relocated := t.relocated ++ m.1.2.2
      mergeCalls := t.mergeCalls ++ [(fullest, lightest)] }, m.2)

/-- How a fuel-bounded run ended: the function returned a value, or the fuel
ran out. -/
inductive Outcome where
  | returned (b : Bool)
  | outOfFuel
deriving DecidableEq

/-- The removal of an emptied `lightest` (table.cpp 638-642): the notification, then the
four `erase` calls. -/
def removeCompactedBlock (t : Table) (lightest : Nat) : Table :=
  { t with
      compactedAway := t.compactedAway ++ [lightest]
      m_data := setErase lightest t.m_data
      m_blocksWithSpace := setErase lightest t.m_blocksWithSpace
      m_blocksNotPendingSnapshot := setErase lightest t.m_blocksNotPendingSnapshot
      m_blocksPendingSnapshot := setErase lightest t.m_blocksPendingSnapshot }

/-- One draining step (table.cpp 631-648) for a `lightest` that was found. -/
def drainStep (B : Nat) (pending : Bool) (fullest lightest : Nat) (t : Table)
    (fullestBucketChange : Option Nat) : Table × Option Nat :=
  let mr := mergeBlocks B t fullest lightest
  let t1 := mr.1
  let fbc := match mr.2.1 with
    | some b => some b
    | none => fullestBucketChange
  let t2 :=
    if (t1.heap lightest).isEmpty then t1.removeCompactedBlock lightest
    else match mr.2.2 with
      | some b => t1.swapToBucket lightest pending b
      | none => t1
  (t2, fbc)

/-- The code after the loop (table.cpp 651-657). -/
def finishCompaction (pending : Bool) (fullest : Nat) (t : Table)
    (fullestBucketChange : Option Nat) : Table :=
  let t1 := match fullestBucketChange with
    | some b => t.swapToBucket fullest pending b
    | none => t
  if !(t1.heap fullest).hasFreeTuples then
    { t1 with m_blocksWithSpace := setErase fullest t1.m_blocksWithSpace }
  else t1

/-- The loop `while (fullest->hasFreeTuples())` (table.cpp 582-658) with the code that
follows it; `fuel` bounds the number of times the loop condition is tested. -/
def compactionLoop (B : Nat) (pending : Bool) (fullest : Nat) :
    Nat → Table → Option Nat → Outcome × Table
  | 0, t, _ => (Outcome.outOfFuel, t)
  | fuel + 1, t, fullestBucketChange =>
    if (t.heap fullest).hasFreeTuples then
      match findLightest (t.bucketMap pending) fullest (List.range B) with
      | none => (Outcome.returned false, t)
      | some lightest =>
        let st := drainStep B pending fullest lightest t fullestBucketChange
        compactionLoop B pending fullest fuel st.1 st.2
    else (Outcome.returned true, finishCompaction pending fullest t fullestBucketChange)

/-- Embedding of `Table::doCompactionWithinSubset` (table.cpp 562-658) on the bucket array
selected by `pending`. -/
def doCompactionWithinSubset (B : Nat) (fuel : Nat) (pending : Bool) (t : Table) :
    Outcome × Table :=
  match findFullest B (t.bucketMap pending) with
  | none => (Outcome.returned false, t)
  | some fullest => compactionLoop B pending fullest fuel t none

/-- How a fuel-bounded run of forced compaction ended. -/
inductive ForcedOutcome where
  | finished
  | assertionFailed
  | outOfFuel
deriving DecidableEq

/-- The loop of `Table::doForcedCompaction` (table.cpp 673-683). `compactionPredicate` is
virtual and supplied by the table subclass; it is a parameter here. `fuel`
bounds the iterations of this loop, `innerFuel` those of each compaction. -/
def forcedLoop (B : Nat) (compactionPredicate : Table → Bool) (innerFuel : Nat) :
    Nat → Table → Bool → Bool → ForcedOutcome × Table
  | 0, t, _, _ => (ForcedOutcome.outOfFuel, t)
  | fuel + 1, t, hadWork1, hadWork2 =>
    if compactionPredicate t then
      if !(hadWork1 || hadWork2) then (ForcedOutcome.assertionFailed, t)
      else
        let r1 : Outcome × Table :=
          if !t.m_blocksNotPendingSnapshot.isEmpty && hadWork1 then
            doCompactionWithinSubset B innerFuel false t
          else (Outcome.returned hadWork1, t)
        match r1.1 with
        | Outcome.outOfFuel => (ForcedOutcome.outOfFuel, r1.2)
        | Outcome.returned w1 =>
          let r2 : Outcome × Table :=
            if !r1.2.m_blocksPendingSnapshot.isEmpty && hadWork2 then
              doCompactionWithinSubset B innerFuel true r1.2
            else (Outcome.returned hadWork2, r1.2)
          match r2.1 with
          | Outcome.outOfFuel => (ForcedOutcome.outOfFuel, r2.2)
          | Outcome.returned w2 => forcedLoop B compactionPredicate innerFuel fuel r2.2 w1 w2
    else (ForcedOutcome.finished, t)

/-- Embedding of `Table::doForcedCompaction` (table.cpp 669-686). -/
def doForcedCompaction (B : Nat) (compactionPredicate : Table → Bool) (innerFuel fuel : Nat)
    (t : Table) : ForcedOutcome × Table :=
  forcedLoop B compactionPredicate innerFuel fuel t true true

/-- The table right after construction and `initializeWithColumns`
(table.cpp 64-85, 158-161): no block, no tuple, `B` empty buckets in each array. The heap
holds no allocated block; the objects it shows are blank. -/
def fresh (tuplesPerBlock : Nat) : Table :=
  { m_tuplesPerBlock := tuplesPerBlock
    m_tupleCount := 0
    heap := fun a =>
      { address := a, capacity := tuplesPerBlock, activeCount := 0, freeList := [],
        nextUnusedOffset := 0, lastCompactionOffset := tuplesPerBlock,
        slots := List.replicate tuplesPerBlock TupleSlot.unused, currentBucket := none }
    nextAddress := 0
    m_data := []
    m_blocksWithSpace := []
    m_blocksNotPendingSnapshot := []
    m_blocksPendingSnapshot := []
    m_blocksNotPendingSnapshotLoad := fun _ => []
    m_blocksPendingSnapshotLoad := fun _ => []
    relocated := []
    compactedAway := []
    mergeCalls := [] }

/-- The table after `n` successive `nextFreeTuple` calls. -/
def nextFreeTupleTimes (B : Nat) : Nat → Table → Table
  | 0, t => t
  | n + 1, t => (nextFreeTuple B (nextFreeTupleTimes B n t)).1

/-- The bucket change that the block allocation inside `nextFreeTuple` reports
(`retval.second`, with `none` for `-1`). -/
def allocationReport (B : Nat) (t : Table) : Option Nat :=
  match t.m_blocksWithSpace with
  | block :: _ => ((t.heap block).nextFreeTuple B).2.2
  | [] => ((t.allocateNextBlock.1.heap t.allocateNextBlock.2).nextFreeTuple B).2.2

/-! ## Invariants of the data model -/

/-- The density bucket of the block at an address. -/
def bucketOf (B : Nat) (t : Table) (a : Nat) : Nat :=
  calculateBucketIndex B (t.heap a).capacity (t.heap a).activeCount

/-- The sum of `active_count` over the blocks of `m_data`. -/
def activeSum (t : Table) : Nat :=
  (t.m_data.map (fun a => (t.heap a).activeCount)).sum

/-- A block is unpinned when it is in one of the two partition sets. -/
def unpinned (t : Table) (a : Nat) : Prop :=
  a ∈ t.m_blocksNotPendingSnapshot ∨ a ∈ t.m_blocksPendingSnapshot

instance (t : Table) (a : Nat) : Decidable (t.unpinned a) := by
  unfold unpinned; infer_instance

/-- Invariant 3 for one partition: the partition's blocks are exactly the
members of its buckets, each block in the bucket of its density and in no
bucket of the other array, with a back-reference that says so. -/
def BucketInvFor (B : Nat) (t : Table) (p : Bool) : Prop :=
  (∀ i, i < B → ∀ a ∈ t.bucketMap p i, a ∈ t.partitionSet p ∧ i = t.bucketOf B a) ∧
  (∀ a ∈ t.partitionSet p,
    a ∈ t.bucketMap p (t.bucketOf B a) ∧
    (t.heap a).currentBucket = some (p, t.bucketOf B a) ∧
    ∀ i, i < B → a ∉ t.bucketMap (!p) i)

instance (B : Nat) (t : Table) (p : Bool) : Decidable (t.BucketInvFor B p) := by
  unfold BucketInvFor; infer_instance

/-- Invariant 3: bucket membership matches density in both partitions. -/
def BucketInv (B : Nat) (t : Table) : Prop :=
  t.BucketInvFor B false ∧ t.BucketInvFor B true

instance (B : Nat) (t : Table) : Decidable (t.BucketInv B) := by
  unfold BucketInv; infer_instance

/-- Invariant 1 in the form of `nextFreeTuple`: `m_blocksWithSpace` is exactly
the set of blocks of the table that have a free slot. -/
def SpaceInv (t : Table) : Prop :=
  (∀ a ∈ t.m_blocksWithSpace, a ∈ t.m_data ∧ (t.heap a).hasFreeTuples = true) ∧
  (∀ a ∈ t.m_data, (t.heap a).hasFreeTuples = true → a ∈ t.m_blocksWithSpace)

instance (t : Table) : Decidable t.SpaceInv := by
  unfold SpaceInv; infer_instance

/-- Invariant 1 in the form of the testable properties: `m_blocksWithSpace` is
exactly the set of unpinned blocks of the table that have a free slot. -/
def UnpinnedSpaceInv (t : Table) : Prop :=
  (∀ a ∈ t.m_blocksWithSpace,
    a ∈ t.m_data ∧ t.unpinned a ∧ (t.heap a).hasFreeTuples = true) ∧
  (∀ a ∈ t.m_data, t.unpinned a → (t.heap a).hasFreeTuples = true →
    a ∈ t.m_blocksWithSpace)

instance (t : Table) : Decidable t.UnpinnedSpaceInv := by
  unfold UnpinnedSpaceInv; infer_instance

/-- Invariant 4: `m_tupleCount` is the sum of the active counts. -/
def CountInv (t : Table) : Prop :=
  t.m_tupleCount = t.activeSum

instance (t : Table) : Decidable t.CountInv := by
  unfold CountInv; infer_instance

/-- The number of slots of a block whose active flag is set. -/
def activeFlags (b : TupleBlock) : Nat :=
  (b.slots.filter (fun s => s.active)).length

/-- Well-formedness of the block at an address of the table: identity,
uniform capacity, one slot per offset, as many active slots as the active
count says, bump pointer and free list inside the block, and no restriction
from the compaction cursor (the block is not under iteration). -/
def BlockWF (t : Table) (a : Nat) : Prop :=
  (t.heap a).address = a ∧
  (t.heap a).capacity = t.m_tuplesPerBlock ∧
  (t.heap a).slots.length = (t.heap a).capacity ∧
  activeFlags (t.heap a) = (t.heap a).activeCount ∧
  (t.heap a).nextUnusedOffset ≤ (t.heap a).capacity ∧
  (t.heap a).activeCount + (t.heap a).freeList.length = (t.heap a).nextUnusedOffset ∧
  (t.heap a).freeList.Nodup ∧
  (∀ o ∈ (t.heap a).freeList,
    o < (t.heap a).nextUnusedOffset ∧ ((t.heap a).slotAt o).active = false) ∧
  (t.heap a).lastCompactionOffset = (t.heap a).capacity

instance (t : Table) (a : Nat) : Decidable (t.BlockWF a) := by
  unfold BlockWF; infer_instance

/-- Invariants 2 and 5 with the shape of the collections: the collections are
sets, the partition sets are disjoint parts of `m_data`, every block of the
table is well formed and below the allocator's next address, and no unpinned
block is empty. -/
def ShapeInv (t : Table) : Prop :=
  0 < t.m_tuplesPerBlock ∧
  t.m_data.Nodup ∧ t.m_blocksWithSpace.Nodup ∧
  t.m_blocksNotPendingSnapshot.Nodup ∧ t.m_blocksPendingSnapshot.Nodup ∧
  (∀ a ∈ t.m_blocksNotPendingSnapshot, a ∈ t.m_data ∧ a ∉ t.m_blocksPendingSnapshot) ∧
  (∀ a ∈ t.m_blocksPendingSnapshot, a ∈ t.m_data) ∧
  (∀ a ∈ t.m_data, t.BlockWF a ∧ a < t.nextAddress) ∧
  (∀ a ∈ t.m_data, t.unpinned a → (t.heap a).activeCount ≠ 0)

instance (t : Table) : Decidable t.ShapeInv := by
  unfold ShapeInv; infer_instance

/-- The buckets of both arrays are sets. -/
def BucketsNodup (B : Nat) (t : Table) : Prop :=
  ∀ p : Bool, ∀ i, i < B → (t.bucketMap p i).Nodup

instance (B : Nat) (t : Table) : Decidable (t.BucketsNodup B) := by
  unfold BucketsNodup; infer_instance

/-- The invariants of the data model (spec section 3, invariants 1 to 5) on a
table with `B` density buckets. -/
def DataModelInvariants (B : Nat) (t : Table) : Prop :=
  0 < B ∧ t.ShapeInv ∧ t.BucketsNodup B ∧ t.SpaceInv ∧ t.UnpinnedSpaceInv ∧
  t.BucketInv B ∧ t.CountInv

instance (B : Nat) (t : Table) : Decidable (t.DataModelInvariants B) := by
  unfold DataModelInvariants; infer_instance

/-! ## Loop invariants of the compaction loop -/

/-- The loop invariant behind the preservation of the tuple count: `m_data`
and the buckets are sets, `fullest` is a block of the table, every block in a
bucket of the compacted array is a block of the table or is empty, and the
tuple count and the sum of the active counts have the given values. -/
def CountLoopInv (B : Nat) (p : Bool) (f c s : Nat) (t : Table) : Prop :=
  t.m_data.Nodup ∧ f ∈ t.m_data ∧
  (∀ q j, j < B → (t.bucketMap q j).Nodup) ∧
  (∀ j, j < B → ∀ a ∈ t.bucketMap p j, a ∈ t.m_data ∨ (t.heap a).activeCount = 0) ∧
  t.m_tupleCount = c ∧ t.activeSum = s

/-- The loop invariant behind the frame of a compaction, for a block `a` that
is in no bucket of the compacted array: `a` is not `fullest`, is still in no
bucket of the array, its block object and its memberships are those of the
state `t0` before the call, and no merge call made since involves it. -/
def FrameInv (B : Nat) (p : Bool) (f a : Nat) (t0 t : Table) : Prop :=
  a ≠ f ∧
  (∀ j, j < B → a ∉ t.bucketMap p j) ∧
  t.heap a = t0.heap a ∧
  (a ∈ t.m_data ↔ a ∈ t0.m_data) ∧
  (a ∈ t.m_blocksWithSpace ↔ a ∈ t0.m_blocksWithSpace) ∧
  (a ∈ t.m_blocksNotPendingSnapshot ↔ a ∈ t0.m_blocksNotPendingSnapshot) ∧
  (a ∈ t.m_blocksPendingSnapshot ↔ a ∈ t0.m_blocksPendingSnapshot) ∧
  (∀ q j, a ∈ t.bucketMap q j ↔ a ∈ t0.bucketMap q j) ∧
  ∃ calls, t.mergeCalls = t0.mergeCalls ++ calls ∧ ∀ c ∈ calls, c.1 ≠ a ∧ c.2 ≠ a

/-- The loop invariant behind the preservation of `m_blocksWithSpace`: the
buckets are sets, every block in a bucket of the compacted array other than
`fullest` has a free slot, `fullest` is an unpinned block of the table listed
in `m_blocksWithSpace`, and for every other block membership in
`m_blocksWithSpace` means being an unpinned block of the table with a free
slot. -/
def SpaceLoopInv (B : Nat) (p : Bool) (f : Nat) (t : Table) : Prop :=
  (∀ q j, j < B → (t.bucketMap q j).Nodup) ∧
  (∀ j, j < B → ∀ a ∈ t.bucketMap p j, a ≠ f → (t.heap a).hasFreeTuples = true) ∧
  (f ∈ t.m_blocksWithSpace ∧ f ∈ t.m_data ∧ t.unpinned f) ∧
  (∀ a ∈ t.m_blocksWithSpace, a ≠ f →
    a ∈ t.m_data ∧ t.unpinned a ∧ (t.heap a).hasFreeTuples = true) ∧
  (∀ a ∈ t.m_data, a ≠ f → t.unpinned a → (t.heap a).hasFreeTuples = true →
    a ∈ t.m_blocksWithSpace)

/-- The loop invariant behind the bucket membership after a compaction.
`i0` is the bucket `fullest` was found in and stays in during the loop. Every
other block of the compacted partition is in the bucket of its density and in
no other; `fullest` is in bucket `i0` while its density bucket is the recorded
bucket change, or `i0` when none is recorded; a block that is in a bucket of
the array without being in the partition set is empty; and either no bucket
change is recorded or a block other than `fullest` is in some bucket. -/
def BucketLoopInv (B : Nat) (p : Bool) (f i0 : Nat) (t : Table) (fbc : Option Nat) : Prop :=
  0 < B ∧
  (∀ q j, j < B → (t.bucketMap q j).Nodup) ∧
  (∀ a ∈ t.partitionSet p, a ≠ f →
    (∀ j, j < B → (a ∈ t.bucketMap p j ↔ j = t.bucketOf B a)) ∧
    (t.heap a).currentBucket = some (p, t.bucketOf B a)) ∧
  (∀ a ∈ t.partitionSet p, ∀ j, j < B → a ∉ t.bucketMap (!p) j) ∧
  (f ∈ t.partitionSet p ∧ (∀ j, j < B → (f ∈ t.bucketMap p j ↔ j = i0)) ∧
    (t.heap f).currentBucket = some (p, i0) ∧ i0 < B ∧ t.bucketOf B f = fbc.getD i0) ∧
  (∀ j, j < B → ∀ a ∈ t.bucketMap p j, a ∈ t.partitionSet p ∨ (t.heap a).activeCount = 0) ∧
  (fbc = none ∨ ∃ a, a ≠ f ∧ ∃ j, j < B ∧ a ∈ t.bucketMap p j)

/-- The shape of a table filled by successive allocations up to `q` full
blocks and `r` tuples in a further block: the blocks are those at addresses
`0 .. q-1` (and `q` when `r` is not zero), the first `q` are full, block `q`
holds `r` tuples, and `m_blocksWithSpace` holds block `q` when `r` is not
zero and nothing otherwise. -/
def FilledTo (c q r : Nat) (t : Table) : Prop :=
  t.m_tuplesPerBlock = c ∧
  t.m_data = List.range (q + (if r = 0 then 0 else 1)) ∧
  t.nextAddress = q + (if r = 0 then 0 else 1) ∧
  t.m_blocksWithSpace = (if r = 0 then [] else [q]) ∧
  (∀ i, i < q → (t.heap i).activeCount = c ∧ (t.heap i).capacity = c) ∧
  (r ≠ 0 → (t.heap q).activeCount = r ∧ (t.heap q).capacity = c)

/-! ## Example tables -/

/-- A written slot holding one value. -/
def exampleSlot (v : Nat) : TupleSlot :=
  ⟨true, false, false, false, [v]⟩

/-- A block whose first slots hold the given values, the rest never used;
`part` is its partition (`none` when pinned by a snapshot iterator). -/
def exampleBlock (B cap a : Nat) (vals : List Nat) (part : Option Bool) : TupleBlock :=
  { address := a, capacity := cap, activeCount := vals.length, freeList := [],
    nextUnusedOffset := vals.length, lastCompactionOffset := cap,
    slots := vals.map exampleSlot ++ List.replicate (cap - vals.length) TupleSlot.unused,
    currentBucket := part.map (fun p => (p, calculateBucketIndex B cap vals.length)) }

/-- The table holding the described blocks (address, values, partition), given
in ascending order of address, with every collection as the invariants of the
data model want it. -/
def exampleTable (B cap : Nat) (bs : List (Nat × List Nat × Option Bool)) : Table :=
  { m_tuplesPerBlock := cap
    m_tupleCount := (bs.map (fun b => b.2.1.length)).sum
    heap := fun a =>
      match bs.find? (fun b => b.1 == a) with
      | some b => exampleBlock B cap a b.2.1 b.2.2
      | none => (fresh cap).heap a
    nextAddress := (bs.map (fun b => b.1 + 1)).foldl max 0
    m_data := bs.map (fun b => b.1)
    m_blocksWithSpace := (bs.filter (fun b => decide (b.2.1.length < cap))).map (fun b => b.1)
    m_blocksNotPendingSnapshot :=
      (bs.filter (fun b => b.2.2 == some false)).map (fun b => b.1)
    m_blocksPendingSnapshot :=
      (bs.filter (fun b => b.2.2 == some true)).map (fun b => b.1)
    m_blocksNotPendingSnapshotLoad := fun i =>
      (bs.filter (fun b => b.2.2 == some false &&
        calculateBucketIndex B cap b.2.1.length == i)).map (fun b => b.1)
    m_blocksPendingSnapshotLoad := fun i =>
      (bs.filter (fun b => b.2.2 == some true &&
        calculateBucketIndex B cap b.2.1.length == i)).map (fun b => b.1)
    relocated := []
    compactedAway := []
    mergeCalls := [] }

/-- Two half-full blocks of four slots in the not-pending partition. -/
def twoHalfBlocks : Table :=
  exampleTable 4 4 [(10, [7, 9], some false), (20, [8, 5], some false)]

/-- A table whose two lightest blocks hold one tuple each, beside a block with
three tuples. -/
def threeBlocks : Table :=
  exampleTable 4 4 [(10, [7], some false), (20, [8], some false), (30, [1, 2, 3], some false)]

/-- The state of Scenario B: two blocks of four slots, each a quarter full. -/
def twoQuarterBlocks : Table :=
  exampleTable 4 4 [(10, [7], some false), (20, [8], some false)]

/-- The compaction predicate of Scenario B: more slots allocated than tuples
active. -/
def allocatedExceedsActive (t : Table) : Bool :=
  decide (t.m_tupleCount < t.m_data.length * t.m_tuplesPerBlock)

/-- Two half-full blocks in the not-pending partition, a block of the pending
partition and a block pinned by a snapshot iterator. -/
def mixedTable : Table :=
  exampleTable 4 4
    [(10, [7, 9], some false), (20, [8, 5], some false), (30, [1], some true), (40, [2], none)]

/-- A block with one tuple beside a full block, both in the not-pending
partition. -/
def quarterAndFullBlocks : Table :=
  exampleTable 4 4 [(10, [7], some false), (20, [8, 5, 6, 4], some false)]

end Table

end voltdb

namespace voltdb

/-! ## Serialized integers and streams -/

/-- The value of a `static_cast<int32_t>`: wrap-around into the signed 32-bit
range. -/
def toInt32 (v : Int) : Int :=
  (v + 2147483648) % 4294967296 - 2147483648

/-- The value of a `static_cast<int16_t>`. -/
def toInt16 (v : Int) : Int :=
  (v + 32768) % 65536 - 32768

/-- The value of a `static_cast<int8_t>`. -/
def toInt8 (v : Int) : Int :=
  (v + 128) % 256 - 128

/-- Modelled from the spec: the four bytes of a 32-bit integer on the wire,
big-endian, two's complement (serializeio.h is not among the sources). -/
def int32BE (v : Int) : List Nat :=
  [(v % 4294967296).toNat / 16777216, (v % 4294967296).toNat / 65536 % 256,
    (v % 4294967296).toNat / 256 % 256, (v % 4294967296).toNat % 256]

/-- Modelled from the spec: the two bytes of a 16-bit integer on the wire,
big-endian, two's complement. -/
def int16BE (v : Int) : List Nat :=
  [(v % 65536).toNat / 256, (v % 65536).toNat % 256]

/-- Modelled from the spec: the byte of an 8-bit integer on the wire, two's
complement. -/
def int8Byte (v : Int) : Nat :=
  (v % 256).toNat

namespace SerializeOutput

/-- Modelled from the spec: `position()` of a `SerializeOutput`, whose content
is the list of the bytes written so far. -/
def position (io : List Nat) : Nat :=
  io.length

/-- Modelled from the spec: `writeInt`. -/
def writeInt (io : List Nat) (v : Int) : List Nat :=
  io ++ int32BE v

/-- Modelled from the spec: `writeShort`. -/
def writeShort (io : List Nat) (v : Int) : List Nat :=
  io ++ int16BE v

/-- Modelled from the spec: `writeByte`. -/
def writeByte (io : List Nat) (v : Int) : List Nat :=
  io ++ [int8Byte v]

/-- Modelled from the spec: `writeBytes(value, length)`. -/
def writeBytes (io : List Nat) (value : List Nat) (length : Nat) : List Nat :=
  io ++ value.take length

/-- Modelled from the spec: `writeIntAt(position, value)`: the four bytes at
the position are overwritten, the write position does not move. -/
def writeIntAt (io : List Nat) (pos : Nat) (v : Int) : List Nat :=
  io.take pos ++ int32BE v ++ io.drop (pos + 4)

end SerializeOutput

namespace SerializeInput

/-- Modelled from the spec: `readByte` of a `SerializeInput`, whose state is the
list of the bytes not yet read; `none` when the stream is truncated. -/
def readByte : List Nat → Option (Int × List Nat)
  | b :: rest => some (toInt8 b, rest)
  | [] => none

/-- Modelled from the spec: `readShort`. -/
def readShort : List Nat → Option (Int × List Nat)
  | b0 :: b1 :: rest => some (toInt16 (b0 * 256 + b1), rest)
  | _ => none

/-- Modelled from the spec: `readInt`. -/
def readInt : List Nat → Option (Int × List Nat)
  | b0 :: b1 :: b2 :: b3 :: rest =>
    some (toInt32 (b0 * 16777216 + b1 * 65536 + b2 * 256 + b3), rest)
  | _ => none

/-- Modelled from the spec: `readEnumInSingleByte`. -/
def readEnumInSingleByte (io : List Nat) : Option (Int × List Nat) :=
  readByte io

/-- Modelled from the spec: `readTextString`, a string written as
`(int32 len, bytes[len])`; `none` when the length is negative or exceeds what
is left of the stream. -/
def readTextString (io : List Nat) : Option (List Nat × List Nat) :=
  match readInt io with
  | none => none
  | some (len, rest) =>
    if len < 0 then none
    else if rest.length < len.toNat then none
    else some (rest.take len.toNat, rest.drop len.toNat)

end SerializeInput

/-! ## The schema and the whole table object -/

/-- Modelled from the spec: the part of a `TupleSchema` that table.cpp reads
(TupleSchema.h is not among the sources): the column types, as the values of
the `ValueType` enumeration, and the fixed tuple length. Two schemas are equal
(`TupleSchema::equals`) when they agree on both. -/
structure TupleSchema where
  columnTypes : List Int
  tupleLength : Int
deriving DecidableEq

namespace TupleSchema

/-- Modelled from the spec: `columnCount()` of a schema. -/
def columnCount (s : TupleSchema) : Nat :=
  s.columnTypes.length

/-- Modelled from the spec: `columnType(i)` of a schema. -/
def columnType (s : TupleSchema) (i : Nat) : Int :=
  s.columnTypes.getD i 0

end TupleSchema

/-- Modelled from the spec: `TableTuple::equals` (tabletuple.h is not among the
sources): two tuples are equal when their column values are. -/
def TupleSlot.equalsTuple (a b : TupleSlot) : Bool :=
  decide (a.payload = b.payload)

namespace Table

/-- Modelled from the spec: what a `TableIterator` yields (tableiterator.h is
not among the sources): the active slots, block by block in the order of
`m_data`, by ascending offset inside a block; an iteration without concurrent
mutation leaves the table as it was. -/
def activeTuples (t : Table) : List TupleSlot :=
  t.m_data.flatMap (fun a => (t.heap a).slots.filter (fun s => s.active))

/-- The slot a `TableTuple` points to is overwritten. -/
def writeSlot (t : Table) (slot : Nat × Nat) (s : TupleSlot) : Table :=
  t.setBlock slot.1 { t.heap slot.1 with slots := (t.heap slot.1).slots.set slot.2 s }

end Table

/-- The whole `Table` object: the storage state `store` with the fields that
initialisation, serialization, loading and comparison read and write. Strings
are lists of bytes. `tableType`, `indexes` stand for what the virtual
`tableType()` and `allIndexes()` return, an index being known by a number;
`loadedTuples` records, in order, the `processLoadedTuple` calls with their
arguments and the slot of the tuple. -/
structure TableObject where
  store : Table
  m_schema : TupleSchema
  m_columnNames : List (List Nat)
  m_columnCount : Nat
  m_columnHeaderData : Option (List Nat)
  m_columnHeaderSize : Int
  m_tupleLength : Int
  m_tableAllocationSize : Int
  m_tableAllocationTargetSize : Int
  m_databaseId : Int
  m_name : List Nat
  tableType : List Nat
  indexes : List Nat
  loadedTuples : List (Bool × (Nat × Nat) × TupleSlot)

namespace TableObject

/-- The object after the constructor `Table(tableAllocationTargetSize)`
(table.cpp 64-85); the schema is null until `initializeWithColumns`, here a schema
without columns. -/
def constructed (tableAllocationTargetSize : Int) : TableObject :=
  { store := Table.fresh 0
    m_schema := ⟨[], 0⟩
    m_columnNames := []
    m_columnCount := 0
    m_columnHeaderData := none
    m_columnHeaderSize := -1
    m_tupleLength := 0
    m_tableAllocationSize := 0
    m_tableAllocationTargetSize := tableAllocationTargetSize
    m_databaseId := -1
    m_name := []
    tableType := []
    indexes := []
    loadedTuples := [] }

/-- Embedding of `Table::initializeWithColumns` (table.cpp 112-170) in the default build
(neither MEMCHECK nor USE_MMAP). `tupleHeaderSize` is `TUPLE_HEADER_SIZE`,
defined outside table.cpp. The integer fields are taken as signed, the division
is that of C, truncating. -/
def initializeWithColumns (tupleHeaderSize : Int) (t : TableObject) (schema : TupleSchema)
    (columnNames : List (List Nat)) : TableObject :=
  let tupleLength := schema.tupleLength + tupleHeaderSize
  let tuplesPerBlock := Int.tdiv t.m_tableAllocationTargetSize tupleLength
  let sizes : Int × Int :=
    if tuplesPerBlock < 1 then (1, tupleLength)
    else (tuplesPerBlock, t.m_tableAllocationTargetSize)
  { t with
      m_schema := schema
      m_columnCount := schema.columnCount
      m_tupleLength := tupleLength
      m_tableAllocationSize := sizes.2
      m_columnNames := (List.range schema.columnCount).map (fun i => columnNames.getD i [])
      store := { t.store with
        m_tuplesPerBlock := sizes.1.toNat
        m_tupleCount := 0
        m_blocksWithSpace := []
        m_data := [] } }

/-- The accessor `columnName(i)`. -/
def columnName (t : TableObject) (i : Nat) : List Nat :=
  t.m_columnNames.getD i []

/-- The loop that writes the column types (table.cpp 342-345) over the given column
indices. -/
def writeColumnTypes (t : TableObject) : List Nat → List Nat → List Nat
  | [], io => io
  | i :: rest, io =>
    writeColumnTypes t rest (SerializeOutput.writeByte io (toInt8 (t.m_schema.columnType i)))

/-- The loop that writes the column names (table.cpp 349-359) over the given column
indices; `none` when the assertion `length >= 0` fails. -/
def writeColumnNames (t : TableObject) : List Nat → List Nat → Option (List Nat)
  | [], io => some io
  | i :: rest, io =>
    if toInt32 (t.columnName i).length < 0 then none
    else
      writeColumnNames t rest
        (SerializeOutput.writeBytes
          (SerializeOutput.writeInt io (toInt32 (t.columnName i).length))
          (t.columnName i) (toInt32 (t.columnName i).length).toNat)

/-- Embedding of `Table::serializeColumnHeaderTo` (table.cpp 311-374): the object and the
output after a call that returns (it then returns `true`); `none` when an
assertion fails or the cache cannot be allocated. -/
def serializeColumnHeaderTo (t : TableObject) (io : List Nat) :
    Option (TableObject × List Nat) :=
  match t.m_columnHeaderData with
  | some data =>
    if t.m_columnHeaderSize = -1 then none
    else some (t, SerializeOutput.writeBytes io data t.m_columnHeaderSize.toNat)
  | none =>
    if t.m_columnHeaderSize ≠ -1 then none
    else
      let start := SerializeOutput.position io
      let io1 := SerializeOutput.writeInt io (-1)
      let io2 := SerializeOutput.writeByte io1 (-128)
      let io3 := SerializeOutput.writeShort io2 (toInt16 t.m_columnCount)
      let io4 := writeColumnTypes t (List.range t.m_columnCount) io3
      match writeColumnNames t (List.range t.m_columnCount) io4 with
      | none => none
      | some io5 =>
        let columnHeaderSize := toInt32 ((SerializeOutput.position io5 : Int) - start)
        let nonInclusiveHeaderSize := toInt32 (columnHeaderSize - 4)
        let io6 := SerializeOutput.writeIntAt io5 start nonInclusiveHeaderSize
        if columnHeaderSize < 0 then none
        else
          some ({ t with
                  m_columnHeaderSize := columnHeaderSize
                  m_columnHeaderData := some ((io6.drop start).take columnHeaderSize.toNat) },
                io6)

/-- Embedding of `Table::serializeTo` (table.cpp 376-412). `serializeTuple` stands for
`TableTuple::serializeTo`, which appends the bytes of a tuple. `none` when an
assertion fails. -/
def serializeTo (serializeTuple : TupleSlot → List Nat) (t : TableObject) (io : List Nat) :
    Option (TableObject × List Nat) :=
  let pos := SerializeOutput.position io
  let io1 := SerializeOutput.writeInt io (-1)
  match serializeColumnHeaderTo t io1 with
  | none => none
  | some (t1, io2) =>
    let io3 := SerializeOutput.writeInt io2 (toInt32 t1.store.m_tupleCount)
    let io4 := t1.store.activeTuples.foldl (fun out tuple => out ++ serializeTuple tuple) io3
    let written_count := t1.store.activeTuples.length
    if written_count ≠ t1.store.m_tupleCount then none
    else
      let sz := toInt32 ((SerializeOutput.position io4 : Int) - pos - 4)
      if sz > 0 then some (t1, SerializeOutput.writeIntAt io4 pos sz)
      else none

end TableObject

end voltdb

namespace voltdb

/-! ## Loading and comparison -/

/-- What `loadTuplesFrom` gets out of the column header of its input
(table.cpp 519-539): the declared column count with the types and names read, and the rest
of the stream; or a stream that ends inside the header; or a negative column
count, on which the assertion of line 524 fails. -/
inductive HeaderRead where
  | header (colcount : Int) (types : List Int) (names : List (List Nat)) (rest : List Nat)
  | truncated
  | negativeCount
deriving DecidableEq

/-- How a load ended. `schemaMismatch` is the `SerializableEEException` of
table.cpp 555 with what its message is built from: the expected column count, the
declared one, and the declared names and types. `deserializationError` is a
read past the end of the input, `assertionFailed` a failed `assert`. -/
inductive LoadOutcome where
  | loaded
  | schemaMismatch (expected : Nat) (given : Int) (names : List (List Nat)) (types : List Int)
  | deserializationError
  | assertionFailed
deriving DecidableEq

/-- The loop that reads the column types (table.cpp 532-534). -/
def readColumnTypes : Nat → List Nat → Option (List Int × List Nat)
  | 0, io => some ([], io)
  | n + 1, io =>
    match SerializeInput.readEnumInSingleByte io with
    | none => none
    | some (type, io1) =>
      match readColumnTypes n io1 with
      | none => none
      | some (types, rest) => some (type :: types, rest)

/-- The loop that reads the column names (table.cpp 537-539). -/
def readColumnNames : Nat → List Nat → Option (List (List Nat) × List Nat)
  | 0, io => some ([], io)
  | n + 1, io =>
    match SerializeInput.readTextString io with
    | none => none
    | some (name, io1) =>
      match readColumnNames n io1 with
      | none => none
      | some (names, rest) => some (name :: names, rest)

/-- The header part of `Table::loadTuplesFrom` (table.cpp 519-539). -/
def readColumnHeader (io : List Nat) : HeaderRead :=
  match SerializeInput.readInt io with
  | none => HeaderRead.truncated
  | some (_, io1) =>
    match SerializeInput.readByte io1 with
    | none => HeaderRead.truncated
    | some (_, io2) =>
      match SerializeInput.readShort io2 with
      | none => HeaderRead.truncated
      | some (colcount, io3) =>
        if colcount < 0 then HeaderRead.negativeCount
        else
          match readColumnTypes colcount.toNat io3 with
          | none => HeaderRead.truncated
          | some (types, io4) =>
            match readColumnNames colcount.toNat io4 with
            | none => HeaderRead.truncated
            | some (names, io5) => HeaderRead.header colcount types names io5

/-- The rows that `n` successive calls of the tuple deserializer read from a
stream, with what is left of it; `none` when one of them fails. -/
def parseRows (deserializeTuple : List Nat → Option (List Nat × List Nat)) :
    Nat → List Nat → Option (List (List Nat) × List Nat)
  | 0, io => some ([], io)
  | n + 1, io =>
    match deserializeTuple io with
    | none => none
    | some (row, io1) =>
      match parseRows deserializeTuple n io1 with
      | none => none
      | some (rows, rest) => some (row :: rows, rest)

namespace TableObject

/-- The slot of a loaded row once the four flags are set and the tuple is
deserialized into it. -/
def loadedSlot (row : List Nat) : TupleSlot :=
  ⟨true, false, false, false, row⟩

/-- The loop of `Table::loadTuplesFromNoHeader` (table.cpp 486-495) for the given number of
rows. `deserializeTuple` stands for `TableTuple::deserializeFrom`: it reads one
tuple and gives its column payload and the rest of the stream, or fails.
`processLoadedTuple` is virtual; the call is recorded. -/
def loadRows (B : Nat) (deserializeTuple : List Nat → Option (List Nat × List Nat))
    (allowExport : Bool) : Nat → TableObject → List Nat → LoadOutcome × TableObject × List Nat
  | 0, t, io => (LoadOutcome.loaded, t, io)
  | n + 1, t, io =>
    let alloc := t.store.nextFreeTuple B
    let target := alloc.2
    let flagged := alloc.1.writeSlot target
      { (alloc.1.heap target.1).slotAt target.2 with
        active := true, dirty := false, pendingDelete := false,
        pendingDeleteOnUndoRelease := false }
    match deserializeTuple io with
    | none => (LoadOutcome.deserializationError, { t with store := flagged }, io)
    | some (row, io1) =>
      let written := flagged.writeSlot target
        { (flagged.heap target.1).slotAt target.2 with payload := row }
      loadRows B deserializeTuple allowExport n
        { t with
          store := written
          loadedTuples := t.loadedTuples ++
            [(allowExport, target, (written.heap target.1).slotAt target.2)] }
        io1

/-- Embedding of `Table::loadTuplesFromNoHeader` (table.cpp 480-498). -/
def loadTuplesFromNoHeader (B : Nat) (deserializeTuple : List Nat → Option (List Nat × List Nat))
    (allowExport : Bool) (t : TableObject) (io : List Nat) : LoadOutcome × TableObject :=
  match SerializeInput.readInt io with
  | none => (LoadOutcome.deserializationError, t)
  | some (tupleCount, io1) =>
    if tupleCount < 0 then (LoadOutcome.assertionFailed, t)
    else
      let r := loadRows B deserializeTuple allowExport tupleCount.toNat t io1
      match r.1 with
      | LoadOutcome.loaded =>
        (LoadOutcome.loaded,
          { r.2.1 with
            store := { r.2.1.store with
              m_tupleCount := r.2.1.store.m_tupleCount + tupleCount.toNat } })
      | failure => (failure, r.2.1)

/-- Embedding of `Table::loadTuplesFrom` (table.cpp 500-560). -/
def loadTuplesFrom (B : Nat) (deserializeTuple : List Nat → Option (List Nat × List Nat))
    (allowExport : Bool) (t : TableObject) (io : List Nat) : LoadOutcome × TableObject :=
  match readColumnHeader io with
  | HeaderRead.truncated => (LoadOutcome.deserializationError, t)
  | HeaderRead.negativeCount => (LoadOutcome.assertionFailed, t)
  | HeaderRead.header colcount types names rest =>
    if colcount ≠ t.m_schema.columnCount then
      (LoadOutcome.schemaMismatch t.m_schema.columnCount colcount names types, t)
    else loadTuplesFromNoHeader B deserializeTuple allowExport t rest

/-- Modelled from the spec: the accessor `columnCount()` (table.h is not among
the sources). -/
def columnCount (t : TableObject) : Nat :=
  t.m_columnCount

/-- Modelled from the spec: `indexCount()`, the number of indexes of the
table. -/
def indexCount (t : TableObject) : Nat :=
  t.indexes.length

/-- Modelled from the spec: the accessor `activeTupleCount()`. -/
def activeTupleCount (t : TableObject) : Nat :=
  t.store.m_tupleCount

/-- The loop over the indexes (table.cpp 450-452), an index being equal to another when
it is the same index. -/
def equalsIndexes (indexes otherIndexes : List Nat) : List Nat → Bool
  | [] => true
  | ii :: rest =>
    if !(indexes.getD ii 0 == otherIndexes.getD ii 0) then false
    else equalsIndexes indexes otherIndexes rest

/-- The loop over the tuples (table.cpp 461-465) on what the two iterators yield. -/
def equalsTuples : List TupleSlot → List TupleSlot → Bool
  | [], _ => true
  | _ :: _, [] => false
  | firstTuple :: firstTI, secondTuple :: secondTI =>
    if !(firstTuple.equalsTuple secondTuple) then false
    else equalsTuples firstTI secondTI

/-- Embedding of `Table::equals` (table.cpp 439-466). Line 449 compares `indexes.size()`
with itself, and lines 457-458 take both iterators from this table. -/
def equals (t other : TableObject) : Bool :=
  if !(t.columnCount == other.columnCount) then false
  else if !(t.indexCount == other.indexCount) then false
  else if !(t.activeTupleCount == other.activeTupleCount) then false
  else if !(t.m_databaseId == other.m_databaseId) then false
  else if !(t.m_name == other.m_name) then false
  else if !(t.tableType == other.tableType) then false
  else if !(t.indexes.length == t.indexes.length) then false
  else if !(equalsIndexes t.indexes other.indexes (List.range t.indexes.length)) then false
  else if !(decide (t.m_schema = other.m_schema)) then false
  else equalsTuples t.store.activeTuples t.store.activeTuples

/-- The equality of two tables in the words of the specification: same column
count, index count, active tuple count, database id, name and table type,
index lists of the same size and pairwise equal, equal schemas, and the tuples
of the two tables pairwise equal in iteration order. -/
def equalsAsSpecified (t other : TableObject) : Bool :=
  t.columnCount == other.columnCount &&
  t.indexCount == other.indexCount &&
  t.activeTupleCount == other.activeTupleCount &&
  t.m_databaseId == other.m_databaseId &&
  t.m_name == other.m_name &&
  t.tableType == other.tableType &&
  t.indexes.length == other.indexes.length &&
  (List.zip t.indexes other.indexes).all (fun p => p.1 == p.2) &&
  decide (t.m_schema = other.m_schema) &&
  t.store.activeTuples.length == other.store.activeTuples.length &&
  (List.zip t.store.activeTuples other.store.activeTuples).all
    (fun p => p.1.equalsTuple p.2)

/-- The column header in the words of the specification:
`int32_be(h) ++ [0x80] ++ int16_be(n) ++ types ++ concat(int32_be(len s) ++ s)`
with `h = 3 + n + sum (4 + len s)`. -/
def columnHeaderBytes (types : List Int) (names : List (List Nat)) : List Nat :=
  int32BE (3 + types.length + (names.map (fun s => 4 + s.length)).sum : Nat) ++ [128] ++
    int16BE types.length ++ types.map int8Byte ++
    names.flatMap (fun s => int32BE s.length ++ s)

/-! ## Invariants of the table object -/

/-- The column fields agree with the schema, as `initializeWithColumns` leaves
them: one name per column of the schema. -/
def ColumnsInv (t : TableObject) : Prop :=
  t.m_columnCount = t.m_schema.columnCount ∧ t.m_columnNames.length = t.m_columnCount

instance (t : TableObject) : Decidable t.ColumnsInv := by
  unfold ColumnsInv; infer_instance

/-- The size of the column header fits the signed 32-bit field that carries
it: the whole header is shorter than `2^31` bytes. -/
def HeaderFits (t : TableObject) : Prop :=
  (columnHeaderBytes t.m_schema.columnTypes t.m_columnNames).length < 2147483648

instance (t : TableObject) : Decidable t.HeaderFits := by
  unfold HeaderFits; infer_instance

/-- The header cache is empty, as the constructor leaves it. -/
def CacheEmpty (t : TableObject) : Prop :=
  t.m_columnHeaderData = none ∧ t.m_columnHeaderSize = -1

instance (t : TableObject) : Decidable t.CacheEmpty := by
  unfold CacheEmpty; infer_instance

/-- The header cache is filled, as the first `serializeColumnHeaderTo` call
leaves it. -/
def CacheFilled (t : TableObject) : Prop :=
  t.m_columnHeaderData = some (columnHeaderBytes t.m_schema.columnTypes t.m_columnNames) ∧
  t.m_columnHeaderSize = (columnHeaderBytes t.m_schema.columnTypes t.m_columnNames).length

instance (t : TableObject) : Decidable t.CacheFilled := by
  unfold CacheFilled; infer_instance

/-- The header cache is in one of the two states it can be in. -/
def CacheInv (t : TableObject) : Prop :=
  t.CacheEmpty ∨ t.CacheFilled

instance (t : TableObject) : Decidable t.CacheInv := by
  unfold CacheInv; infer_instance

/-- The bytes `serializeTo` is to write after the four bytes of the total
size, in the words of the specification: the column header, the tuple count and
the serializations of the active tuples in iteration order. -/
def tableBytes (serializeTuple : TupleSlot → List Nat) (t : TableObject) : List Nat :=
  columnHeaderBytes t.m_schema.columnTypes t.m_columnNames ++ int32BE t.store.m_tupleCount ++
    t.store.activeTuples.flatMap serializeTuple

end TableObject

namespace Table

/-- In every block of the table, the slots with the active flag set are as
many as the active count says. -/
def FlagsInv (t : Table) : Prop :=
  ∀ a ∈ t.m_data, activeFlags (t.heap a) = (t.heap a).activeCount

instance (t : Table) : Decidable t.FlagsInv := by
  unfold FlagsInv; infer_instance

/-- What an allocation relies on to keep the tuple count: `m_data` is a set of
addresses the allocator has handed out, and `m_blocksWithSpace` is part of
it. -/
def AllocInv (t : Table) : Prop :=
  t.m_data.Nodup ∧ (∀ a ∈ t.m_data, a < t.nextAddress) ∧
  (∀ a ∈ t.m_blocksWithSpace, a ∈ t.m_data)

instance (t : Table) : Decidable t.AllocInv := by
  unfold AllocInv; infer_instance

/-- What an allocation relies on to hand out a slot of the block: a block
holds at least one tuple, a block of `m_blocksWithSpace` has a free slot, and
in every block of the table there is one slot per offset, the bump pointer is
inside the block, and the free list holds offsets below the bump pointer, as
many as the bump pointer exceeds the active count. -/
def SlotsInv (t : Table) : Prop :=
  0 < t.m_tuplesPerBlock ∧
  (∀ a ∈ t.m_blocksWithSpace, (t.heap a).hasFreeTuples = true) ∧
  (∀ a ∈ t.m_data,
    (t.heap a).slots.length = (t.heap a).capacity ∧
    (t.heap a).nextUnusedOffset ≤ (t.heap a).capacity ∧
    (t.heap a).activeCount + (t.heap a).freeList.length = (t.heap a).nextUnusedOffset ∧
    ∀ o ∈ (t.heap a).freeList, o < (t.heap a).nextUnusedOffset)

instance (t : Table) : Decidable t.SlotsInv := by
  unfold SlotsInv; infer_instance

/-- The block that `allocateNextBlock` creates at the next address. -/
def newBlock (t : Table) : TupleBlock :=
  { address := t.nextAddress, capacity := t.m_tuplesPerBlock, activeCount := 0, freeList := [],
    nextUnusedOffset := 0, lastCompactionOffset := t.m_tuplesPerBlock,
    slots := List.replicate t.m_tuplesPerBlock TupleSlot.unused,
    currentBucket := some (false, 0) }

/-- The shape of a table that was only ever filled by loading: the blocks are
those at the addresses below `nextAddress`, and `m_blocksWithSpace` is empty or
holds the last block alone, which then has `c` slots, an empty free list and
nothing active from its bump pointer on. -/
def LoadInv (c : Nat) (t : Table) : Prop :=
  0 < c ∧ t.m_tuplesPerBlock = c ∧ t.m_data = List.range t.nextAddress ∧
  (t.m_blocksWithSpace = [] ∨
    ∃ q, t.nextAddress = q + 1 ∧ t.m_blocksWithSpace = [q] ∧
      (t.heap q).freeList = [] ∧ (t.heap q).capacity = c ∧
      (t.heap q).slots.length = c ∧
      (t.heap q).activeCount = (t.heap q).nextUnusedOffset ∧
      (t.heap q).nextUnusedOffset < c ∧
      ∀ s ∈ (t.heap q).slots.drop (t.heap q).nextUnusedOffset, s.active = false)

end Table

namespace TableObject

/-- A table object right after initialisation: no block was ever allocated, no
tuple loaded, and a block holds at least one tuple. -/
def Fresh (t : TableObject) : Prop :=
  0 < t.store.m_tuplesPerBlock ∧ t.store.m_data = [] ∧ t.store.m_blocksWithSpace = [] ∧
  t.store.nextAddress = 0 ∧ t.store.m_tupleCount = 0 ∧ t.loadedTuples = []

instance (t : TableObject) : Decidable t.Fresh := by
  unfold Fresh; infer_instance

/-- The two table objects were set up alike: same schema, column count and
names, and same identity (database id, name, table type, indexes). -/
def SameSetup (t other : TableObject) : Prop :=
  t.m_schema = other.m_schema ∧ t.m_columnCount = other.m_columnCount ∧
  t.m_databaseId = other.m_databaseId ∧ t.m_name = other.m_name ∧
  t.tableType = other.tableType ∧ t.indexes = other.indexes

instance (t other : TableObject) : Decidable (t.SameSetup other) := by
  unfold SameSetup; infer_instance

/-! ## Example table objects -/

/-- A tuple serializer for the examples: the number of payload bytes, then the
payload. -/
def exampleSerializeTuple (s : TupleSlot) : List Nat :=
  s.payload.length :: s.payload

/-- The tuple deserializer that goes with `exampleSerializeTuple`. -/
def exampleDeserializeTuple : List Nat → Option (List Nat × List Nat)
  | [] => none
  | len :: rest => if rest.length < len then none else some (rest.take len, rest.drop len)

/-- An initialised table object over the given storage state: header of eight
bytes per tuple, allocation target of 64 bytes, no index. -/
def exampleObject (store : Table) (types : List Int) (names : List (List Nat)) : TableObject :=
  { initializeWithColumns 8 (constructed 64) ⟨types, 8⟩ names with
    store := store
    m_databaseId := 1
    m_name := [84]
    tableType := [80] }

/-- A table object right after initialisation with the given columns. -/
def exampleFresh (types : List Int) (names : List (List Nat)) : TableObject :=
  { initializeWithColumns 8 (constructed 64) ⟨types, 8⟩ names with
    m_databaseId := 1
    m_name := [84]
    tableType := [80] }

/-- A table of one column `A` holding the tuples 7, 9, 8 and 5 in two blocks. -/
def oneColumnTable : TableObject :=
  exampleObject Table.twoHalfBlocks [6] [[65]]

/-- The table `oneColumnTable` with 6 in the place of the tuple 9. -/
def oneColumnTableChanged : TableObject :=
  exampleObject (Table.exampleTable 4 4 [(10, [7, 6], some false), (20, [8, 5], some false)])
    [6] [[65]]

/-- A table of three columns `A`, `B`, `C` holding no tuple (Scenario D). -/
def threeColumnTable : TableObject :=
  exampleFresh [6, 9, 5] [[65], [66], [67]]

/-- A freshly initialised table of two columns `A`, `B` (Scenario D). -/
def twoColumnTable : TableObject :=
  exampleFresh [6, 9] [[65], [66]]

/-- A freshly initialised table of one column `A`. -/
def oneColumnFresh : TableObject :=
  exampleFresh [6] [[65]]

end TableObject

end voltdb

namespace voltdb
namespace Table

/-- A compaction predicate that is false once no block can be freed: the
active tuples would fit into one block fewer than the table has. -/
def blockCanBeFreed (t : Table) : Bool :=
  decide (t.m_tupleCount + t.m_tuplesPerBlock ≤ t.m_data.length * t.m_tuplesPerBlock)

/-- Two blocks of eight slots holding five tuples each, in the not-pending
partition. -/
def twoFiveEighthBlocks : Table :=
  exampleTable 4 8 [(10, [1, 2, 3, 4, 5], some false), (20, [6, 7, 8, 9, 10], some false)]

end Table
end voltdb

namespace voltdb

/-! ## Basic facts: ordered sets -/

theorem mem_setInsert {a x : Nat} {s : List Nat} : x ∈ setInsert a s ↔ x = a ∨ x ∈ s := by
  unfold setInsert
  split
  · constructor
    · intro h; exact Or.inr h
    · rintro (h | h)
      · subst h; assumption
      · exact h
  · simp [List.mem_orderedInsert]

theorem mem_setErase {a x : Nat} {s : List Nat} : x ∈ setErase a s ↔ x ∈ s ∧ x ≠ a := by
  simp [setErase, List.mem_filter]

theorem nodup_setErase {a : Nat} {s : List Nat} (h : s.Nodup) : (setErase a s).Nodup := by
  unfold setErase
  exact h.filter _

theorem nodup_setInsert {a : Nat} {s : List Nat} (h : s.Nodup) : (setInsert a s).Nodup := by
  unfold setInsert
  split
  · exact h
  · next hn =>
    have hp : (List.orderedInsert (fun x y => x ≤ y) a s).Perm (a :: s) :=
      List.perm_orderedInsert _ a s
    exact hp.nodup_iff.mpr (List.nodup_cons.mpr ⟨hn, h⟩)

theorem setErase_of_not_mem {a : Nat} {s : List Nat} (h : a ∉ s) : setErase a s = s := by
  unfold setErase
  rw [List.filter_eq_self]
  intro x hx
  simp only [ne_eq, decide_not, Bool.not_eq_true', decide_eq_false_iff_not]
  rintro rfl
  exact h hx

theorem sum_map_setErase (f : Nat → Nat) (a : Nat) (s : List Nat) (h : f a = 0) :
    ((setErase a s).map f).sum = (s.map f).sum := by
  induction s with
  | nil => rfl
  | cons x xs ih =>
    unfold setErase at ih ⊢
    simp only [ne_eq, decide_not] at ih ⊢
    by_cases hx : x = a
    · subst hx
      simp [List.filter_cons, h, ih]
    · simp [List.filter_cons, hx, ih]

theorem sum_map_update (f : Nat → Nat) (a v : Nat) (s : List Nat) (hs : s.Nodup) (ha : a ∈ s) :
    (s.map (Function.update f a v)).sum + f a = (s.map f).sum + v := by
  induction s with
  | nil => simp at ha
  | cons x xs ih =>
    have hnd := List.nodup_cons.mp hs
    by_cases hx : x = a
    · subst hx
      have hrest : xs.map (Function.update f x v) = xs.map f := by
        apply List.map_congr_left
        intro y hy
        have : y ≠ x := by
          rintro rfl
          exact hnd.1 hy
        simp [Function.update_noteq this]
      simp only [List.map_cons, List.sum_cons, Function.update_same, hrest]
      omega
    · have hax : a ∈ xs := by
        rcases List.mem_cons.mp ha with h | h
        · exact absurd h.symm hx
        · exact h
      have := ih hnd.2 hax
      simp only [List.map_cons, List.sum_cons, Function.update_noteq hx]
      omega

theorem sum_map_update_of_not_mem (f : Nat → Nat) (a v : Nat) (s : List Nat) (ha : a ∉ s) :
    (s.map (Function.update f a v)).sum = (s.map f).sum := by
  congr 1
  apply List.map_congr_left
  intro y hy
  have : y ≠ a := by
    rintro rfl
    exact ha hy
  simp [Function.update_noteq this]

end voltdb

namespace voltdb

/-! ## Basic facts: blocks -/

namespace TupleBlock

theorem nextFreeTuple_fields (B : Nat) (b : TupleBlock) :
    (b.nextFreeTuple B).1.activeCount = b.activeCount + 1 ∧
    (b.nextFreeTuple B).1.capacity = b.capacity ∧
    (b.nextFreeTuple B).1.address = b.address ∧
    (b.nextFreeTuple B).1.currentBucket = b.currentBucket ∧
    (b.nextFreeTuple B).1.lastCompactionOffset = b.lastCompactionOffset ∧
    (b.nextFreeTuple B).1.slots = b.slots ∧
    (b.nextFreeTuple B).2.2 = bucketChange B b.capacity b.activeCount (b.activeCount + 1) := by
  unfold nextFreeTuple
  cases b.freeList <;> simp

/-- What `mergeLoop` keeps and conserves. -/
theorem mergeLoop_fields (B : Nat) (os : List Nat) :
    ∀ (d s : TupleBlock) (r : List Relocation),
      (mergeLoop B os d s r).1.capacity = d.capacity ∧
      (mergeLoop B os d s r).1.address = d.address ∧
      (mergeLoop B os d s r).1.currentBucket = d.currentBucket ∧
      (mergeLoop B os d s r).1.lastCompactionOffset = d.lastCompactionOffset ∧
      (mergeLoop B os d s r).2.1.capacity = s.capacity ∧
      (mergeLoop B os d s r).2.1.address = s.address ∧
      (mergeLoop B os d s r).2.1.currentBucket = s.currentBucket ∧
      (mergeLoop B os d s r).2.1.lastCompactionOffset = s.lastCompactionOffset ∧
      (mergeLoop B os d s r).1.activeCount + (mergeLoop B os d s r).2.1.activeCount
        = d.activeCount + s.activeCount ∧
      (mergeLoop B os d s r).2.1.activeCount ≤ s.activeCount ∧
      (d.activeCount ≤ d.capacity →
        (mergeLoop B os d s r).1.activeCount ≤ d.capacity) := by
  induction os with
  | nil => intro d s r; simp [mergeLoop]
  | cons o os ih =>
    intro d s r
    unfold mergeLoop
    by_cases hc : (d.hasFreeTuples && !s.isEmpty) = true
    · rw [if_pos hc]
      by_cases ha : (s.slotAt o).active = true
      · rw [if_pos ha]
        simp only [Bool.and_eq_true, Bool.not_eq_true', hasFreeTuples, isEmpty,
          decide_eq_true_eq, decide_eq_false_iff_not] at hc
        have hn := nextFreeTuple_fields B d
        obtain ⟨h1, h2, h3, h4, h5, h6, h7, h8, h9, h10, h11⟩ := ih
          { (d.nextFreeTuple B).1 with
            slots := (d.nextFreeTuple B).1.slots.set (d.nextFreeTuple B).2.1 (s.slotAt o) }
          (freeTuple B
            { s with slots := s.slots.set o { s.slotAt o with active := false } } o).1
          (r ++ [((s.address, o), (d.address, (d.nextFreeTuple B).2.1))])
        have h9a : _ = (d.nextFreeTuple B).1.activeCount + (s.activeCount - 1) := h9
        have h10a : _ ≤ s.activeCount - 1 := h10
        have h11a : (d.nextFreeTuple B).1.activeCount ≤ (d.nextFreeTuple B).1.capacity → _ := h11
        rw [hn.1] at h9a
        rw [hn.1, hn.2.1] at h11a
        refine ⟨h1.trans hn.2.1, h2.trans hn.2.2.1, h3.trans hn.2.2.2.1,
          h4.trans hn.2.2.2.2.1, h5, h6, h7, h8, ?_, ?_, ?_⟩
        · exact h9a.trans (by omega)
        · exact h10a.trans (by omega)
        · intro _
          exact h11a (by omega)
      · rw [if_neg ha]
        exact ih d s r
    · rw [if_neg hc]
      simp

/-- A merge from an empty source moves nothing. -/
theorem mergeLoop_of_isEmpty (B : Nat) (os : List Nat) (d s : TupleBlock)
    (r : List Relocation) (h : s.isEmpty = true) : mergeLoop B os d s r = (d, s, r) := by
  cases os with
  | nil => rfl
  | cons o os => simp [mergeLoop, h]

theorem bucketChange_self (B c n : Nat) : bucketChange B c n n = none := by
  simp [bucketChange]

theorem merge_of_isEmpty (B : Nat) (d s : TupleBlock) (h : s.isEmpty = true) :
    merge B d s = ((d, s, []), (none, none)) := by
  simp [merge, mergeLoop_of_isEmpty B _ d s [] h, bucketChange_self]

/-- What `merge` keeps, conserves and reports. -/
theorem merge_fields (B : Nat) (d s : TupleBlock) :
    (merge B d s).1.1.capacity = d.capacity ∧
    (merge B d s).1.1.address = d.address ∧
    (merge B d s).1.1.currentBucket = d.currentBucket ∧
    (merge B d s).1.2.1.capacity = s.capacity ∧
    (merge B d s).1.2.1.address = s.address ∧
    (merge B d s).1.2.1.currentBucket = s.currentBucket ∧
    (merge B d s).1.1.activeCount + (merge B d s).1.2.1.activeCount
      = d.activeCount + s.activeCount ∧
    (merge B d s).1.2.1.activeCount ≤ s.activeCount ∧
    (merge B d s).2.1
      = bucketChange B d.capacity d.activeCount (merge B d s).1.1.activeCount ∧
    (merge B d s).2.2
      = bucketChange B s.capacity s.activeCount (merge B d s).1.2.1.activeCount := by
  obtain ⟨h1, h2, h3, _, h5, h6, h7, _, h9, h10, _⟩ :=
    mergeLoop_fields B (List.range s.lastCompactionOffset) d s []
  exact ⟨h1, h2, h3, h5, h6, h7, h9, h10, rfl, rfl⟩

end TupleBlock

/-! ## Basic facts: the table's collections -/

namespace Table

theorem bucketMap_setBucket (t : Table) (p q : Bool) (i j : Nat) (s : List Nat) :
    (t.setBucket p i s).bucketMap q j = if q = p ∧ j = i then s else t.bucketMap q j := by
  cases p <;> cases q <;> simp [setBucket, bucketMap, Function.update_apply]

theorem setBucket_fields (t : Table) (p : Bool) (i : Nat) (s : List Nat) :
    (t.setBucket p i s).heap = t.heap ∧
    (t.setBucket p i s).m_data = t.m_data ∧
    (t.setBucket p i s).m_blocksWithSpace = t.m_blocksWithSpace ∧
    (t.setBucket p i s).m_blocksNotPendingSnapshot = t.m_blocksNotPendingSnapshot ∧
    (t.setBucket p i s).m_blocksPendingSnapshot = t.m_blocksPendingSnapshot ∧
    (t.setBucket p i s).m_tupleCount = t.m_tupleCount ∧
    (t.setBucket p i s).m_tuplesPerBlock = t.m_tuplesPerBlock ∧
    (t.setBucket p i s).nextAddress = t.nextAddress ∧
    (t.setBucket p i s).relocated = t.relocated ∧
    (t.setBucket p i s).compactedAway = t.compactedAway ∧
    (t.setBucket p i s).mergeCalls = t.mergeCalls := by
  cases p <;> simp [setBucket]

/-- The fields `swapToBucket` leaves alone, and the back-reference it writes. -/
theorem swapToBucket_fields (t : Table) (a : Nat) (p : Bool) (i : Nat) :
    (t.swapToBucket a p i).heap
      = Function.update t.heap a { t.heap a with currentBucket := some (p, i) } ∧
    (t.swapToBucket a p i).m_data = t.m_data ∧
    (t.swapToBucket a p i).m_blocksWithSpace = t.m_blocksWithSpace ∧
    (t.swapToBucket a p i).m_blocksNotPendingSnapshot = t.m_blocksNotPendingSnapshot ∧
    (t.swapToBucket a p i).m_blocksPendingSnapshot = t.m_blocksPendingSnapshot ∧
    (t.swapToBucket a p i).m_tupleCount = t.m_tupleCount ∧
    (t.swapToBucket a p i).m_tuplesPerBlock = t.m_tuplesPerBlock ∧
    (t.swapToBucket a p i).nextAddress = t.nextAddress ∧
    (t.swapToBucket a p i).relocated = t.relocated ∧
    (t.swapToBucket a p i).compactedAway = t.compactedAway ∧
    (t.swapToBucket a p i).mergeCalls = t.mergeCalls := by
  unfold swapToBucket
  rcases h : (t.heap a).currentBucket with _ | ⟨q, j⟩
  · simp [setBlock, setBucket_fields]
  · simp [setBlock, setBucket_fields]

/-- Membership in a bucket after `swapToBucket`. -/
theorem mem_bucketMap_swapToBucket (t : Table) (a x : Nat) (p q : Bool) (i j : Nat) :
    x ∈ (t.swapToBucket a p i).bucketMap q j ↔
      (x = a ∧ q = p ∧ j = i) ∨
      (x ∈ t.bucketMap q j ∧ ¬(x = a ∧ (t.heap a).currentBucket = some (q, j))) := by
  unfold swapToBucket
  rcases h : (t.heap a).currentBucket with _ | ⟨q0, j0⟩
  · simp only [setBlock]
    show x ∈ (t.setBucket p i (setInsert a (t.bucketMap p i))).bucketMap q j ↔ _
    rw [bucketMap_setBucket]
    by_cases hq : q = p ∧ j = i
    · obtain ⟨rfl, rfl⟩ := hq
      simp [mem_setInsert]
    · simp only [if_neg hq]
      constructor
      · intro hx; exact Or.inr ⟨hx, by simp⟩
      · rintro (⟨_, h1, h2⟩ | ⟨hx, _⟩)
        · exact absurd ⟨h1, h2⟩ hq
        · exact hx
  · simp only [setBlock]
    show x ∈ ((t.setBucket q0 j0 (setErase a (t.bucketMap q0 j0))).setBucket p i
        (setInsert a ((t.setBucket q0 j0 (setErase a (t.bucketMap q0 j0))).bucketMap p i))).bucketMap
          q j ↔ _
    rw [bucketMap_setBucket]
    have key : x ∈ (t.setBucket q0 j0 (setErase a (t.bucketMap q0 j0))).bucketMap q j ↔
        (x ∈ t.bucketMap q j ∧ ¬(x = a ∧ q0 = q ∧ j0 = j)) := by
      rw [bucketMap_setBucket]
      by_cases hq0 : q = q0 ∧ j = j0
      · obtain ⟨rfl, rfl⟩ := hq0
        simp [mem_setErase]
      · simp only [if_neg hq0]
        constructor
        · intro hx
          refine ⟨hx, ?_⟩
          rintro ⟨_, h1, h2⟩
          exact hq0 ⟨h1.symm, h2.symm⟩
        · exact fun hx => hx.1
    by_cases hq : q = p ∧ j = i
    · obtain ⟨rfl, rfl⟩ := hq
      simp only [if_true, and_self, mem_setInsert, key, Option.some.injEq, Prod.mk.injEq]
      tauto
    · simp only [if_neg hq, key, Option.some.injEq, Prod.mk.injEq]
      tauto

end Table

end voltdb

namespace voltdb
namespace Table

/-! ## Basic facts: the two searches -/

theorem findFullest_mem (B : Nat) (bm : Nat → List Nat) (f : Nat)
    (h : findFullest B bm = some f) : ∃ i, i < B - 1 ∧ f ∈ bm i := by
  unfold findFullest at h
  have hm := List.mem_of_mem_head? h
  rw [List.mem_filterMap] at hm
  obtain ⟨i, hi, hf⟩ := hm
  refine ⟨i, ?_, List.mem_of_mem_head? hf⟩
  simpa using hi

theorem findLightest_mem (bm : Nat → List Nat) (f l : Nat) (idxs : List Nat)
    (h : findLightest bm f idxs = some l) : ∃ i ∈ idxs, l ∈ bm i := by
  induction idxs with
  | nil => simp [findLightest] at h
  | cons ii rest ih =>
    unfold findLightest at h
    rcases hb : bm ii with _ | ⟨x, more⟩
    · rw [hb] at h
      obtain ⟨i, hi, hl⟩ := ih h
      exact ⟨i, List.mem_cons_of_mem _ hi, hl⟩
    · rw [hb] at h
      dsimp only at h
      by_cases hx : x ≠ f
      · rw [if_pos hx] at h
        simp only [Option.some.injEq] at h
        subst h
        exact ⟨ii, List.mem_cons_self _ _, by rw [hb]; exact List.mem_cons_self _ _⟩
      · rw [if_neg hx] at h
        rcases more with _ | ⟨y, more2⟩
        · obtain ⟨i, hi, hl⟩ := ih h
          exact ⟨i, List.mem_cons_of_mem _ hi, hl⟩
        · simp only [Option.some.injEq] at h
          subst h
          exact ⟨ii, List.mem_cons_self _ _, by rw [hb]; simp⟩

theorem findLightest_ne (bm : Nat → List Nat) (f l : Nat) (idxs : List Nat)
    (hnd : ∀ i ∈ idxs, (bm i).Nodup)
    (h : findLightest bm f idxs = some l) : l ≠ f := by
  induction idxs with
  | nil => simp [findLightest] at h
  | cons ii rest ih =>
    unfold findLightest at h
    have hnd2 : ∀ i ∈ rest, (bm i).Nodup := fun i hi => hnd i (List.mem_cons_of_mem _ hi)
    have hii := hnd ii (List.mem_cons_self _ _)
    rcases hb : bm ii with _ | ⟨x, more⟩
    · rw [hb] at h
      exact ih hnd2 h
    · rw [hb] at h hii
      dsimp only at h
      by_cases hx : x ≠ f
      · rw [if_pos hx] at h
        simp only [Option.some.injEq] at h
        subst h
        exact hx
      · rw [if_neg hx] at h
        rcases more with _ | ⟨y, more2⟩
        · exact ih hnd2 h
        · simp only [Option.some.injEq] at h
          subst h
          have hxf : x = f := not_not.mp hx
          subst hxf
          intro hy
          subst hy
          simp at hii

theorem findLightest_none (bm : Nat → List Nat) (f : Nat) (idxs : List Nat)
    (h : findLightest bm f idxs = none) : ∀ i ∈ idxs, ∀ a ∈ bm i, a = f := by
  induction idxs with
  | nil => intro i hi; simp at hi
  | cons ii rest ih =>
    unfold findLightest at h
    intro i hi a ha
    rcases hb : bm ii with _ | ⟨x, more⟩
    · rw [hb] at h
      rcases List.mem_cons.mp hi with rfl | hi
      · rw [hb] at ha; simp at ha
      · exact ih h i hi a ha
    · rw [hb] at h
      dsimp only at h
      by_cases hx : x ≠ f
      · rw [if_pos hx] at h
        simp at h
      · rw [if_neg hx] at h
        rcases more with _ | ⟨y, more2⟩
        · rcases List.mem_cons.mp hi with rfl | hi
          · rw [hb] at ha
            simp only [List.mem_singleton] at ha
            rw [ha]; exact not_not.mp hx
          · exact ih h i hi a ha
        · simp at h

theorem findLightest_congr (bm bm2 : Nat → List Nat) (f : Nat) (idxs : List Nat)
    (h : ∀ i ∈ idxs, bm i = bm2 i) : findLightest bm f idxs = findLightest bm2 f idxs := by
  induction idxs with
  | nil => rfl
  | cons ii rest ih =>
    unfold findLightest
    rw [← h ii (List.mem_cons_self _ _), ih (fun i hi => h i (List.mem_cons_of_mem _ hi))]

/-! ## Basic facts: one draining step -/

theorem mergeBlocks_fields (B : Nat) (t : Table) (f l : Nat) :
    (mergeBlocks B t f l).1.heap
      = Function.update (Function.update t.heap f (TupleBlock.merge B (t.heap f) (t.heap l)).1.1)
          l (TupleBlock.merge B (t.heap f) (t.heap l)).1.2.1 ∧
    (mergeBlocks B t f l).1.m_data = t.m_data ∧
    (mergeBlocks B t f l).1.m_blocksWithSpace = t.m_blocksWithSpace ∧
    (mergeBlocks B t f l).1.m_blocksNotPendingSnapshot = t.m_blocksNotPendingSnapshot ∧
    (mergeBlocks B t f l).1.m_blocksPendingSnapshot = t.m_blocksPendingSnapshot ∧
    (mergeBlocks B t f l).1.m_tupleCount = t.m_tupleCount ∧
    (mergeBlocks B t f l).1.m_tuplesPerBlock = t.m_tuplesPerBlock ∧
    (mergeBlocks B t f l).1.nextAddress = t.nextAddress ∧
    (∀ p, (mergeBlocks B t f l).1.bucketMap p = t.bucketMap p) ∧
    (mergeBlocks B t f l).1.mergeCalls = t.mergeCalls ++ [(f, l)] ∧
    (mergeBlocks B t f l).2 = (TupleBlock.merge B (t.heap f) (t.heap l)).2 := by
  refine ⟨rfl, rfl, rfl, rfl, rfl, rfl, rfl, rfl, ?_, rfl, rfl⟩
  intro p; cases p <;> rfl

/-- The three ways a draining step ends: the emptied `lightest` is removed, or
it is moved to the bucket the merge reported, or it stays where it is. -/
theorem drainStep_cases (B : Nat) (p : Bool) (f l : Nat) (t : Table) (fbc : Option Nat) :
    (drainStep B p f l t fbc).2
      = (match (TupleBlock.merge B (t.heap f) (t.heap l)).2.1 with
          | some b => some b
          | none => fbc) ∧
    (((TupleBlock.merge B (t.heap f) (t.heap l)).1.2.1.isEmpty = true ∧
        (drainStep B p f l t fbc).1 = (mergeBlocks B t f l).1.removeCompactedBlock l) ∨
      ((TupleBlock.merge B (t.heap f) (t.heap l)).1.2.1.isEmpty = false ∧
        ∃ b, (TupleBlock.merge B (t.heap f) (t.heap l)).2.2 = some b ∧
          (drainStep B p f l t fbc).1 = (mergeBlocks B t f l).1.swapToBucket l p b) ∨
      ((TupleBlock.merge B (t.heap f) (t.heap l)).1.2.1.isEmpty = false ∧
        (TupleBlock.merge B (t.heap f) (t.heap l)).2.2 = none ∧
          (drainStep B p f l t fbc).1 = (mergeBlocks B t f l).1)) := by
  have hl : (mergeBlocks B t f l).1.heap l = (TupleBlock.merge B (t.heap f) (t.heap l)).1.2.1 := by
    rw [(mergeBlocks_fields B t f l).1, Function.update_same]
  refine ⟨rfl, ?_⟩
  unfold drainStep
  simp only [hl]
  rcases he : (TupleBlock.merge B (t.heap f) (t.heap l)).1.2.1.isEmpty with _ | _
  · right
    rcases hb : (TupleBlock.merge B (t.heap f) (t.heap l)).2.2 with _ | b
    · right
      refine ⟨rfl, rfl, ?_⟩
      simp [(mergeBlocks_fields B t f l).2.2.2.2.2.2.2.2.2.2, hb]
    · left
      refine ⟨rfl, b, rfl, ?_⟩
      simp [(mergeBlocks_fields B t f l).2.2.2.2.2.2.2.2.2.2, hb]
  · left
    exact ⟨rfl, by simp⟩

/-- Induction over the compaction loop: a property of the loop state that
every draining step keeps gives a property of every way the loop ends. -/
theorem compactionLoop_induction (B : Nat) (p : Bool) (f : Nat)
    (P : Table → Option Nat → Prop) (Q : Outcome × Table → Prop)
    (hstep : ∀ t fbc l, P t fbc → (t.heap f).hasFreeTuples = true →
      findLightest (t.bucketMap p) f (List.range B) = some l →
      P (drainStep B p f l t fbc).1 (drainStep B p f l t fbc).2)
    (hfalse : ∀ t fbc, P t fbc → (t.heap f).hasFreeTuples = true →
      findLightest (t.bucketMap p) f (List.range B) = none → Q (Outcome.returned false, t))
    (htrue : ∀ t fbc, P t fbc → (t.heap f).hasFreeTuples = false →
      Q (Outcome.returned true, finishCompaction p f t fbc))
    (hfuel : ∀ t fbc, P t fbc → Q (Outcome.outOfFuel, t)) :
    ∀ fuel t fbc, P t fbc → Q (compactionLoop B p f fuel t fbc) := by
  intro fuel
  induction fuel with
  | zero => intro t fbc h; exact hfuel t fbc h
  | succ n ih =>
    intro t fbc h
    unfold compactionLoop
    by_cases hf : (t.heap f).hasFreeTuples = true
    · rw [if_pos hf]
      rcases hl : findLightest (t.bucketMap p) f (List.range B) with _ | l
      · exact hfalse t fbc h hf hl
      · exact ih _ _ (hstep t fbc l h hf hl)
    · rw [if_neg hf]
      exact htrue t fbc h (by simpa using hf)

end Table
end voltdb

namespace voltdb
namespace Table

theorem nodup_bucketMap_swapToBucket {n : Nat} (t : Table) (a : Nat) (p q : Bool) (i j : Nat)
    (h : ∀ q j, j < n → (t.bucketMap q j).Nodup) (hj : j < n) :
    ((t.swapToBucket a p i).bucketMap q j).Nodup := by
  unfold swapToBucket
  rcases hc : (t.heap a).currentBucket with _ | ⟨q0, j0⟩
  · show ((t.setBucket p i (setInsert a (t.bucketMap p i))).bucketMap q j).Nodup
    rw [bucketMap_setBucket]
    split
    · next hq => exact nodup_setInsert (hq.1 ▸ hq.2 ▸ h q j hj)
    · exact h q j hj
  · show (((t.setBucket q0 j0 (setErase a (t.bucketMap q0 j0))).setBucket p i
        (setInsert a ((t.setBucket q0 j0 (setErase a (t.bucketMap q0 j0))).bucketMap p i))).bucketMap
          q j).Nodup
    have key : ∀ q j, j < n →
        ((t.setBucket q0 j0 (setErase a (t.bucketMap q0 j0))).bucketMap q j).Nodup := by
      intro q j hj
      rw [bucketMap_setBucket]
      split
      · next hq => exact nodup_setErase (hq.1 ▸ hq.2 ▸ h q j hj)
      · exact h q j hj
    rw [bucketMap_setBucket]
    split
    · next hq => exact nodup_setInsert (hq.1 ▸ hq.2 ▸ key q j hj)
    · exact key q j hj

theorem removeCompactedBlock_fields (t : Table) (l : Nat) :
    (t.removeCompactedBlock l).heap = t.heap ∧
    (t.removeCompactedBlock l).m_data = setErase l t.m_data ∧
    (t.removeCompactedBlock l).m_blocksWithSpace = setErase l t.m_blocksWithSpace ∧
    (t.removeCompactedBlock l).m_blocksNotPendingSnapshot
      = setErase l t.m_blocksNotPendingSnapshot ∧
    (t.removeCompactedBlock l).m_blocksPendingSnapshot = setErase l t.m_blocksPendingSnapshot ∧
    (t.removeCompactedBlock l).m_tupleCount = t.m_tupleCount ∧
    (t.removeCompactedBlock l).m_tuplesPerBlock = t.m_tuplesPerBlock ∧
    (t.removeCompactedBlock l).nextAddress = t.nextAddress ∧
    (∀ p, (t.removeCompactedBlock l).bucketMap p = t.bucketMap p) ∧
    (t.removeCompactedBlock l).mergeCalls = t.mergeCalls := by
  refine ⟨rfl, rfl, rfl, rfl, rfl, rfl, rfl, rfl, ?_, rfl⟩
  intro p; cases p <;> rfl

/-- The block objects after a draining step: only `fullest` and `lightest`
change, into what the merge made of them (the back-reference of `lightest`
apart). -/
theorem drainStep_heap (B : Nat) (p : Bool) (f l : Nat) (t : Table) (fbc : Option Nat) :
    (∀ x, x ≠ f → x ≠ l → (drainStep B p f l t fbc).1.heap x = t.heap x) ∧
    (l ≠ f → (drainStep B p f l t fbc).1.heap f
      = (TupleBlock.merge B (t.heap f) (t.heap l)).1.1) ∧
    (∃ cb, (drainStep B p f l t fbc).1.heap l
      = { (TupleBlock.merge B (t.heap f) (t.heap l)).1.2.1 with currentBucket := cb }) := by
  have hm := (mergeBlocks_fields B t f l).1
  obtain ⟨_, ⟨_, h⟩ | ⟨_, b, _, h⟩ | ⟨_, _, h⟩⟩ := drainStep_cases B p f l t fbc
  · rw [h, (removeCompactedBlock_fields _ l).1, hm]
    refine ⟨fun x hf hl => ?_, fun hlf => ?_,
      ⟨(TupleBlock.merge B (t.heap f) (t.heap l)).1.2.1.currentBucket, ?_⟩⟩
    · rw [Function.update_noteq hl, Function.update_noteq hf]
    · rw [Function.update_noteq (Ne.symm hlf), Function.update_same]
    · rw [Function.update_same]
  · rw [h, (swapToBucket_fields _ l p b).1, hm]
    refine ⟨fun x hf hl => ?_, fun hlf => ?_, ⟨some (p, b), ?_⟩⟩
    · rw [Function.update_noteq hl, Function.update_noteq hl, Function.update_noteq hf]
    · rw [Function.update_noteq (Ne.symm hlf), Function.update_noteq (Ne.symm hlf),
        Function.update_same]
    · rw [Function.update_same, Function.update_same]
  · rw [h, hm]
    refine ⟨fun x hf hl => ?_, fun hlf => ?_,
      ⟨(TupleBlock.merge B (t.heap f) (t.heap l)).1.2.1.currentBucket, ?_⟩⟩
    · rw [Function.update_noteq hl, Function.update_noteq hf]
    · rw [Function.update_noteq (Ne.symm hlf), Function.update_same]
    · rw [Function.update_same]

/-- The collections after a draining step: `lightest` is erased from the four
sets exactly when the merge emptied it; the counters do not change. -/
theorem drainStep_sets (B : Nat) (p : Bool) (f l : Nat) (t : Table) (fbc : Option Nat) :
    (drainStep B p f l t fbc).1.m_data
      = (if (TupleBlock.merge B (t.heap f) (t.heap l)).1.2.1.isEmpty = true
          then setErase l t.m_data else t.m_data) ∧
    (drainStep B p f l t fbc).1.m_blocksWithSpace
      = (if (TupleBlock.merge B (t.heap f) (t.heap l)).1.2.1.isEmpty = true
          then setErase l t.m_blocksWithSpace else t.m_blocksWithSpace) ∧
    (drainStep B p f l t fbc).1.m_blocksNotPendingSnapshot
      = (if (TupleBlock.merge B (t.heap f) (t.heap l)).1.2.1.isEmpty = true
          then setErase l t.m_blocksNotPendingSnapshot else t.m_blocksNotPendingSnapshot) ∧
    (drainStep B p f l t fbc).1.m_blocksPendingSnapshot
      = (if (TupleBlock.merge B (t.heap f) (t.heap l)).1.2.1.isEmpty = true
          then setErase l t.m_blocksPendingSnapshot else t.m_blocksPendingSnapshot) ∧
    (drainStep B p f l t fbc).1.m_tupleCount = t.m_tupleCount ∧
    (drainStep B p f l t fbc).1.m_tuplesPerBlock = t.m_tuplesPerBlock ∧
    (drainStep B p f l t fbc).1.nextAddress = t.nextAddress ∧
    (drainStep B p f l t fbc).1.mergeCalls = t.mergeCalls ++ [(f, l)] := by
  obtain ⟨m1, m2, m3, m4, m5, m6, m7, m8, _, m10, _⟩ := mergeBlocks_fields B t f l
  obtain ⟨_, ⟨he, h⟩ | ⟨he, b, _, h⟩ | ⟨he, _, h⟩⟩ := drainStep_cases B p f l t fbc
  · obtain ⟨_, r2, r3, r4, r5, r6, r7, r8, _, r10⟩ :=
      removeCompactedBlock_fields (mergeBlocks B t f l).1 l
    rw [h, he]
    simp only [if_true, r2, r3, r4, r5, r6, r7, r8, r10, m2, m3, m4, m5, m6, m7, m8, m10,
      and_self]
  · obtain ⟨_, r2, r3, r4, r5, r6, r7, r8, _, _, r11⟩ :=
      swapToBucket_fields (mergeBlocks B t f l).1 l p b
    rw [h, he]
    simp only [Bool.false_eq_true, if_false, r2, r3, r4, r5, r6, r7, r8, r11, m2, m3, m4, m5,
      m6, m7, m8, m10, and_self]
  · rw [h, he]
    simp only [Bool.false_eq_true, if_false, m2, m3, m4, m5, m6, m7, m8, m10, and_self]

/-- The buckets after a draining step: a bucket gains at most `lightest`, and
the buckets stay sets. -/
theorem drainStep_buckets (B : Nat) (p : Bool) (f l : Nat) (t : Table) (fbc : Option Nat) :
    (∀ q j x, x ∈ (drainStep B p f l t fbc).1.bucketMap q j → x = l ∨ x ∈ t.bucketMap q j) ∧
    (∀ q j x, x ≠ l → (x ∈ (drainStep B p f l t fbc).1.bucketMap q j ↔ x ∈ t.bucketMap q j)) ∧
    (∀ n, (∀ q j, j < n → (t.bucketMap q j).Nodup) →
      ∀ q j, j < n → ((drainStep B p f l t fbc).1.bucketMap q j).Nodup) := by
  have hm := (mergeBlocks_fields B t f l).2.2.2.2.2.2.2.2.1
  obtain ⟨_, ⟨_, h⟩ | ⟨_, b, _, h⟩ | ⟨_, _, h⟩⟩ := drainStep_cases B p f l t fbc
  · have hr := (removeCompactedBlock_fields (mergeBlocks B t f l).1 l).2.2.2.2.2.2.2.2.1
    rw [h]
    refine ⟨fun q j x hx => Or.inr ?_, fun q j x _ => ?_, fun n hn q j hj => ?_⟩
    · rwa [hr, hm] at hx
    · rw [hr, hm]
    · rw [hr, hm]; exact hn q j hj
  · rw [h]
    refine ⟨fun q j x hx => ?_, fun q j x hxl => ?_, fun n hn q j hj => ?_⟩
    · rw [mem_bucketMap_swapToBucket, hm] at hx
      rcases hx with ⟨hx, _⟩ | ⟨hx, _⟩
      · exact Or.inl hx
      · exact Or.inr hx
    · rw [mem_bucketMap_swapToBucket, hm]
      constructor
      · rintro (⟨hx, _⟩ | ⟨hx, _⟩)
        · exact absurd hx hxl
        · exact hx
      · intro hx
        exact Or.inr ⟨hx, fun hh => hxl hh.1⟩
    · apply nodup_bucketMap_swapToBucket _ _ _ _ _ _ _ hj
      intro q j hj
      rw [hm]; exact hn q j hj
  · rw [h]
    refine ⟨fun q j x hx => Or.inr ?_, fun q j x _ => ?_, fun n hn q j hj => ?_⟩
    · rwa [hm] at hx
    · rw [hm]
    · rw [hm]; exact hn q j hj

end Table
end voltdb

namespace voltdb
namespace Table

/-- The code after the loop touches no active count, nor `m_data`, nor the
tuple count. -/
theorem finishCompaction_fields (p : Bool) (f : Nat) (t : Table) (fbc : Option Nat) :
    (∀ x, ((finishCompaction p f t fbc).heap x).activeCount = (t.heap x).activeCount) ∧
    (∀ x, ((finishCompaction p f t fbc).heap x).capacity = (t.heap x).capacity) ∧
    (∀ x, x ≠ f → (finishCompaction p f t fbc).heap x = t.heap x) ∧
    (finishCompaction p f t fbc).m_data = t.m_data ∧
    (finishCompaction p f t fbc).m_tupleCount = t.m_tupleCount ∧
    (finishCompaction p f t fbc).m_blocksNotPendingSnapshot = t.m_blocksNotPendingSnapshot ∧
    (finishCompaction p f t fbc).m_blocksPendingSnapshot = t.m_blocksPendingSnapshot ∧
    (finishCompaction p f t fbc).mergeCalls = t.mergeCalls := by
  unfold finishCompaction
  rcases fbc with _ | b
  · dsimp only
    split <;> simp
  · obtain ⟨h1, h2, _, h4, h5, h6, _, _, _, _, h11⟩ := swapToBucket_fields t f p b
    dsimp only
    have hx : ∀ x, ((t.swapToBucket f p b).heap x).activeCount = (t.heap x).activeCount ∧
        ((t.swapToBucket f p b).heap x).capacity = (t.heap x).capacity := by
      intro x
      rw [h1]
      by_cases hxf : x = f
      · subst hxf; simp
      · simp [Function.update_noteq hxf]
    have hy : ∀ x, x ≠ f → (t.swapToBucket f p b).heap x = t.heap x := by
      intro x hxf
      rw [h1, Function.update_noteq hxf]
    split
    · exact ⟨fun x => (hx x).1, fun x => (hx x).2, hy, h2, h6, h4, h5, h11⟩
    · exact ⟨fun x => (hx x).1, fun x => (hx x).2, hy, h2, h6, h4, h5, h11⟩

/-- The active counts after a draining step, as two updates of those before. -/
theorem drainStep_activeCount (B : Nat) (p : Bool) (f l : Nat) (t : Table) (fbc : Option Nat)
    (hlf : l ≠ f) :
    (fun a => ((drainStep B p f l t fbc).1.heap a).activeCount)
      = Function.update (Function.update (fun a => (t.heap a).activeCount) f
          (TupleBlock.merge B (t.heap f) (t.heap l)).1.1.activeCount) l
          (TupleBlock.merge B (t.heap f) (t.heap l)).1.2.1.activeCount := by
  obtain ⟨h1, h2, cb, h3⟩ := drainStep_heap B p f l t fbc
  funext x
  by_cases hxl : x = l
  · subst hxl
    rw [Function.update_same]
    show ((drainStep B p f x t fbc).1.heap x).activeCount = _
    rw [h3]
  · rw [Function.update_noteq hxl]
    by_cases hxf : x = f
    · subst hxf
      rw [Function.update_same]
      show ((drainStep B p x l t fbc).1.heap x).activeCount = _
      rw [h2 hlf]
    · rw [Function.update_noteq hxf]
      show ((drainStep B p f l t fbc).1.heap x).activeCount = _
      rw [h1 x hxf hxl]

/-- A draining step keeps the sum of the active counts over `m_data`. -/
theorem drainStep_activeSum (B : Nat) (p : Bool) (f l : Nat) (t : Table) (fbc : Option Nat)
    (hnd : t.m_data.Nodup) (hf : f ∈ t.m_data) (hlf : l ≠ f)
    (hl : l ∈ t.m_data ∨ (t.heap l).activeCount = 0) :
    (drainStep B p f l t fbc).1.activeSum = t.activeSum := by
  unfold activeSum
  rw [drainStep_activeCount B p f l t fbc hlf, (drainStep_sets B p f l t fbc).1]
  obtain ⟨_, _, _, _, _, _, hsum, hle, _, _⟩ := TupleBlock.merge_fields B (t.heap f) (t.heap l)
  set D := (TupleBlock.merge B (t.heap f) (t.heap l)).1.1.activeCount with hD
  set S := (TupleBlock.merge B (t.heap f) (t.heap l)).1.2.1.activeCount with hS
  set g : Nat → Nat := fun a => (t.heap a).activeCount with hg
  have hEmpty : (TupleBlock.merge B (t.heap f) (t.heap l)).1.2.1.isEmpty = true ↔ S = 0 := by
    simp [TupleBlock.isEmpty, hS]
  have hsum2 : D + S = g f + g l := hsum
  by_cases hmem : l ∈ t.m_data
  · have e1 := sum_map_update (Function.update g f D) l S t.m_data hnd hmem
    have e2 := sum_map_update g f D t.m_data hnd hf
    rw [Function.update_noteq hlf] at e1
    have hkey : (t.m_data.map (Function.update (Function.update g f D) l S)).sum
        = (t.m_data.map g).sum := by omega
    split
    · next he =>
      rw [sum_map_setErase _ l _ (by rw [Function.update_same]; exact hEmpty.mp he)]
      exact hkey
    · exact hkey
  · have h0 : g l = 0 := by
      rcases hl with h | h
      · exact absurd h hmem
      · exact h
    have hS0 : S = 0 := by
      have : S ≤ g l := hle
      omega
    have hDf : D = g f := by omega
    have hkey : (t.m_data.map (Function.update (Function.update g f D) l S)).sum
        = (t.m_data.map g).sum := by
      rw [sum_map_update_of_not_mem _ l S _ hmem, hDf, Function.update_eq_self]
    split
    · rw [setErase_of_not_mem hmem]; exact hkey
    · exact hkey

theorem countLoopInv_step (B : Nat) (p : Bool) (f c s l : Nat) (t : Table) (fbc : Option Nat)
    (h : CountLoopInv B p f c s t)
    (hl : findLightest (t.bucketMap p) f (List.range B) = some l) :
    CountLoopInv B p f c s (drainStep B p f l t fbc).1 := by
  obtain ⟨hnd, hf, hbn, hin, hc, hs⟩ := h
  have hlf : l ≠ f :=
    findLightest_ne _ f l _ (fun i hi => hbn p i (List.mem_range.mp hi)) hl
  obtain ⟨i, hi, hli⟩ := findLightest_mem _ f l _ hl
  have hlm := hin i (List.mem_range.mp hi) l hli
  obtain ⟨s1, _, _, _, s5, _, _, _⟩ := drainStep_sets B p f l t fbc
  obtain ⟨b1, _, b3⟩ := drainStep_buckets B p f l t fbc
  obtain ⟨g1, _, cb, g3⟩ := drainStep_heap B p f l t fbc
  obtain ⟨_, _, _, _, _, _, _, hle, _, _⟩ := TupleBlock.merge_fields B (t.heap f) (t.heap l)
  have hmem : ∀ a, a ≠ l → a ∈ t.m_data → a ∈ (drainStep B p f l t fbc).1.m_data := by
    intro a hal ha
    rw [s1]
    split
    · exact mem_setErase.mpr ⟨ha, hal⟩
    · exact ha
  refine ⟨?_, hmem f (Ne.symm hlf) hf, b3 B hbn, ?_, s5.trans hc,
    (drainStep_activeSum B p f l t fbc hnd hf hlf hlm).trans hs⟩
  · rw [s1]
    split
    · exact nodup_setErase hnd
    · exact hnd
  · intro j hj a ha
    by_cases hal : a = l
    · subst hal
      by_cases he : (TupleBlock.merge B (t.heap f) (t.heap a)).1.2.1.isEmpty = true
      · right
        rw [g3]
        simpa [TupleBlock.isEmpty] using he
      · rcases hlm with h | h
        · left
          rw [s1, if_neg he]
          exact h
        · right
          rw [g3]
          show (TupleBlock.merge B (t.heap f) (t.heap a)).1.2.1.activeCount = 0
          omega
    · have ha2 : a ∈ t.bucketMap p j := by
        rcases b1 p j a ha with h | h
        · exact absurd h hal
        · exact h
      by_cases haf : a = f
      · left
        rw [haf]
        exact hmem f (Ne.symm hlf) hf
      · rcases hin j hj a ha2 with h | h
        · exact Or.inl (hmem a hal h)
        · right
          rw [g1 a haf hal]
          exact h

end Table
end voltdb

namespace voltdb
namespace Table

/-! ## The compaction loop: unfolding and divergence -/

theorem doCompactionWithinSubset_of_fullest (B fuel : Nat) (p : Bool) (t : Table) (f : Nat)
    (h : findFullest B (t.bucketMap p) = some f) :
    doCompactionWithinSubset B fuel p t = compactionLoop B p f fuel t none := by
  simp [doCompactionWithinSubset, h]

theorem doCompactionWithinSubset_of_no_fullest (B fuel : Nat) (p : Bool) (t : Table)
    (h : findFullest B (t.bucketMap p) = none) :
    doCompactionWithinSubset B fuel p t = (Outcome.returned false, t) := by
  simp [doCompactionWithinSubset, h]

theorem compactionLoop_succ (B : Nat) (p : Bool) (f n : Nat) (t : Table) (fbc : Option Nat)
    (l : Nat) (hf : (t.heap f).hasFreeTuples = true)
    (hl : findLightest (t.bucketMap p) f (List.range B) = some l) :
    compactionLoop B p f (n + 1) t fbc
      = compactionLoop B p f n (drainStep B p f l t fbc).1 (drainStep B p f l t fbc).2 := by
  rw [compactionLoop]
  simp [hf, hl]

/-- Once `lightest` is an empty block that the search keeps finding while
`fullest` has a free slot, the loop only ever runs out of fuel, and it
relocates nothing more. -/
theorem compactionLoop_stuck (B : Nat) (p : Bool) (f l : Nat) (rl : List TupleBlock.Relocation) :
    ∀ fuel t fbc, ((t.heap f).hasFreeTuples = true ∧
        findLightest (t.bucketMap p) f (List.range B) = some l ∧ l ≠ f ∧
        (t.heap l).isEmpty = true ∧ t.relocated = rl) →
      (compactionLoop B p f fuel t fbc).1 = Outcome.outOfFuel ∧
      (compactionLoop B p f fuel t fbc).2.relocated = rl := by
  apply compactionLoop_induction B p f
    (fun t _ => (t.heap f).hasFreeTuples = true ∧
        findLightest (t.bucketMap p) f (List.range B) = some l ∧ l ≠ f ∧
        (t.heap l).isEmpty = true ∧ t.relocated = rl)
    (fun r => r.1 = Outcome.outOfFuel ∧ r.2.relocated = rl)
  · rintro t fbc l2 ⟨hf, hl, hlf, he, hr⟩ _ hl2
    have : l2 = l := by
      rw [hl] at hl2
      exact (Option.some.inj hl2).symm
    subst this
    have hm := TupleBlock.merge_of_isEmpty B (t.heap f) (t.heap l2) he
    obtain ⟨_, ⟨_, h⟩ | ⟨he2, _⟩ | ⟨he2, _⟩⟩ := drainStep_cases B p f l2 t fbc
    · rw [h]
      have hheap : (mergeBlocks B t f l2).1.heap = t.heap := by
        rw [(mergeBlocks_fields B t f l2).1, hm]
        simp
      have hb := (mergeBlocks_fields B t f l2).2.2.2.2.2.2.2.2.1 p
      have hrel : (mergeBlocks B t f l2).1.relocated = t.relocated := by
        show t.relocated ++ (TupleBlock.merge B (t.heap f) (t.heap l2)).1.2.2 = t.relocated
        rw [hm]; simp
      refine ⟨?_, ?_, hlf, ?_, ?_⟩
      · show ((mergeBlocks B t f l2).1.heap f).hasFreeTuples = true
        rw [hheap]; exact hf
      · rw [(removeCompactedBlock_fields _ l2).2.2.2.2.2.2.2.2.1 p, hb]; exact hl
      · show ((mergeBlocks B t f l2).1.heap l2).isEmpty = true
        rw [hheap]; exact he
      · show (mergeBlocks B t f l2).1.relocated = rl
        rw [hrel]; exact hr
    · rw [hm] at he2
      rw [he] at he2
      exact absurd he2 (by simp)
    · rw [hm] at he2
      rw [he] at he2
      exact absurd he2 (by simp)
  · rintro t fbc ⟨_, hl, _⟩ _ hn
    rw [hl] at hn
    exact absurd hn (by simp)
  · rintro t fbc ⟨hf, _⟩ hn
    rw [hf] at hn
    exact absurd hn (by simp)
  · rintro t fbc ⟨_, _, _, _, hr⟩
    exact ⟨rfl, hr⟩

/-- In the state of Scenario B the compaction of the not-pending partition
never returns, whatever the fuel. -/
theorem twoQuarterBlocks_outOfFuel (fuel : Nat) :
    (doCompactionWithinSubset 4 fuel false twoQuarterBlocks).1 = Outcome.outOfFuel := by
  rw [doCompactionWithinSubset_of_fullest 4 fuel false twoQuarterBlocks 10 (by decide)]
  cases fuel with
  | zero => rfl
  | succ n =>
    rw [compactionLoop_succ 4 false 10 n twoQuarterBlocks none 20 (by decide) (by decide)]
    exact (compactionLoop_stuck 4 false 10 20 _ n _ _
      ⟨by decide, by decide, by decide, by decide, rfl⟩).1

end Table
end voltdb

namespace voltdb
namespace Table

/-! ## The frame of a compaction -/

/-- The code after the loop changes, among the collections, only the buckets
and `m_blocksWithSpace`, and there only the membership of `fullest`. -/
theorem finishCompaction_frame (p : Bool) (f : Nat) (t : Table) (fbc : Option Nat) :
    (∀ x, x ≠ f → (x ∈ (finishCompaction p f t fbc).m_blocksWithSpace
      ↔ x ∈ t.m_blocksWithSpace)) ∧
    (∀ q j x, x ≠ f → (x ∈ (finishCompaction p f t fbc).bucketMap q j ↔ x ∈ t.bucketMap q j)) ∧
    (∀ x, x ∈ (finishCompaction p f t fbc).m_blocksWithSpace → x ∈ t.m_blocksWithSpace) ∧
    ((t.heap f).hasFreeTuples = false → f ∉ (finishCompaction p f t fbc).m_blocksWithSpace) := by
  have hbm : ∀ (t2 : Table) (s : List Nat) (q : Bool),
      ({ t2 with m_blocksWithSpace := s } : Table).bucketMap q = t2.bucketMap q := by
    intro t2 s q; cases q <;> rfl
  unfold finishCompaction
  rcases fbc with _ | b
  · dsimp only
    split
    · next hh =>
      refine ⟨fun x hx => ?_, fun q j x _ => ?_, fun x hx => ?_, fun _ => ?_⟩
      · show x ∈ setErase f t.m_blocksWithSpace ↔ _
        rw [mem_setErase]; tauto
      · rw [hbm]
      · exact (mem_setErase.mp hx).1
      · intro hx
        exact (mem_setErase.mp hx).2 rfl
    · next hh =>
      refine ⟨fun x _ => Iff.rfl, fun q j x _ => Iff.rfl, fun x hx => hx, fun h0 => ?_⟩
      rw [h0] at hh
      exact absurd rfl hh
  · obtain ⟨h1, _, h3, _⟩ := swapToBucket_fields t f p b
    have hfree : ((t.swapToBucket f p b).heap f).hasFreeTuples = (t.heap f).hasFreeTuples := by
      rw [h1, Function.update_same]
      rfl
    have hb : ∀ q j x, x ≠ f →
        (x ∈ (t.swapToBucket f p b).bucketMap q j ↔ x ∈ t.bucketMap q j) := by
      intro q j x hx
      rw [mem_bucketMap_swapToBucket]
      constructor
      · rintro (⟨h, _⟩ | ⟨h, _⟩)
        · exact absurd h hx
        · exact h
      · intro h
        exact Or.inr ⟨h, fun hh => hx hh.1⟩
    dsimp only
    split
    · next hh =>
      refine ⟨fun x hx => ?_, fun q j x hx => ?_, fun x hx => ?_, fun _ => ?_⟩
      · show x ∈ setErase f (t.swapToBucket f p b).m_blocksWithSpace ↔ _
        rw [mem_setErase, h3]; tauto
      · rw [hbm]; exact hb q j x hx
      · have := (mem_setErase.mp hx).1
        rwa [h3] at this
      · intro hx
        exact (mem_setErase.mp hx).2 rfl
    · next hh =>
      refine ⟨fun x _ => by rw [h3], fun q j x hx => hb q j x hx,
        fun x hx => by rwa [h3] at hx, fun h0 => ?_⟩
      rw [hfree, h0] at hh
      exact absurd rfl hh

theorem frameInv_step (B : Nat) (p : Bool) (f a l : Nat) (t0 t : Table) (fbc : Option Nat)
    (h : FrameInv B p f a t0 t)
    (hl : findLightest (t.bucketMap p) f (List.range B) = some l) :
    FrameInv B p f a t0 (drainStep B p f l t fbc).1 := by
  obtain ⟨haf, hout, hheap, h1, h2, h3, h4, hb, new, hnew, hcalls⟩ := h
  obtain ⟨i, hi, hli⟩ := findLightest_mem _ f l _ hl
  have hal : a ≠ l := by
    rintro rfl
    exact hout i (List.mem_range.mp hi) hli
  obtain ⟨s1, s2, s3, s4, _, _, _, s8⟩ := drainStep_sets B p f l t fbc
  obtain ⟨_, b2, _⟩ := drainStep_buckets B p f l t fbc
  obtain ⟨g1, _, _⟩ := drainStep_heap B p f l t fbc
  have hset : ∀ s : List Nat,
      (a ∈ (if (TupleBlock.merge B (t.heap f) (t.heap l)).1.2.1.isEmpty = true
        then setErase l s else s) ↔ a ∈ s) := by
    intro s
    split
    · rw [mem_setErase]; tauto
    · exact Iff.rfl
  refine ⟨haf, ?_, ?_, ?_, ?_, ?_, ?_, ?_, new ++ [(f, l)], ?_, ?_⟩
  · intro j hj hx
    exact hout j hj ((b2 p j a hal).mp hx)
  · rw [g1 a haf hal]; exact hheap
  · rw [s1]; exact (hset _).trans h1
  · rw [s2]; exact (hset _).trans h2
  · rw [s3]; exact (hset _).trans h3
  · rw [s4]; exact (hset _).trans h4
  · intro q j
    exact (b2 q j a hal).trans (hb q j)
  · rw [s8, hnew, List.append_assoc]
  · intro c hc
    rcases List.mem_append.mp hc with hc | hc
    · exact hcalls c hc
    · simp only [List.mem_singleton] at hc
      subst hc
      exact ⟨Ne.symm haf, Ne.symm hal⟩

end Table
end voltdb

namespace voltdb
namespace Table

/-! ## Compaction and `m_blocksWithSpace` -/

theorem spaceLoopInv_step (B : Nat) (p : Bool) (f l : Nat) (t : Table) (fbc : Option Nat)
    (h : SpaceLoopInv B p f t)
    (hl : findLightest (t.bucketMap p) f (List.range B) = some l) :
    SpaceLoopInv B p f (drainStep B p f l t fbc).1 := by
  obtain ⟨hbn, hcand, ⟨hf1, hf2, hf3⟩, hs1, hs2⟩ := h
  have hlf : l ≠ f :=
    findLightest_ne _ f l _ (fun i hi => hbn p i (List.mem_range.mp hi)) hl
  obtain ⟨i, hi, hli⟩ := findLightest_mem _ f l _ hl
  have hlfree := hcand i (List.mem_range.mp hi) l hli hlf
  obtain ⟨s1, s2, s3, s4, _, _, _, _⟩ := drainStep_sets B p f l t fbc
  obtain ⟨b1, _, b3⟩ := drainStep_buckets B p f l t fbc
  obtain ⟨g1, _, cb, g3⟩ := drainStep_heap B p f l t fbc
  obtain ⟨_, _, _, m4, _, _, _, hle, _, _⟩ := TupleBlock.merge_fields B (t.heap f) (t.heap l)
  have hlfree2 : ((drainStep B p f l t fbc).1.heap l).hasFreeTuples = true := by
    rw [g3]
    simp only [TupleBlock.hasFreeTuples, decide_eq_true_eq] at hlfree ⊢
    show (TupleBlock.merge B (t.heap f) (t.heap l)).1.2.1.activeCount
      < (TupleBlock.merge B (t.heap f) (t.heap l)).1.2.1.capacity
    rw [m4]; omega
  have hmemE : ∀ (s : List Nat) (x : Nat),
      (x ∈ (if (TupleBlock.merge B (t.heap f) (t.heap l)).1.2.1.isEmpty = true
        then setErase l s else s) → x ∈ s) := by
    intro s x hx
    split at hx
    · exact (mem_setErase.mp hx).1
    · exact hx
  have hmemI : ∀ (s : List Nat) (x : Nat), x ≠ l → x ∈ s →
      x ∈ (if (TupleBlock.merge B (t.heap f) (t.heap l)).1.2.1.isEmpty = true
        then setErase l s else s) := by
    intro s x hxl hx
    split
    · exact mem_setErase.mpr ⟨hx, hxl⟩
    · exact hx
  have hunp1 : ∀ x, (drainStep B p f l t fbc).1.unpinned x → t.unpinned x := by
    intro x hx
    unfold unpinned at hx ⊢
    rw [s3, s4] at hx
    exact hx.imp (hmemE _ x) (hmemE _ x)
  have hunp2 : ∀ x, x ≠ l → t.unpinned x → (drainStep B p f l t fbc).1.unpinned x := by
    intro x hxl hx
    unfold unpinned at hx ⊢
    rw [s3, s4]
    exact hx.imp (hmemI _ x hxl) (hmemI _ x hxl)
  by_cases hE : (TupleBlock.merge B (t.heap f) (t.heap l)).1.2.1.isEmpty = true
  · -- the emptied block leaves every set
    have hnl : ∀ (s : List Nat), l ∉ (if (TupleBlock.merge B (t.heap f) (t.heap l)).1.2.1.isEmpty
        = true then setErase l s else s) := by
      intro s hx
      rw [if_pos hE] at hx
      exact (mem_setErase.mp hx).2 rfl
    refine ⟨b3 B hbn, ?_, ⟨?_, ?_, hunp2 f (Ne.symm hlf) hf3⟩, ?_, ?_⟩
    · intro j hj a ha haf
      rcases b1 p j a ha with h | h
      · rw [h]; exact hlfree2
      · by_cases hal : a = l
        · rw [hal]; exact hlfree2
        · rw [g1 a haf hal]; exact hcand j hj a h haf
    · rw [s2]; exact hmemI _ f (Ne.symm hlf) hf1
    · rw [s1]; exact hmemI _ f (Ne.symm hlf) hf2
    · intro a ha haf
      rw [s2] at ha
      have hal : a ≠ l := fun h => hnl _ (h ▸ ha)
      obtain ⟨k1, k2, k3⟩ := hs1 a (hmemE _ a ha) haf
      refine ⟨?_, hunp2 a hal k2, ?_⟩
      · rw [s1]; exact hmemI _ a hal k1
      · rw [g1 a haf hal]; exact k3
    · intro a ha haf hu hfr
      rw [s1] at ha
      have hal : a ≠ l := fun h => hnl _ (h ▸ ha)
      rw [g1 a haf hal] at hfr
      rw [s2]
      exact hmemI _ a hal (hs2 a (hmemE _ a ha) haf (hunp1 a hu) hfr)
  · -- the sets are unchanged
    have e1 : (drainStep B p f l t fbc).1.m_data = t.m_data := by rw [s1, if_neg hE]
    have e2 : (drainStep B p f l t fbc).1.m_blocksWithSpace = t.m_blocksWithSpace := by
      rw [s2, if_neg hE]
    have hunp3 : ∀ x, t.unpinned x → (drainStep B p f l t fbc).1.unpinned x := by
      intro x hx
      unfold unpinned at hx ⊢
      rw [s3, s4, if_neg hE, if_neg hE]
      exact hx
    refine ⟨b3 B hbn, ?_, ⟨?_, ?_, hunp3 f hf3⟩, ?_, ?_⟩
    · intro j hj a ha haf
      rcases b1 p j a ha with h | h
      · rw [h]; exact hlfree2
      · by_cases hal : a = l
        · rw [hal]; exact hlfree2
        · rw [g1 a haf hal]; exact hcand j hj a h haf
    · rw [e2]; exact hf1
    · rw [e1]; exact hf2
    · intro a ha haf
      rw [e2] at ha
      obtain ⟨k1, k2, k3⟩ := hs1 a ha haf
      refine ⟨by rw [e1]; exact k1, hunp3 a k2, ?_⟩
      by_cases hal : a = l
      · rw [hal]; exact hlfree2
      · rw [g1 a haf hal]; exact k3
    · intro a ha haf hu hfr
      rw [e1] at ha
      rw [e2]
      by_cases hal : a = l
      · rw [hal] at ha hu ⊢
        exact hs2 l ha hlf (hunp1 l hu) hlfree
      · rw [g1 a haf hal] at hfr
        exact hs2 a ha haf (hunp1 a hu) hfr

end Table
end voltdb

namespace voltdb

theorem calculateBucketIndex_lt (B c n : Nat) (hB : 0 < B) : calculateBucketIndex B c n < B := by
  unfold calculateBucketIndex
  have := Nat.min_le_right (n * B / c) (B - 1)
  omega

theorem bucketChange_none (B c x y : Nat) (h : TupleBlock.bucketChange B c x y = none) :
    calculateBucketIndex B c y = calculateBucketIndex B c x := by
  unfold TupleBlock.bucketChange at h
  split at h
  · assumption
  · simp at h

theorem bucketChange_some (B c x y b : Nat) (h : TupleBlock.bucketChange B c x y = some b) :
    b = calculateBucketIndex B c y := by
  unfold TupleBlock.bucketChange at h
  split at h
  · simp at h
  · exact (Option.some.inj h).symm

namespace Table

/-! ## Compaction and the bucket membership -/

theorem drainStep_partitionSet (B : Nat) (p q : Bool) (f l : Nat) (t : Table)
    (fbc : Option Nat) :
    (drainStep B p f l t fbc).1.partitionSet q
      = (if (TupleBlock.merge B (t.heap f) (t.heap l)).1.2.1.isEmpty = true
          then setErase l (t.partitionSet q) else t.partitionSet q) := by
  obtain ⟨_, _, s3, s4, _⟩ := drainStep_sets B p f l t fbc
  cases q
  · exact s3
  · exact s4

/-- The recorded bucket change of `fullest` follows its density bucket. -/
theorem drainStep_fullest_change (B : Nat) (p : Bool) (f l i0 : Nat) (t : Table)
    (fbc : Option Nat) (hlf : l ≠ f) (h : t.bucketOf B f = fbc.getD i0) :
    (drainStep B p f l t fbc).1.bucketOf B f = (drainStep B p f l t fbc).2.getD i0 := by
  obtain ⟨_, g2, _⟩ := drainStep_heap B p f l t fbc
  obtain ⟨m1, _, _, _, _, _, _, _, m9, _⟩ := TupleBlock.merge_fields B (t.heap f) (t.heap l)
  rw [(drainStep_cases B p f l t fbc).1]
  unfold bucketOf at h ⊢
  rw [g2 hlf, m1]
  rcases hc : (TupleBlock.merge B (t.heap f) (t.heap l)).2.1 with _ | b
  · rw [hc] at m9
    dsimp only
    rw [bucketChange_none _ _ _ _ m9.symm]
    exact h
  · rw [hc] at m9
    dsimp only
    rw [Option.getD_some]
    exact (bucketChange_some _ _ _ _ _ m9.symm).symm

/-- What a draining step does to `lightest` when it was a block of the
compacted partition in the bucket of its density: a block that is not emptied
is again in the bucket of its density, and in no other. -/
theorem drainStep_lightest (B : Nat) (p : Bool) (f l : Nat) (t : Table) (fbc : Option Nat)
    (hmem : ∀ j, j < B → (l ∈ t.bucketMap p j ↔ j = t.bucketOf B l))
    (hcb : (t.heap l).currentBucket = some (p, t.bucketOf B l))
    (hother : ∀ j, j < B → l ∉ t.bucketMap (!p) j)
    (hE : (TupleBlock.merge B (t.heap f) (t.heap l)).1.2.1.isEmpty = false) :
    (∀ j, j < B → (l ∈ (drainStep B p f l t fbc).1.bucketMap p j
      ↔ j = (drainStep B p f l t fbc).1.bucketOf B l)) ∧
    ((drainStep B p f l t fbc).1.heap l).currentBucket
      = some (p, (drainStep B p f l t fbc).1.bucketOf B l) ∧
    (∀ j, j < B → l ∉ (drainStep B p f l t fbc).1.bucketMap (!p) j) := by
  obtain ⟨_, _, _, m4, _, m6, _, _, _, m10⟩ := TupleBlock.merge_fields B (t.heap f) (t.heap l)
  obtain ⟨hm1, _, _, _, _, _, _, _, hm9, _, _⟩ := mergeBlocks_fields B t f l
  have hl1 : (mergeBlocks B t f l).1.heap l = (TupleBlock.merge B (t.heap f) (t.heap l)).1.2.1 := by
    rw [hm1, Function.update_same]
  obtain ⟨_, ⟨he, _⟩ | ⟨_, b, hb, h⟩ | ⟨_, hb, h⟩⟩ := drainStep_cases B p f l t fbc
  · rw [he] at hE
    exact absurd hE (by simp)
  · -- moved to the reported bucket
    have hbidx : b = calculateBucketIndex B (t.heap l).capacity
        (TupleBlock.merge B (t.heap f) (t.heap l)).1.2.1.activeCount :=
      bucketChange_some _ _ _ _ _ (m10 ▸ hb)
    have hof : (drainStep B p f l t fbc).1.bucketOf B l = b := by
      unfold bucketOf
      rw [h, (swapToBucket_fields _ l p b).1, Function.update_same]
      dsimp only
      rw [hl1, m4]
      exact hbidx.symm
    rw [hof]
    have hcb1 : ((mergeBlocks B t f l).1.heap l).currentBucket = some (p, t.bucketOf B l) := by
      rw [hl1, m6]; exact hcb
    refine ⟨fun j hj => ?_, ?_, fun j hj => ?_⟩
    · rw [h, mem_bucketMap_swapToBucket, hm9, hcb1]
      constructor
      · rintro (⟨_, _, hjb⟩ | ⟨hin, hne⟩)
        · exact hjb
        · exfalso
          apply hne
          refine ⟨rfl, ?_⟩
          rw [(hmem j hj).mp hin]
      · intro hjb
        exact Or.inl ⟨rfl, rfl, hjb⟩
    · rw [h, (swapToBucket_fields _ l p b).1, Function.update_same]
    · rw [h, mem_bucketMap_swapToBucket, hm9]
      rintro (⟨_, hpp, _⟩ | ⟨hin, _⟩)
      · cases p <;> simp at hpp
      · exact hother j hj hin
  · -- stays in its bucket
    have hidx : calculateBucketIndex B (t.heap l).capacity
        (TupleBlock.merge B (t.heap f) (t.heap l)).1.2.1.activeCount
          = calculateBucketIndex B (t.heap l).capacity (t.heap l).activeCount :=
      bucketChange_none _ _ _ _ (m10 ▸ hb)
    have hof : (drainStep B p f l t fbc).1.bucketOf B l = t.bucketOf B l := by
      unfold bucketOf
      rw [h, hl1, m4, hidx]
    rw [hof]
    refine ⟨fun j hj => ?_, ?_, fun j hj => ?_⟩
    · rw [h, hm9]; exact hmem j hj
    · rw [h, hl1, m6]; exact hcb
    · rw [h, hm9]; exact hother j hj

end Table
end voltdb

namespace voltdb
namespace Table

/-- After a draining step `lightest` is still in some bucket of the array. -/
theorem drainStep_lightest_in_bucket (B : Nat) (p : Bool) (f l i : Nat) (t : Table)
    (fbc : Option Nat) (hB : 0 < B) (hi : i < B) (hli : l ∈ t.bucketMap p i) :
    ∃ j, j < B ∧ l ∈ (drainStep B p f l t fbc).1.bucketMap p j := by
  have hm9 := (mergeBlocks_fields B t f l).2.2.2.2.2.2.2.2.1
  obtain ⟨_, _, _, _, _, _, _, _, _, m10⟩ := TupleBlock.merge_fields B (t.heap f) (t.heap l)
  obtain ⟨_, ⟨_, h⟩ | ⟨_, b, hb, h⟩ | ⟨_, _, h⟩⟩ := drainStep_cases B p f l t fbc
  · refine ⟨i, hi, ?_⟩
    rw [h, (removeCompactedBlock_fields _ l).2.2.2.2.2.2.2.2.1, hm9]
    exact hli
  · refine ⟨b, ?_, ?_⟩
    · have hbb : b = calculateBucketIndex B (t.heap l).capacity
          (TupleBlock.merge B (t.heap f) (t.heap l)).1.2.1.activeCount :=
        bucketChange_some _ _ _ _ _ (m10 ▸ hb)
      rw [hbb]
      exact calculateBucketIndex_lt _ _ _ hB
    · rw [h, mem_bucketMap_swapToBucket]
      exact Or.inl ⟨rfl, rfl, rfl⟩
  · refine ⟨i, hi, ?_⟩
    rw [h, hm9]
    exact hli

theorem bucketLoopInv_step (B : Nat) (p : Bool) (f i0 l : Nat) (t : Table) (fbc : Option Nat)
    (h : BucketLoopInv B p f i0 t fbc)
    (hl : findLightest (t.bucketMap p) f (List.range B) = some l) :
    BucketLoopInv B p f i0 (drainStep B p f l t fbc).1 (drainStep B p f l t fbc).2 := by
  obtain ⟨hB, hbn, hA, hA2, ⟨hF1, hF2, hF3, hF4, hF5⟩, hS, hJ⟩ := h
  have hlf : l ≠ f :=
    findLightest_ne _ f l _ (fun i hi => hbn p i (List.mem_range.mp hi)) hl
  obtain ⟨i, hi0, hli⟩ := findLightest_mem _ f l _ hl
  have hi : i < B := List.mem_range.mp hi0
  have hps := drainStep_partitionSet B p p f l t fbc
  obtain ⟨_, b2, b3⟩ := drainStep_buckets B p f l t fbc
  obtain ⟨g1, g2, cb, g3⟩ := drainStep_heap B p f l t fbc
  obtain ⟨_, _, m3, _, _, _, _, hle, _, _⟩ := TupleBlock.merge_fields B (t.heap f) (t.heap l)
  have hbo : ∀ x, x ≠ f → x ≠ l → (drainStep B p f l t fbc).1.bucketOf B x = t.bucketOf B x := by
    intro x hxf hxl
    unfold bucketOf
    rw [g1 x hxf hxl]
  -- the clauses that do not depend on what happens to `lightest`
  have hF : f ∈ (drainStep B p f l t fbc).1.partitionSet p ∧
      (∀ j, j < B → (f ∈ (drainStep B p f l t fbc).1.bucketMap p j ↔ j = i0)) ∧
      ((drainStep B p f l t fbc).1.heap f).currentBucket = some (p, i0) ∧ i0 < B ∧
      (drainStep B p f l t fbc).1.bucketOf B f = (drainStep B p f l t fbc).2.getD i0 := by
    refine ⟨?_, fun j hj => (b2 p j f (Ne.symm hlf)).trans (hF2 j hj), ?_, hF4,
      drainStep_fullest_change B p f l i0 t fbc hlf hF5⟩
    · rw [hps]
      split
      · exact mem_setErase.mpr ⟨hF1, Ne.symm hlf⟩
      · exact hF1
    · rw [g2 hlf, m3]; exact hF3
  have hJ2 : (drainStep B p f l t fbc).2 = none ∨
      ∃ a, a ≠ f ∧ ∃ j, j < B ∧ a ∈ (drainStep B p f l t fbc).1.bucketMap p j := by
    right
    obtain ⟨j, hj, hlj⟩ := drainStep_lightest_in_bucket B p f l i t fbc hB hi hli
    exact ⟨l, hlf, j, hj, hlj⟩
  have hAother : ∀ a, a ∈ t.partitionSet p → a ≠ f → a ≠ l →
      (∀ j, j < B → (a ∈ (drainStep B p f l t fbc).1.bucketMap p j
        ↔ j = (drainStep B p f l t fbc).1.bucketOf B a)) ∧
      ((drainStep B p f l t fbc).1.heap a).currentBucket
        = some (p, (drainStep B p f l t fbc).1.bucketOf B a) := by
    intro a ha haf hal
    obtain ⟨k1, k2⟩ := hA a ha haf
    rw [hbo a haf hal, g1 a haf hal]
    exact ⟨fun j hj => (b2 p j a hal).trans (k1 j hj), k2⟩
  by_cases hE : (TupleBlock.merge B (t.heap f) (t.heap l)).1.2.1.isEmpty = true
  · have hpmem : ∀ a, a ∈ (drainStep B p f l t fbc).1.partitionSet p →
        a ∈ t.partitionSet p ∧ a ≠ l := by
      intro a ha
      rw [hps, if_pos hE] at ha
      exact mem_setErase.mp ha
    refine ⟨hB, b3 B hbn, ?_, ?_, hF, ?_, hJ2⟩
    · intro a ha haf
      obtain ⟨ha1, hal⟩ := hpmem a ha
      exact hAother a ha1 haf hal
    · intro a ha j hj hx
      obtain ⟨ha1, hal⟩ := hpmem a ha
      exact hA2 a ha1 j hj ((b2 (!p) j a hal).mp hx)
    · intro j hj a ha
      by_cases hal : a = l
      · right
        rw [hal, g3]
        simpa [TupleBlock.isEmpty] using hE
      · by_cases haf : a = f
        · left; rw [haf]; exact hF.1
        · rcases hS j hj a ((b2 p j a hal).mp ha) with h | h
          · left
            rw [hps, if_pos hE]
            exact mem_setErase.mpr ⟨h, hal⟩
          · right
            rw [g1 a haf hal]; exact h
  · have hE2 : (TupleBlock.merge B (t.heap f) (t.heap l)).1.2.1.isEmpty = false := by
      simpa using hE
    have hpeq : (drainStep B p f l t fbc).1.partitionSet p = t.partitionSet p := by
      rw [hps, if_neg hE]
    have hlpart : l ∈ t.partitionSet p := by
      rcases hS i hi l hli with h | h
      · exact h
      · exfalso
        apply hE
        simp only [TupleBlock.isEmpty, decide_eq_true_eq]
        omega
    obtain ⟨k1, k2⟩ := hA l hlpart hlf
    obtain ⟨l1, l2, l3⟩ := drainStep_lightest B p f l t fbc k1 k2
      (hA2 l hlpart) hE2
    refine ⟨hB, b3 B hbn, ?_, ?_, hF, ?_, hJ2⟩
    · intro a ha haf
      rw [hpeq] at ha
      by_cases hal : a = l
      · rw [hal]; exact ⟨l1, l2⟩
      · exact hAother a ha haf hal
    · intro a ha j hj hx
      rw [hpeq] at ha
      by_cases hal : a = l
      · rw [hal] at hx; exact l3 j hj hx
      · exact hA2 a ha j hj ((b2 (!p) j a hal).mp hx)
    · intro j hj a ha
      rw [hpeq]
      by_cases hal : a = l
      · left; rw [hal]; exact hlpart
      · by_cases haf : a = f
        · left; rw [haf]; exact hF1
        · rcases hS j hj a ((b2 p j a hal).mp ha) with h | h
          · exact Or.inl h
          · right
            rw [g1 a haf hal]; exact h

end Table
end voltdb

namespace voltdb
namespace Table

/-! ## Allocation of a slot -/

theorem setBlock_fields (t : Table) (a : Nat) (b : TupleBlock) :
    (t.setBlock a b).heap = Function.update t.heap a b ∧
    (t.setBlock a b).m_data = t.m_data ∧
    (t.setBlock a b).m_blocksWithSpace = t.m_blocksWithSpace ∧
    (t.setBlock a b).m_blocksNotPendingSnapshot = t.m_blocksNotPendingSnapshot ∧
    (t.setBlock a b).m_blocksPendingSnapshot = t.m_blocksPendingSnapshot ∧
    (t.setBlock a b).m_tupleCount = t.m_tupleCount ∧
    (t.setBlock a b).m_tuplesPerBlock = t.m_tuplesPerBlock ∧
    (t.setBlock a b).nextAddress = t.nextAddress ∧
    (∀ q, (t.setBlock a b).bucketMap q = t.bucketMap q) ∧
    (∀ q, (t.setBlock a b).partitionSet q = t.partitionSet q) := by
  refine ⟨rfl, rfl, rfl, rfl, rfl, rfl, rfl, rfl, ?_, ?_⟩ <;> intro q <;> cases q <;> rfl

/-- The rebucketing after an allocation is one of three things. -/
theorem rebucketUsedBlock_cases (t : Table) (a : Nat) (change : Option Nat) :
    rebucketUsedBlock t a change = t ∨
    ∃ b q, change = some b ∧ a ∈ t.partitionSet q ∧
      rebucketUsedBlock t a change = t.swapToBucket a q b := by
  unfold rebucketUsedBlock
  rcases change with _ | b
  · exact Or.inl rfl
  · dsimp only
    by_cases h1 : a ∈ t.m_blocksNotPendingSnapshot
    · rw [if_pos h1]
      exact Or.inr ⟨b, false, rfl, h1, rfl⟩
    · rw [if_neg h1]
      by_cases h2 : a ∈ t.m_blocksPendingSnapshot
      · rw [if_pos h2]
        exact Or.inr ⟨b, true, rfl, h2, rfl⟩
      · rw [if_neg h2]
        exact Or.inl rfl

/-- For a block that is not in both partition sets the order of the two
lookups does not matter. -/
theorem rebucketNewBlock_eq (t : Table) (a : Nat) (change : Option Nat)
    (h : a ∈ t.m_blocksNotPendingSnapshot → a ∉ t.m_blocksPendingSnapshot) :
    rebucketNewBlock t a change = rebucketUsedBlock t a change := by
  unfold rebucketNewBlock rebucketUsedBlock
  rcases change with _ | b
  · rfl
  · dsimp only
    by_cases h1 : a ∈ t.m_blocksNotPendingSnapshot
    · simp [h1, h h1]
    · by_cases h2 : a ∈ t.m_blocksPendingSnapshot
      · simp [h1, h2]
      · simp [h1, h2]

theorem rebucketNewBlock_cases (t : Table) (a : Nat) (change : Option Nat) :
    rebucketNewBlock t a change = t ∨
    ∃ b q, change = some b ∧ a ∈ t.partitionSet q ∧
      rebucketNewBlock t a change = t.swapToBucket a q b := by
  unfold rebucketNewBlock
  rcases change with _ | b
  · exact Or.inl rfl
  · dsimp only
    by_cases h1 : a ∈ t.m_blocksPendingSnapshot
    · rw [if_pos h1]
      exact Or.inr ⟨b, true, rfl, h1, rfl⟩
    · rw [if_neg h1]
      by_cases h2 : a ∈ t.m_blocksNotPendingSnapshot
      · rw [if_pos h2]
        exact Or.inr ⟨b, false, rfl, h2, rfl⟩
      · rw [if_neg h2]
        exact Or.inl rfl

/-- What a rebucketing leaves alone: the sets, the counters, every block
object other than the block's own, and of that one all but the
back-reference. -/
theorem rebucketed_fields (t : Table) (a : Nat) (X : Table)
    (h : X = t ∨ ∃ b q, X = t.swapToBucket a q b) :
    (∀ x, x ≠ a → X.heap x = t.heap x) ∧
    (∃ cb, X.heap a = { t.heap a with currentBucket := cb }) ∧
    X.m_data = t.m_data ∧
    X.m_blocksWithSpace = t.m_blocksWithSpace ∧
    X.m_blocksNotPendingSnapshot = t.m_blocksNotPendingSnapshot ∧
    X.m_blocksPendingSnapshot = t.m_blocksPendingSnapshot ∧
    X.m_tupleCount = t.m_tupleCount ∧
    X.m_tuplesPerBlock = t.m_tuplesPerBlock ∧
    X.nextAddress = t.nextAddress := by
  rcases h with h | ⟨b, q, h⟩
  · rw [h]
    exact ⟨fun _ _ => rfl, ⟨(t.heap a).currentBucket, rfl⟩, rfl, rfl, rfl, rfl, rfl, rfl, rfl⟩
  · rw [h]
    obtain ⟨h1, h2, h3, h4, h5, h6, h7, h8, _⟩ := swapToBucket_fields t a q b
    refine ⟨fun x hx => ?_, ⟨some (q, b), ?_⟩, h2, h3, h4, h5, h6, h7, h8⟩
    · rw [h1, Function.update_noteq hx]
    · rw [h1, Function.update_same]

theorem rebucketUsedBlock_shape (t : Table) (a : Nat) (change : Option Nat) :
    rebucketUsedBlock t a change = t ∨ ∃ b q, rebucketUsedBlock t a change = t.swapToBucket a q b := by
  rcases rebucketUsedBlock_cases t a change with h | ⟨b, q, _, _, h⟩
  · exact Or.inl h
  · exact Or.inr ⟨b, q, h⟩

theorem rebucketNewBlock_shape (t : Table) (a : Nat) (change : Option Nat) :
    rebucketNewBlock t a change = t ∨ ∃ b q, rebucketNewBlock t a change = t.swapToBucket a q b := by
  rcases rebucketNewBlock_cases t a change with h | ⟨b, q, _, _, h⟩
  · exact Or.inl h
  · exact Or.inr ⟨b, q, h⟩

end Table
end voltdb

namespace voltdb
namespace Table

/-- The table after the block at `a` has handed out a slot and has been
rebucketed: what both paths of `nextFreeTuple` have in common. -/
theorem allocated_fields (B : Nat) (t : Table) (a : Nat) (X : Table)
    (h : X = t.setBlock a ((t.heap a).nextFreeTuple B).1 ∨
      ∃ b q, X = (t.setBlock a ((t.heap a).nextFreeTuple B).1).swapToBucket a q b) :
    (∀ x, x ≠ a → X.heap x = t.heap x) ∧
    (∃ cb, X.heap a = { ((t.heap a).nextFreeTuple B).1 with currentBucket := cb }) ∧
    (X.heap a).activeCount = (t.heap a).activeCount + 1 ∧
    (X.heap a).capacity = (t.heap a).capacity ∧
    X.m_data = t.m_data ∧
    X.m_blocksWithSpace = t.m_blocksWithSpace ∧
    X.m_blocksNotPendingSnapshot = t.m_blocksNotPendingSnapshot ∧
    X.m_blocksPendingSnapshot = t.m_blocksPendingSnapshot ∧
    X.nextAddress = t.nextAddress ∧
    X.m_tuplesPerBlock = t.m_tuplesPerBlock := by
  obtain ⟨r1, ⟨cb, r2⟩, r3, r4, r5, r6, _, r8, r9⟩ :=
    rebucketed_fields (t.setBlock a ((t.heap a).nextFreeTuple B).1) a X h
  obtain ⟨n1, n2, _⟩ := TupleBlock.nextFreeTuple_fields B (t.heap a)
  have hsa : (t.setBlock a ((t.heap a).nextFreeTuple B).1).heap a
      = ((t.heap a).nextFreeTuple B).1 := by
    show Function.update t.heap a _ a = _
    rw [Function.update_same]
  refine ⟨fun x hx => ?_, ⟨cb, ?_⟩, ?_, ?_, r3, r4, r5, r6, r9, r8⟩
  · rw [r1 x hx]
    show Function.update t.heap a _ x = _
    rw [Function.update_noteq hx]
  · rw [r2, hsa]
  · rw [r2, hsa]; exact n1
  · rw [r2, hsa]; exact n2

theorem nextFreeTuple_existing (B : Nat) (t : Table) (a : Nat) (rest : List Nat)
    (h : t.m_blocksWithSpace = a :: rest) :
    (nextFreeTuple B t).2.1 = a ∧
    (nextFreeTuple B t).1
      = (if !((rebucketUsedBlock (t.setBlock a ((t.heap a).nextFreeTuple B).1) a
            ((t.heap a).nextFreeTuple B).2.2).heap a).hasFreeTuples then
          { rebucketUsedBlock (t.setBlock a ((t.heap a).nextFreeTuple B).1) a
              ((t.heap a).nextFreeTuple B).2.2 with
            m_blocksWithSpace := setErase a
              (rebucketUsedBlock (t.setBlock a ((t.heap a).nextFreeTuple B).1) a
                ((t.heap a).nextFreeTuple B).2.2).m_blocksWithSpace }
        else rebucketUsedBlock (t.setBlock a ((t.heap a).nextFreeTuple B).1) a
          ((t.heap a).nextFreeTuple B).2.2) := by
  unfold nextFreeTuple
  rw [h]
  exact ⟨rfl, rfl⟩

theorem nextFreeTuple_new (B : Nat) (t : Table) (h : t.m_blocksWithSpace = []) :
    (nextFreeTuple B t).2.1 = t.nextAddress ∧
    (nextFreeTuple B t).1
      = (if ((rebucketNewBlock (t.allocateNextBlock.1.setBlock t.nextAddress
              ((t.allocateNextBlock.1.heap t.nextAddress).nextFreeTuple B).1) t.nextAddress
            ((t.allocateNextBlock.1.heap t.nextAddress).nextFreeTuple B).2.2).heap
              t.nextAddress).hasFreeTuples then
          { rebucketNewBlock (t.allocateNextBlock.1.setBlock t.nextAddress
              ((t.allocateNextBlock.1.heap t.nextAddress).nextFreeTuple B).1) t.nextAddress
              ((t.allocateNextBlock.1.heap t.nextAddress).nextFreeTuple B).2.2 with
            m_blocksWithSpace := setInsert t.nextAddress
              (rebucketNewBlock (t.allocateNextBlock.1.setBlock t.nextAddress
                ((t.allocateNextBlock.1.heap t.nextAddress).nextFreeTuple B).1) t.nextAddress
                ((t.allocateNextBlock.1.heap t.nextAddress).nextFreeTuple B).2.2).m_blocksWithSpace }
        else rebucketNewBlock (t.allocateNextBlock.1.setBlock t.nextAddress
          ((t.allocateNextBlock.1.heap t.nextAddress).nextFreeTuple B).1) t.nextAddress
          ((t.allocateNextBlock.1.heap t.nextAddress).nextFreeTuple B).2.2) := by
  unfold nextFreeTuple
  rw [h]
  exact ⟨rfl, rfl⟩

/-- The table right after `allocateNextBlock`. -/
theorem allocateNextBlock_fields (t : Table) :
    t.allocateNextBlock.2 = t.nextAddress ∧
    t.allocateNextBlock.1.heap t.nextAddress
      = { address := t.nextAddress, capacity := t.m_tuplesPerBlock, activeCount := 0,
          freeList := [], nextUnusedOffset := 0, lastCompactionOffset := t.m_tuplesPerBlock,
          slots := List.replicate t.m_tuplesPerBlock TupleSlot.unused,
          currentBucket := some (false, 0) } ∧
    (∀ x, x ≠ t.nextAddress → t.allocateNextBlock.1.heap x = t.heap x) ∧
    t.allocateNextBlock.1.m_data = setInsert t.nextAddress t.m_data ∧
    t.allocateNextBlock.1.m_blocksWithSpace = t.m_blocksWithSpace ∧
    t.allocateNextBlock.1.m_blocksNotPendingSnapshot
      = setInsert t.nextAddress t.m_blocksNotPendingSnapshot ∧
    t.allocateNextBlock.1.m_blocksPendingSnapshot = t.m_blocksPendingSnapshot ∧
    t.allocateNextBlock.1.nextAddress = t.nextAddress + 1 ∧
    t.allocateNextBlock.1.m_tuplesPerBlock = t.m_tuplesPerBlock ∧
    (∀ q j x, x ∈ t.allocateNextBlock.1.bucketMap q j ↔
      (x = t.nextAddress ∧ q = false ∧ j = 0) ∨ x ∈ t.bucketMap q j) := by
  refine ⟨rfl, ?_, fun x hx => ?_, rfl, rfl, rfl, rfl, rfl, rfl, fun q j x => ?_⟩
  · show Function.update t.heap t.nextAddress _ t.nextAddress = _
    rw [Function.update_same]
  · show Function.update t.heap t.nextAddress _ x = _
    rw [Function.update_noteq hx]
  · cases q
    · show x ∈ Function.update t.m_blocksNotPendingSnapshotLoad 0 _ j ↔ _
      by_cases hj : j = 0
      · subst hj
        rw [Function.update_same, mem_setInsert]
        simp [bucketMap]
      · rw [Function.update_noteq hj]
        simp [bucketMap, hj]
    · show x ∈ t.m_blocksPendingSnapshotLoad j ↔ _
      simp [bucketMap]

end Table
end voltdb

namespace voltdb
namespace Table

/-! ## Allocation and the bucket membership -/

theorem bucketInv_iff (B : Nat) (t : Table) : t.BucketInv B ↔ ∀ q, t.BucketInvFor B q := by
  unfold BucketInv
  constructor
  · rintro ⟨h1, h2⟩ q
    cases q
    · exact h1
    · exact h2
  · intro h
    exact ⟨h false, h true⟩

/-- A block of one partition is not a block of the other. -/
theorem not_mem_other_partition (B : Nat) (t : Table) (hB : 0 < B)
    (hinv : ∀ q, t.BucketInvFor B q) (a : Nat) (p : Bool) (ha : a ∈ t.partitionSet p) :
    a ∉ t.partitionSet (!p) := by
  intro h
  have h1 := ((hinv (!p)).2 a h).1
  exact ((hinv p).2 a ha).2.2 _ (calculateBucketIndex_lt _ _ _ hB) h1

/-- Replacing the object of a block by one with another active count keeps the
bucket invariant when the density bucket of the block does not change, or when
the block is in neither partition set. -/
theorem bucketInv_setBlock_same (B : Nat) (t : Table) (a : Nat) (blk : TupleBlock)
    (hinv : ∀ q, t.BucketInvFor B q)
    (hcb : blk.currentBucket = (t.heap a).currentBucket)
    (hsame : ∀ p, a ∈ t.partitionSet p →
      calculateBucketIndex B blk.capacity blk.activeCount = t.bucketOf B a) :
    ∀ q, (t.setBlock a blk).BucketInvFor B q := by
  obtain ⟨s1, _, _, _, _, _, _, _, s9, s10⟩ := setBlock_fields t a blk
  have hbo : ∀ x q, x ∈ t.partitionSet q → (t.setBlock a blk).bucketOf B x = t.bucketOf B x := by
    intro x q hx
    by_cases hxa : x = a
    · subst hxa
      unfold bucketOf
      rw [s1, Function.update_same]
      exact hsame q hx
    · unfold bucketOf
      rw [s1, Function.update_noteq hxa]
  have hc : ∀ x, ((t.setBlock a blk).heap x).currentBucket = (t.heap x).currentBucket := by
    intro x
    by_cases hxa : x = a
    · subst hxa
      rw [s1, Function.update_same]; exact hcb
    · rw [s1, Function.update_noteq hxa]
  intro q
  constructor
  · intro i hi x hx
    rw [s9] at hx
    obtain ⟨k1, k2⟩ := (hinv q).1 i hi x hx
    rw [s10, hbo x q k1]
    exact ⟨k1, k2⟩
  · intro x hx
    rw [s10] at hx
    obtain ⟨k1, k2, k3⟩ := (hinv q).2 x hx
    rw [s9, s9, hbo x q hx, hc]
    exact ⟨k1, k2, k3⟩

/-- Replacing the object of a block of partition `p` and moving the block to
the bucket of its new density keeps the bucket invariant. -/
theorem bucketInv_setBlock_swap (B : Nat) (t : Table) (a : Nat) (p : Bool) (blk : TupleBlock)
    (hB : 0 < B) (hinv : ∀ q, t.BucketInvFor B q) (ha : a ∈ t.partitionSet p)
    (hcb : blk.currentBucket = (t.heap a).currentBucket) :
    ∀ q, ((t.setBlock a blk).swapToBucket a p
      (calculateBucketIndex B blk.capacity blk.activeCount)).BucketInvFor B q := by
  obtain ⟨s1, _, _, s4, s5, _, _, _, s9, s10⟩ := setBlock_fields t a blk
  obtain ⟨w1, _, _, w4, w5, _⟩ := swapToBucket_fields (t.setBlock a blk) a p
    (calculateBucketIndex B blk.capacity blk.activeCount)
  set b := calculateBucketIndex B blk.capacity blk.activeCount with hb
  set t2 := (t.setBlock a blk).swapToBucket a p b with ht2
  have hpart : ∀ q, t2.partitionSet q = t.partitionSet q := by
    intro q
    cases q
    · show t2.m_blocksNotPendingSnapshot = _
      rw [w4, s4]; rfl
    · show t2.m_blocksPendingSnapshot = _
      rw [w5, s5]; rfl
  have hheap : ∀ x, x ≠ a → t2.heap x = t.heap x := by
    intro x hx
    rw [w1, Function.update_noteq hx, s1, Function.update_noteq hx]
  have hheapa : t2.heap a = { blk with currentBucket := some (p, b) } := by
    rw [w1, Function.update_same, s1, Function.update_same]
  have hboa : t2.bucketOf B a = b := by
    unfold bucketOf
    rw [hheapa]
  have hbo : ∀ x, x ≠ a → t2.bucketOf B x = t.bucketOf B x := by
    intro x hx
    unfold bucketOf
    rw [hheap x hx]
  have hold : (t.heap a).currentBucket = some (p, t.bucketOf B a) := ((hinv p).2 a ha).2.1
  have hmem : ∀ q j x, x ∈ t2.bucketMap q j ↔
      (x = a ∧ q = p ∧ j = b) ∨
      (x ∈ t.bucketMap q j ∧ ¬(x = a ∧ some (p, t.bucketOf B a) = some (q, j))) := by
    intro q j x
    rw [ht2, mem_bucketMap_swapToBucket, s9, s1, Function.update_same, hcb, hold]
  have hnot := not_mem_other_partition B t hB hinv a p ha
  intro q
  constructor
  · intro i hi x hx
    rw [hpart]
    rcases (hmem q i x).mp hx with ⟨hxa, hq, hib⟩ | ⟨hin, hne⟩
    · subst hxa; subst hq
      exact ⟨ha, by rw [hboa]; exact hib⟩
    · obtain ⟨k1, k2⟩ := (hinv q).1 i hi x hin
      have hxa : x ≠ a := by
        rintro rfl
        apply hne
        have hq : q = p := by
          by_contra hqp
          have : q = !p := by cases p <;> cases q <;> simp_all
          exact hnot (this ▸ k1)
        subst hq
        exact ⟨rfl, by rw [k2]⟩
      exact ⟨k1, by rw [hbo x hxa]; exact k2⟩
  · intro x hx
    rw [hpart] at hx
    by_cases hxa : x = a
    · subst hxa
      have hq : q = p := by
        by_contra hqp
        have : q = !p := by cases p <;> cases q <;> simp_all
        exact hnot (this ▸ hx)
      subst hq
      refine ⟨?_, ?_, ?_⟩
      · rw [hboa]
        exact (hmem q b x).mpr (Or.inl ⟨rfl, rfl, rfl⟩)
      · rw [hheapa, hboa]
      · intro j hj hc
        rcases (hmem (!q) j x).mp hc with ⟨_, hqq, _⟩ | ⟨hin, _⟩
        · cases q <;> simp at hqq
        · exact ((hinv q).2 x ha).2.2 j hj hin
    · obtain ⟨k1, k2, k3⟩ := (hinv q).2 x hx
      refine ⟨?_, ?_, ?_⟩
      · rw [hbo x hxa]
        exact (hmem q _ x).mpr (Or.inr ⟨k1, fun h => hxa h.1⟩)
      · rw [hheap x hxa, hbo x hxa]; exact k2
      · intro j hj hc
        rcases (hmem (!q) j x).mp hc with ⟨h, _, _⟩ | ⟨hin, _⟩
        · exact hxa h
        · exact k3 j hj hin

/-- The next address of the allocator is the address of no block in any of
the table's collections. -/
theorem nextAddress_fresh (B : Nat) (t : Table) (hs : t.ShapeInv)
    (hinv : ∀ q, t.BucketInvFor B q) :
    (∀ q, t.nextAddress ∉ t.partitionSet q) ∧
    (∀ q j, j < B → t.nextAddress ∉ t.bucketMap q j) := by
  obtain ⟨_, _, _, _, _, h6, h7, h8, _⟩ := hs
  have hp : ∀ q, t.nextAddress ∉ t.partitionSet q := by
    intro q hx
    have hd : t.nextAddress ∈ t.m_data := by
      cases q
      · exact (h6 _ hx).1
      · exact h7 _ hx
    have := (h8 _ hd).2
    omega
  exact ⟨hp, fun q j hj hx => hp q ((hinv q).1 j hj _ hx).1⟩

/-- The allocation of a new block keeps the bucket invariant. -/
theorem bucketInv_allocateNextBlock (B : Nat) (t : Table) (hs : t.ShapeInv)
    (hinv : ∀ q, t.BucketInvFor B q) :
    ∀ q, t.allocateNextBlock.1.BucketInvFor B q := by
  obtain ⟨_, a2, a3, _, _, a6, a7, _, _, a10⟩ := allocateNextBlock_fields t
  obtain ⟨fr1, fr2⟩ := nextAddress_fresh B t hs hinv
  have hboa : t.allocateNextBlock.1.bucketOf B t.nextAddress = 0 := by
    unfold bucketOf
    rw [a2]
    simp [calculateBucketIndex]
  have hbo : ∀ x, x ≠ t.nextAddress → t.allocateNextBlock.1.bucketOf B x = t.bucketOf B x := by
    intro x hx
    unfold bucketOf
    rw [a3 x hx]
  have hpart : ∀ q x, x ∈ t.allocateNextBlock.1.partitionSet q ↔
      (x = t.nextAddress ∧ q = false) ∨ x ∈ t.partitionSet q := by
    intro q x
    cases q
    · show x ∈ t.allocateNextBlock.1.m_blocksNotPendingSnapshot ↔ _
      rw [a6, mem_setInsert]
      simp [partitionSet]
    · show x ∈ t.allocateNextBlock.1.m_blocksPendingSnapshot ↔ _
      rw [a7]
      simp [partitionSet]
  intro q
  constructor
  · intro i hi x hx
    rcases (a10 q i x).mp hx with ⟨hxa, hq, hi0⟩ | hin
    · subst hxa
      exact ⟨(hpart q _).mpr (Or.inl ⟨rfl, hq⟩), by rw [hboa]; exact hi0⟩
    · obtain ⟨k1, k2⟩ := (hinv q).1 i hi x hin
      have hxa : x ≠ t.nextAddress := by
        rintro rfl
        exact fr2 q i hi hin
      exact ⟨(hpart q x).mpr (Or.inr k1), by rw [hbo x hxa]; exact k2⟩
  · intro x hx
    by_cases hxa : x = t.nextAddress
    · rw [hxa] at hx ⊢
      have hq : q = false := by
        rcases (hpart q _).mp hx with ⟨_, h⟩ | h
        · exact h
        · exact absurd h (fr1 q)
      subst hq
      refine ⟨?_, ?_, ?_⟩
      · rw [hboa]
        exact (a10 false 0 _).mpr (Or.inl ⟨rfl, rfl, rfl⟩)
      · rw [a2, hboa]
      · intro j hj hc
        rcases (a10 (!false) j _).mp hc with ⟨_, hqq, _⟩ | hin
        · simp at hqq
        · exact fr2 _ j hj hin
    · have hx2 : x ∈ t.partitionSet q := by
        rcases (hpart q x).mp hx with ⟨h, _⟩ | h
        · exact absurd h hxa
        · exact h
      obtain ⟨k1, k2, k3⟩ := (hinv q).2 x hx2
      refine ⟨?_, ?_, ?_⟩
      · rw [hbo x hxa]
        exact (a10 q _ x).mpr (Or.inr k1)
      · rw [a3 x hxa, hbo x hxa]; exact k2
      · intro j hj hc
        rcases (a10 (!q) j x).mp hc with ⟨h, _, _⟩ | hin
        · exact hxa h
        · exact k3 j hj hin

end Table
end voltdb

namespace voltdb
namespace Table

/-- The bucket invariant reads only the block objects, the buckets and the
partition sets. -/
theorem bucketInvFor_congr (B : Nat) (t t2 : Table) (q : Bool)
    (hh : t2.heap = t.heap) (hb : ∀ p, t2.bucketMap p = t.bucketMap p)
    (hp : ∀ p, t2.partitionSet p = t.partitionSet p) (h : t.BucketInvFor B q) :
    t2.BucketInvFor B q := by
  unfold BucketInvFor bucketOf at h ⊢
  rw [hh, hb, hb, hp]
  exact h

/-- The rebucketing after an allocation from the block at `a` keeps the bucket
invariant; it leaves the buckets alone when the block is in neither partition
set; and the bucket change reported is the new density bucket of the block. -/
theorem bucketInv_allocated (B : Nat) (t : Table) (a : Nat) (hB : 0 < B)
    (hinv : ∀ q, t.BucketInvFor B q) :
    (∀ q, (rebucketUsedBlock (t.setBlock a ((t.heap a).nextFreeTuple B).1) a
      ((t.heap a).nextFreeTuple B).2.2).BucketInvFor B q) ∧
    (a ∉ t.m_blocksNotPendingSnapshot → a ∉ t.m_blocksPendingSnapshot →
      ∀ q, (rebucketUsedBlock (t.setBlock a ((t.heap a).nextFreeTuple B).1) a
        ((t.heap a).nextFreeTuple B).2.2).bucketMap q = t.bucketMap q) ∧
    (∀ b, ((t.heap a).nextFreeTuple B).2.2 = some b →
      b = (rebucketUsedBlock (t.setBlock a ((t.heap a).nextFreeTuple B).1) a
        ((t.heap a).nextFreeTuple B).2.2).bucketOf B a) := by
  obtain ⟨n1, n2, _, n4, _, _, n7⟩ := TupleBlock.nextFreeTuple_fields B (t.heap a)
  obtain ⟨_, _, k3, k4, _⟩ := allocated_fields B t a _
    (rebucketUsedBlock_shape (t.setBlock a ((t.heap a).nextFreeTuple B).1) a
      ((t.heap a).nextFreeTuple B).2.2)
  have hsb := (setBlock_fields t a ((t.heap a).nextFreeTuple B).1).2.2.2.2.2.2.2.2.1
  have hthird : ∀ b, ((t.heap a).nextFreeTuple B).2.2 = some b →
      b = (rebucketUsedBlock (t.setBlock a ((t.heap a).nextFreeTuple B).1) a
        ((t.heap a).nextFreeTuple B).2.2).bucketOf B a := by
    intro b hb
    unfold bucketOf
    rw [k3, k4]
    rw [n7] at hb
    exact bucketChange_some _ _ _ _ _ hb
  refine ⟨?_, ?_, hthird⟩
  · rcases hc : ((t.heap a).nextFreeTuple B).2.2 with _ | b
    · -- no bucket change reported
      have hidx := bucketChange_none _ _ _ _ (n7 ▸ hc)
      show ∀ q, (t.setBlock a ((t.heap a).nextFreeTuple B).1).BucketInvFor B q
      apply bucketInv_setBlock_same B t a _ hinv n4
      intro p _
      rw [n1, n2]
      exact hidx
    · have hbidx : b = calculateBucketIndex B ((t.heap a).nextFreeTuple B).1.capacity
          ((t.heap a).nextFreeTuple B).1.activeCount := by
        rw [n1, n2]
        exact bucketChange_some _ _ _ _ _ (n7 ▸ hc)
      unfold rebucketUsedBlock
      dsimp only
      by_cases h1 : a ∈ t.m_blocksNotPendingSnapshot
      · have h1b : a ∈ (t.setBlock a ((t.heap a).nextFreeTuple B).1).m_blocksNotPendingSnapshot :=
          h1
        rw [if_pos h1b, hbidx]
        exact bucketInv_setBlock_swap B t a false _ hB hinv h1 n4
      · have h1b : a ∉ (t.setBlock a ((t.heap a).nextFreeTuple B).1).m_blocksNotPendingSnapshot :=
          h1
        rw [if_neg h1b]
        by_cases h2 : a ∈ t.m_blocksPendingSnapshot
        · have h2b : a ∈ (t.setBlock a ((t.heap a).nextFreeTuple B).1).m_blocksPendingSnapshot :=
            h2
          rw [if_pos h2b, hbidx]
          exact bucketInv_setBlock_swap B t a true _ hB hinv h2 n4
        · have h2b : a ∉ (t.setBlock a ((t.heap a).nextFreeTuple B).1).m_blocksPendingSnapshot :=
            h2
          rw [if_neg h2b]
          apply bucketInv_setBlock_same B t a _ hinv n4
          intro p hp
          cases p
          · exact absurd hp h1
          · exact absurd hp h2
  · intro h1 h2 q
    have h1b : a ∉ (t.setBlock a ((t.heap a).nextFreeTuple B).1).m_blocksNotPendingSnapshot := h1
    have h2b : a ∉ (t.setBlock a ((t.heap a).nextFreeTuple B).1).m_blocksPendingSnapshot := h2
    unfold rebucketUsedBlock
    rcases ((t.heap a).nextFreeTuple B).2.2 with _ | b
    · exact hsb q
    · dsimp only
      rw [if_neg h1b, if_neg h2b]
      exact hsb q

/-- What `nextFreeTuple` does to the buckets, on both of its paths: the block
`a` that hands out the slot belongs to a state `t0` (the table itself, or the
table with the new block) that satisfies the bucket invariant, and the result
has the block objects, buckets and partition sets of `t0` after the allocation
in `a` and the rebucketing of `a`. -/
theorem nextFreeTuple_buckets (B : Nat) (t : Table) (hs : t.ShapeInv)
    (hinv : ∀ q, t.BucketInvFor B q) :
    ∃ t0 : Table,
      (∀ q, t0.BucketInvFor B q) ∧
      allocationReport B t = ((t0.heap (nextFreeTuple B t).2.1).nextFreeTuple B).2.2 ∧
      (nextFreeTuple B t).1.heap
        = (rebucketUsedBlock (t0.setBlock (nextFreeTuple B t).2.1
            ((t0.heap (nextFreeTuple B t).2.1).nextFreeTuple B).1) (nextFreeTuple B t).2.1
            ((t0.heap (nextFreeTuple B t).2.1).nextFreeTuple B).2.2).heap ∧
      (∀ q, (nextFreeTuple B t).1.bucketMap q
        = (rebucketUsedBlock (t0.setBlock (nextFreeTuple B t).2.1
            ((t0.heap (nextFreeTuple B t).2.1).nextFreeTuple B).1) (nextFreeTuple B t).2.1
            ((t0.heap (nextFreeTuple B t).2.1).nextFreeTuple B).2.2).bucketMap q) ∧
      (∀ q, (nextFreeTuple B t).1.partitionSet q = t0.partitionSet q) ∧
      ((nextFreeTuple B t).2.1 ∉ t0.m_blocksNotPendingSnapshot →
        (nextFreeTuple B t).2.1 ∉ t0.m_blocksPendingSnapshot →
        ∀ q, t0.bucketMap q = t.bucketMap q) := by
  have hite : ∀ (c : Prop) [Decidable c] (X : Table) (s : List Nat),
      (if c then { X with m_blocksWithSpace := s } else X).heap = X.heap ∧
      (∀ q, (if c then { X with m_blocksWithSpace := s } else X).bucketMap q = X.bucketMap q) ∧
      (∀ q, (if c then { X with m_blocksWithSpace := s } else X).partitionSet q
        = X.partitionSet q) := by
    intro c _ X s
    split
    · refine ⟨rfl, ?_, ?_⟩ <;> intro q <;> cases q <;> rfl
    · exact ⟨rfl, fun _ => rfl, fun _ => rfl⟩
  have hXpart : ∀ (t0 : Table) (a : Nat) (q : Bool),
      (rebucketUsedBlock (t0.setBlock a ((t0.heap a).nextFreeTuple B).1) a
        ((t0.heap a).nextFreeTuple B).2.2).partitionSet q = t0.partitionSet q := by
    intro t0 a q
    obtain ⟨_, _, _, _, _, _, k7, k8, _⟩ := allocated_fields B t0 a _
      (rebucketUsedBlock_shape (t0.setBlock a ((t0.heap a).nextFreeTuple B).1) a
        ((t0.heap a).nextFreeTuple B).2.2)
    cases q
    · exact k7
    · exact k8
  rcases hbws : t.m_blocksWithSpace with _ | ⟨a, rest⟩
  · obtain ⟨e1, e2⟩ := nextFreeTuple_new B t hbws
    obtain ⟨_, _, _, _, _, a6, a7, _⟩ := allocateNextBlock_fields t
    obtain ⟨fr1, _⟩ := nextAddress_fresh B t hs hinv
    have hinN : t.nextAddress ∈ t.allocateNextBlock.1.m_blocksNotPendingSnapshot := by
      rw [a6]; exact mem_setInsert.mpr (Or.inl rfl)
    have hdis : t.nextAddress ∈ (t.allocateNextBlock.1.setBlock t.nextAddress
          ((t.allocateNextBlock.1.heap t.nextAddress).nextFreeTuple B).1).m_blocksNotPendingSnapshot →
        t.nextAddress ∉ (t.allocateNextBlock.1.setBlock t.nextAddress
          ((t.allocateNextBlock.1.heap t.nextAddress).nextFreeTuple B).1).m_blocksPendingSnapshot := by
      intro _ h
      have h2 : t.nextAddress ∈ t.allocateNextBlock.1.m_blocksPendingSnapshot := h
      rw [a7] at h2
      exact fr1 true h2
    rw [rebucketNewBlock_eq _ _ _ hdis] at e2
    refine ⟨t.allocateNextBlock.1, bucketInv_allocateNextBlock B t hs hinv, ?_, ?_, ?_, ?_, ?_⟩
    · rw [e1]
      unfold allocationReport
      rw [hbws]
      rfl
    · rw [e1, e2]; exact (hite _ _ _).1
    · intro q
      rw [e1, e2]; exact (hite _ _ _).2.1 q
    · intro q
      rw [e2, (hite _ _ _).2.2 q]
      exact hXpart _ _ q
    · intro h
      rw [e1] at h
      exact absurd hinN h
  · obtain ⟨e1, e2⟩ := nextFreeTuple_existing B t a rest hbws
    refine ⟨t, hinv, ?_, ?_, ?_, ?_, fun _ _ _ => rfl⟩
    · rw [e1]
      unfold allocationReport
      rw [hbws]
    · rw [e1, e2]; exact (hite _ _ _).1
    · intro q
      rw [e1, e2]; exact (hite _ _ _).2.1 q
    · intro q
      rw [e2, (hite _ _ _).2.2 q]
      exact hXpart _ _ q

end Table
end voltdb

namespace voltdb

/-! ## Successive allocations -/

theorem orderedInsert_of_lt (a : Nat) (l : List Nat) (h : ∀ x ∈ l, x < a) :
    List.orderedInsert (fun x y => x ≤ y) a l = l ++ [a] := by
  induction l with
  | nil => rfl
  | cons b l ih =>
    have hb : ¬ a ≤ b := by
      have := h b (List.mem_cons_self _ _)
      omega
    rw [List.orderedInsert, if_neg hb, ih (fun x hx => h x (List.mem_cons_of_mem _ hx))]
    rfl

theorem setInsert_range (k : Nat) : setInsert k (List.range k) = List.range (k + 1) := by
  unfold setInsert
  rw [if_neg (by simp), orderedInsert_of_lt k _ (fun x hx => List.mem_range.mp hx),
    List.range_succ]

theorem ceil_div_of_eq (c q r n : Nat) (hc : 0 < c) (hr : r < c) (hn : n = q * c + r) :
    (n + c - 1) / c = q + (if r = 0 then 0 else 1) ∧ n % c = r ∧ n / c = q := by
  have h2 : n / c = q ∧ n % c = r :=
    (Nat.div_mod_unique hc).mpr ⟨by rw [hn, Nat.mul_comm]; omega, hr⟩
  refine ⟨?_, h2.2, h2.1⟩
  by_cases h0 : r = 0
  · rw [if_pos h0]
    have : (n + c - 1) / c = q ∧ (n + c - 1) % c = c - 1 :=
      (Nat.div_mod_unique hc).mpr ⟨by rw [hn, h0, Nat.mul_comm q c]; omega, by omega⟩
    exact this.1
  · rw [if_neg h0]
    have : (n + c - 1) / c = q + 1 ∧ (n + c - 1) % c = r - 1 :=
      (Nat.div_mod_unique hc).mpr
        ⟨by rw [hn, Nat.mul_add, Nat.mul_comm q c]; omega, by omega⟩
    exact this.1

namespace Table

/-- One more allocation on a filled table: the last block gets one more tuple,
or a new block is started when there is no block with space. -/
theorem filledTo_step (B c q r : Nat) (t : Table) (hr : r < c)
    (h : FilledTo c q r t) :
    (r + 1 = c → FilledTo c (q + 1) 0 (nextFreeTuple B t).1) ∧
    (r + 1 < c → FilledTo c q (r + 1) (nextFreeTuple B t).1) := by
  obtain ⟨h1, h2, h3, h4, h5, h6⟩ := h
  by_cases hr0 : r = 0
  · -- no block with space: a new block at address `q`
    subst hr0
    simp only [if_true, Nat.add_zero] at h2 h3 h4
    subst h3
    have h3 : t.nextAddress = t.nextAddress := rfl
    obtain ⟨_, e2⟩ := nextFreeTuple_new B t h4
    obtain ⟨_, a2, a3, a4, a5, _, _, a8, a9, _⟩ := allocateNextBlock_fields t
    obtain ⟨k1, _, k3, k4, k5, k6, _, _, k9, k10⟩ :=
      allocated_fields B t.allocateNextBlock.1 t.nextAddress _
        (rebucketNewBlock_shape (t.allocateNextBlock.1.setBlock t.nextAddress
          ((t.allocateNextBlock.1.heap t.nextAddress).nextFreeTuple B).1) t.nextAddress
          ((t.allocateNextBlock.1.heap t.nextAddress).nextFreeTuple B).2.2)
    rw [e2]
    set X := rebucketNewBlock (t.allocateNextBlock.1.setBlock t.nextAddress
        ((t.allocateNextBlock.1.heap t.nextAddress).nextFreeTuple B).1) t.nextAddress
        ((t.allocateNextBlock.1.heap t.nextAddress).nextFreeTuple B).2.2 with hX
    have hact : (X.heap t.nextAddress).activeCount = 1 := by rw [k3, a2]
    have hcap : (X.heap t.nextAddress).capacity = c := by rw [k4, a2]; exact h1
    have hdata : X.m_data = List.range (t.nextAddress + 1) := by
      rw [k5, a4, h2, h3, setInsert_range]
    have hnext : X.nextAddress = t.nextAddress + 1 := by rw [k9, a8, h3]
    have hbws : X.m_blocksWithSpace = [] := by rw [k6, a5, h4]
    have htpb : X.m_tuplesPerBlock = c := by rw [k10, a9, h1]
    have hold : ∀ i, i < t.nextAddress → (X.heap i).activeCount = c ∧ (X.heap i).capacity = c := by
      intro i hi
      have hne : i ≠ t.nextAddress := by omega
      rw [k1 i hne, a3 i hne]
      exact h5 i hi
    have hfree : (X.heap t.nextAddress).hasFreeTuples = decide (1 < c) := by
      simp only [TupleBlock.hasFreeTuples, hact, hcap]
    constructor
    · intro hc1
      have hnf : (X.heap t.nextAddress).hasFreeTuples = false := by
        rw [hfree]; simp; omega
      rw [hnf]
      simp only [Bool.false_eq_true, if_false]
      refine ⟨htpb, by simpa using hdata, by simpa using hnext, by simpa using hbws, ?_,
        fun h => absurd rfl h⟩
      intro i hi
      by_cases hiq : i = t.nextAddress
      · rw [hiq, hact, hcap]; exact ⟨by omega, rfl⟩
      · exact hold i (by omega)
    · intro hc1
      have hyf : (X.heap t.nextAddress).hasFreeTuples = true := by
        rw [hfree]; simp; omega
      rw [hyf]
      simp only [if_true]
      refine ⟨htpb, ?_, ?_, ?_, hold, fun _ => ⟨hact, hcap⟩⟩
      · show X.m_data = _
        rw [hdata]; simp
      · show X.nextAddress = _
        rw [hnext]; simp
      · show setInsert t.nextAddress X.m_blocksWithSpace = _
        rw [hbws]
        simp [setInsert]
  · -- block `q` has space and is used
    simp only [hr0, if_false] at h2 h3 h4
    obtain ⟨hqa, hqc⟩ := h6 hr0
    obtain ⟨_, e2⟩ := nextFreeTuple_existing B t q [] h4
    obtain ⟨k1, _, k3, k4, k5, k6, _, _, k9, k10⟩ := allocated_fields B t q _
      (rebucketUsedBlock_shape (t.setBlock q ((t.heap q).nextFreeTuple B).1) q
        ((t.heap q).nextFreeTuple B).2.2)
    rw [e2]
    set X := rebucketUsedBlock (t.setBlock q ((t.heap q).nextFreeTuple B).1) q
        ((t.heap q).nextFreeTuple B).2.2 with hX
    have hact : (X.heap q).activeCount = r + 1 := by rw [k3, hqa]
    have hcap : (X.heap q).capacity = c := by rw [k4, hqc]
    have hold : ∀ i, i < q → (X.heap i).activeCount = c ∧ (X.heap i).capacity = c := by
      intro i hi
      have hne : i ≠ q := by omega
      rw [k1 i hne]
      exact h5 i hi
    have hfree : (X.heap q).hasFreeTuples = decide (r + 1 < c) := by
      simp only [TupleBlock.hasFreeTuples, hact, hcap]
    constructor
    · intro hc1
      have hnf : (X.heap q).hasFreeTuples = false := by
        rw [hfree]; simp; omega
      rw [hnf]
      simp only [Bool.not_false, if_true]
      refine ⟨by rw [← h1]; exact k10, ?_, ?_, ?_, ?_, fun h => absurd rfl h⟩
      · show X.m_data = _
        rw [k5, h2]; simp
      · show X.nextAddress = _
        rw [k9, h3]; simp
      · show setErase q X.m_blocksWithSpace = _
        rw [k6, h4]
        simp [setErase]
      · intro i hi
        by_cases hiq : i = q
        · rw [hiq]
          show (X.heap q).activeCount = c ∧ (X.heap q).capacity = c
          rw [hact, hcap]; exact ⟨hc1, rfl⟩
        · exact hold i (by omega)
    · intro hc1
      have hyf : (X.heap q).hasFreeTuples = true := by
        rw [hfree]; simp; omega
      rw [hyf]
      simp only [Bool.not_true, Bool.false_eq_true, if_false]
      refine ⟨by rw [← h1]; exact k10, ?_, ?_, ?_, hold, fun _ => ⟨hact, hcap⟩⟩
      · rw [k5, h2]; simp
      · rw [k9, h3]; simp
      · rw [k6, h4]; simp

/-- After `n` allocations on a fresh table the table is filled to `n / c` full
blocks and `n % c` tuples in a further block. -/
theorem filledTo_times (B c : Nat) (hc : 0 < c) :
    ∀ n, FilledTo c (n / c) (n % c) (nextFreeTupleTimes B n (fresh c)) := by
  intro n
  induction n with
  | zero =>
    simp only [Nat.zero_div, Nat.zero_mod, nextFreeTupleTimes]
    refine ⟨rfl, rfl, rfl, rfl, fun i hi => absurd hi (by omega), fun h => absurd rfl h⟩
  | succ n ih =>
    have hr : n % c < c := Nat.mod_lt n hc
    have hn : n = (n / c) * c + n % c := by
      have := Nat.div_add_mod n c
      rw [Nat.mul_comm] at this
      omega
    obtain ⟨s1, s2⟩ := filledTo_step B c (n / c) (n % c) _ hr ih
    show FilledTo c ((n + 1) / c) ((n + 1) % c) (nextFreeTuple B (nextFreeTupleTimes B n (fresh c))).1
    by_cases hfull : n % c + 1 = c
    · have hd : (n + 1) / c = n / c + 1 ∧ (n + 1) % c = 0 :=
        (Nat.div_mod_unique hc).mpr ⟨by rw [Nat.mul_add, Nat.mul_comm c (n / c)]; omega, hc⟩
      rw [hd.1, hd.2]
      exact s1 hfull
    · have hd : (n + 1) / c = n / c ∧ (n + 1) % c = n % c + 1 :=
        (Nat.div_mod_unique hc).mpr ⟨by rw [Nat.mul_comm c (n / c)]; omega, by omega⟩
      rw [hd.1, hd.2]
      exact s2 (by omega)

end Table
end voltdb

namespace voltdb
namespace Table

/-! ## Compaction: emptied blocks, termination, Scenario B, the tuple count -/

/-- C1, evaluated on two half-full blocks of four slots, a table that
satisfies the invariants of the data model: the compaction of the not-pending
partition returns `true`, the merge has emptied block 20, which is erased from
`m_data`, `m_blocksWithSpace` and both partition sets, and block 20 is still a
member of bucket 2 of the not-pending bucket array. -/
theorem doCompactionWithinSubset_leaves_emptied_block_in_bucket :
    twoHalfBlocks.DataModelInvariants 4 ∧
    (doCompactionWithinSubset 4 2 false twoHalfBlocks).1 = Outcome.returned true ∧
    ((doCompactionWithinSubset 4 2 false twoHalfBlocks).2.heap 20).activeCount = 0 ∧
    20 ∉ (doCompactionWithinSubset 4 2 false twoHalfBlocks).2.m_data ∧
    20 ∉ (doCompactionWithinSubset 4 2 false twoHalfBlocks).2.m_blocksWithSpace ∧
    20 ∉ (doCompactionWithinSubset 4 2 false twoHalfBlocks).2.m_blocksNotPendingSnapshot ∧
    20 ∉ (doCompactionWithinSubset 4 2 false twoHalfBlocks).2.m_blocksPendingSnapshot ∧
    20 ∈ (doCompactionWithinSubset 4 2 false twoHalfBlocks).2.m_blocksNotPendingSnapshotLoad 2 := by
  decide

/-- C2, evaluated on a table that satisfies the invariants of the data model
and holds blocks with 1, 1 and 3 tuples out of 4: the first merge drains block
20 into block 10, which still has free slots; the emptied block 20 stays in its
bucket, is found as `lightest` again on every later iteration, and the loop
`while (fullest->hasFreeTuples())` never ends: the run is out of fuel for every
amount of fuel. -/
theorem doCompactionWithinSubset_runs_forever :
    threeBlocks.DataModelInvariants 4 ∧
    ∀ fuel, (doCompactionWithinSubset 4 fuel false threeBlocks).1 = Outcome.outOfFuel := by
  refine ⟨by decide, fun fuel => ?_⟩
  rw [doCompactionWithinSubset_of_fullest 4 fuel false threeBlocks 10 (by decide)]
  cases fuel with
  | zero => rfl
  | succ n =>
    rw [compactionLoop_succ 4 false 10 n threeBlocks none 20 (by decide) (by decide)]
    exact (compactionLoop_stuck 4 false 10 20 _ n _ _
      ⟨by decide, by decide, by decide, by decide, rfl⟩).1

/-- C3, evaluated on Scenario B (two unpinned blocks of four slots holding one
tuple each, predicate "more slots allocated than tuples active"): the state
satisfies the invariants of the data model and the predicate holds, yet forced
compaction never returns: it is out of fuel for every amount of fuel given to
its own loop and to the compaction of the partition. The draining loop has by
then moved the tuple of block 20 into block 10 with one relocation and erased
block 20 from `m_data`, and still runs because block 10 has free slots and the
emptied block 20 is still in bucket 1. -/
theorem doForcedCompaction_scenarioB_runs_forever :
    twoQuarterBlocks.DataModelInvariants 4 ∧
    allocatedExceedsActive twoQuarterBlocks = true ∧
    (∀ innerFuel fuel,
      (doForcedCompaction 4 allocatedExceedsActive innerFuel (fuel + 1) twoQuarterBlocks).1
        = ForcedOutcome.outOfFuel) ∧
    (doCompactionWithinSubset 4 3 false twoQuarterBlocks).2.m_data = [10] ∧
    ((doCompactionWithinSubset 4 3 false twoQuarterBlocks).2.heap 10).activeCount = 2 ∧
    ((doCompactionWithinSubset 4 3 false twoQuarterBlocks).2.heap 10).hasFreeTuples = true ∧
    ((doCompactionWithinSubset 4 3 false twoQuarterBlocks).2.heap 20).activeCount = 0 ∧
    (doCompactionWithinSubset 4 3 false twoQuarterBlocks).2.relocated = [((20, 0), (10, 1))] ∧
    20 ∈ (doCompactionWithinSubset 4 3 false twoQuarterBlocks).2.m_blocksNotPendingSnapshotLoad 1 := by
  refine ⟨by decide, by decide, fun innerFuel fuel => ?_, by decide, by decide, by decide,
    by decide, by decide, by decide⟩
  have h := twoQuarterBlocks_outOfFuel innerFuel
  have hp : allocatedExceedsActive twoQuarterBlocks = true := by decide
  have hn : twoQuarterBlocks.m_blocksNotPendingSnapshot.isEmpty = false := by decide
  unfold doForcedCompaction
  rw [forcedLoop]
  simp [hp, hn, h]

/-- The tuple count under a further premise: when `m_data` and the buckets are
sets and every block in a bucket of the compacted array is a block of the
table, `doCompactionWithinSubset` leaves `m_tupleCount` unchanged and keeps it
equal to the sum of the active counts over `m_data`, in whatever way the run
ends (returning `true`, returning `false`, or still looping when the fuel is
spent). Without that premise the count can be lost. -/
theorem doCompactionWithinSubset_keeps_tuple_count (B fuel : Nat) (p : Bool) (t : Table)
    (hnd : t.m_data.Nodup) (hbn : t.BucketsNodup B)
    (hin : ∀ j, j < B → ∀ a ∈ t.bucketMap p j, a ∈ t.m_data)
    (hc : t.CountInv) :
    (doCompactionWithinSubset B fuel p t).2.CountInv ∧
    (doCompactionWithinSubset B fuel p t).2.m_tupleCount = t.m_tupleCount := by
  unfold doCompactionWithinSubset
  rcases hf : findFullest B (t.bucketMap p) with _ | f
  · exact ⟨hc, rfl⟩
  · obtain ⟨i, hi, hfi⟩ := findFullest_mem B _ f hf
    have hfm : f ∈ t.m_data := hin i (by omega) f hfi
    have key := compactionLoop_induction B p f
      (fun t2 _ => CountLoopInv B p f t.m_tupleCount t.activeSum t2)
      (fun r => r.2.m_tupleCount = t.m_tupleCount ∧ r.2.activeSum = t.activeSum)
      (fun t2 fbc l h _ hl => countLoopInv_step B p f _ _ l t2 fbc h hl)
      (fun t2 _ h _ _ => ⟨h.2.2.2.2.1, h.2.2.2.2.2⟩)
      (fun t2 fbc h _ => by
        obtain ⟨h1, _, _, h4, h5, _⟩ := finishCompaction_fields p f t2 fbc
        refine ⟨h5.trans h.2.2.2.2.1, ?_⟩
        unfold activeSum
        rw [h4]
        simp only [h1]
        exact h.2.2.2.2.2)
      (fun t2 _ h => ⟨h.2.2.2.2.1, h.2.2.2.2.2⟩)
      fuel t none
      ⟨hnd, hfm, fun q j hj => hbn q j hj, fun j hj a ha => Or.inl (hin j hj a ha), rfl, rfl⟩
    dsimp only
    refine ⟨?_, key.1⟩
    unfold CountInv
    rw [key.1, key.2]
    exact hc

/-- The tuple count on two half-full blocks, where the compaction moves two
tuples and removes a block. -/
theorem doCompactionWithinSubset_keeps_tuple_count_witness :
    (doCompactionWithinSubset 4 2 false twoHalfBlocks).2.CountInv ∧
    (doCompactionWithinSubset 4 2 false twoHalfBlocks).2.m_tupleCount
      = twoHalfBlocks.m_tupleCount :=
  doCompactionWithinSubset_keeps_tuple_count 4 2 false twoHalfBlocks
    (by decide) (by decide) (by decide) (by decide)

end Table
end voltdb

namespace voltdb
namespace Table

/-! ## Compaction: the frame -/

/-- C10: a block that is in no bucket of the bucket array given to
`doCompactionWithinSubset` (a block of the other partition, or a pinned and
therefore unbucketed block) keeps its block object (active count, slots and
all), its membership in `m_data`, `m_blocksWithSpace`, both partition sets and
every bucket of both arrays, and is neither destination nor source of any merge
call the compaction makes; this holds in whatever way the run ends. -/
theorem doCompactionWithinSubset_frame (B fuel : Nat) (p : Bool) (t : Table) (a : Nat)
    (ha : ∀ j, j < B → a ∉ t.bucketMap p j) :
    (doCompactionWithinSubset B fuel p t).2.heap a = t.heap a ∧
    (a ∈ (doCompactionWithinSubset B fuel p t).2.m_data ↔ a ∈ t.m_data) ∧
    (a ∈ (doCompactionWithinSubset B fuel p t).2.m_blocksWithSpace
      ↔ a ∈ t.m_blocksWithSpace) ∧
    (a ∈ (doCompactionWithinSubset B fuel p t).2.m_blocksNotPendingSnapshot
      ↔ a ∈ t.m_blocksNotPendingSnapshot) ∧
    (a ∈ (doCompactionWithinSubset B fuel p t).2.m_blocksPendingSnapshot
      ↔ a ∈ t.m_blocksPendingSnapshot) ∧
    (∀ q j, a ∈ (doCompactionWithinSubset B fuel p t).2.bucketMap q j ↔ a ∈ t.bucketMap q j) ∧
    ∃ calls, (doCompactionWithinSubset B fuel p t).2.mergeCalls = t.mergeCalls ++ calls ∧
      ∀ c ∈ calls, c.1 ≠ a ∧ c.2 ≠ a := by
  unfold doCompactionWithinSubset
  rcases hf : findFullest B (t.bucketMap p) with _ | f
  · exact ⟨rfl, Iff.rfl, Iff.rfl, Iff.rfl, Iff.rfl, fun _ _ => Iff.rfl, [], by simp, by simp⟩
  · obtain ⟨i, hi, hfi⟩ := findFullest_mem B _ f hf
    have haf : a ≠ f := by
      rintro rfl
      exact ha i (by omega) hfi
    have hQ : ∀ t2, FrameInv B p f a t t2 →
        t2.heap a = t.heap a ∧ (a ∈ t2.m_data ↔ a ∈ t.m_data) ∧
        (a ∈ t2.m_blocksWithSpace ↔ a ∈ t.m_blocksWithSpace) ∧
        (a ∈ t2.m_blocksNotPendingSnapshot ↔ a ∈ t.m_blocksNotPendingSnapshot) ∧
        (a ∈ t2.m_blocksPendingSnapshot ↔ a ∈ t.m_blocksPendingSnapshot) ∧
        (∀ q j, a ∈ t2.bucketMap q j ↔ a ∈ t.bucketMap q j) ∧
        ∃ calls, t2.mergeCalls = t.mergeCalls ++ calls ∧ ∀ c ∈ calls, c.1 ≠ a ∧ c.2 ≠ a :=
      fun t2 h => h.2.2
    exact compactionLoop_induction B p f
      (fun t2 _ => FrameInv B p f a t t2)
      (fun r => r.2.heap a = t.heap a ∧ (a ∈ r.2.m_data ↔ a ∈ t.m_data) ∧
        (a ∈ r.2.m_blocksWithSpace ↔ a ∈ t.m_blocksWithSpace) ∧
        (a ∈ r.2.m_blocksNotPendingSnapshot ↔ a ∈ t.m_blocksNotPendingSnapshot) ∧
        (a ∈ r.2.m_blocksPendingSnapshot ↔ a ∈ t.m_blocksPendingSnapshot) ∧
        (∀ q j, a ∈ r.2.bucketMap q j ↔ a ∈ t.bucketMap q j) ∧
        ∃ calls, r.2.mergeCalls = t.mergeCalls ++ calls ∧ ∀ c ∈ calls, c.1 ≠ a ∧ c.2 ≠ a)
      (fun t2 fbc l h _ hl => frameInv_step B p f a l t t2 fbc h hl)
      (fun t2 _ h _ _ => hQ t2 h)
      (fun t2 fbc h _ => by
        obtain ⟨_, _, k3, k4, _, k6, k7, k8⟩ := finishCompaction_fields p f t2 fbc
        obtain ⟨f1, f2, _, _⟩ := finishCompaction_frame p f t2 fbc
        obtain ⟨_, _, hheap, h1, h2, h3, h4, hb, hcalls⟩ := h
        refine ⟨?_, ?_, ?_, ?_, ?_, ?_, ?_⟩
        · show (finishCompaction p f t2 fbc).heap a = _
          rw [k3 a haf]; exact hheap
        · show a ∈ (finishCompaction p f t2 fbc).m_data ↔ _
          rw [k4]; exact h1
        · exact (f1 a haf).trans h2
        · show a ∈ (finishCompaction p f t2 fbc).m_blocksNotPendingSnapshot ↔ _
          rw [k6]; exact h3
        · show a ∈ (finishCompaction p f t2 fbc).m_blocksPendingSnapshot ↔ _
          rw [k7]; exact h4
        · intro q j
          exact (f2 q j a haf).trans (hb q j)
        · show ∃ calls, (finishCompaction p f t2 fbc).mergeCalls = _ ∧ _
          rw [k8]; exact hcalls)
      (fun t2 _ h => hQ t2 h)
      fuel t none
      ⟨haf, ha, rfl, Iff.rfl, Iff.rfl, Iff.rfl, Iff.rfl, fun _ _ => Iff.rfl, [], by simp,
        by simp⟩

/-- C10 on a table with two half-full not-pending blocks that get merged, for
the block pinned by a snapshot iterator. -/
theorem doCompactionWithinSubset_frame_witness :
    (doCompactionWithinSubset 4 2 false mixedTable).2.heap 40 = mixedTable.heap 40 ∧
    (40 ∈ (doCompactionWithinSubset 4 2 false mixedTable).2.m_data ↔ 40 ∈ mixedTable.m_data) ∧
    (40 ∈ (doCompactionWithinSubset 4 2 false mixedTable).2.m_blocksWithSpace
      ↔ 40 ∈ mixedTable.m_blocksWithSpace) ∧
    (40 ∈ (doCompactionWithinSubset 4 2 false mixedTable).2.m_blocksNotPendingSnapshot
      ↔ 40 ∈ mixedTable.m_blocksNotPendingSnapshot) ∧
    (40 ∈ (doCompactionWithinSubset 4 2 false mixedTable).2.m_blocksPendingSnapshot
      ↔ 40 ∈ mixedTable.m_blocksPendingSnapshot) ∧
    (∀ q j, 40 ∈ (doCompactionWithinSubset 4 2 false mixedTable).2.bucketMap q j
      ↔ 40 ∈ mixedTable.bucketMap q j) ∧
    ∃ calls, (doCompactionWithinSubset 4 2 false mixedTable).2.mergeCalls
        = mixedTable.mergeCalls ++ calls ∧
      ∀ c ∈ calls, c.1 ≠ 40 ∧ c.2 ≠ 40 :=
  doCompactionWithinSubset_frame 4 2 false mixedTable 40 (by decide)

end Table
end voltdb

namespace voltdb
namespace Table

/-! ## Compaction: `m_blocksWithSpace` -/

/-- C8 fails: on a block with one tuple beside a full block, a table that
satisfies the invariants of the data model, with `m_blocksWithSpace` the set of
the unpinned blocks that have a free slot, the compaction returns `true` after
the full block, chosen as `lightest`, gave three tuples to `fullest`; block 20
is then an unpinned block of the table with three free slots that is not in
`m_blocksWithSpace`, and `m_blocksWithSpace` is no longer that set. -/
theorem doCompactionWithinSubset_misses_full_lightest :
    quarterAndFullBlocks.DataModelInvariants 4 ∧
    (doCompactionWithinSubset 4 2 false quarterAndFullBlocks).1 = Outcome.returned true ∧
    20 ∈ (doCompactionWithinSubset 4 2 false quarterAndFullBlocks).2.m_data ∧
    (doCompactionWithinSubset 4 2 false quarterAndFullBlocks).2.unpinned 20 ∧
    ((doCompactionWithinSubset 4 2 false quarterAndFullBlocks).2.heap 20).activeCount = 1 ∧
    ((doCompactionWithinSubset 4 2 false quarterAndFullBlocks).2.heap 20).hasFreeTuples = true ∧
    20 ∉ (doCompactionWithinSubset 4 2 false quarterAndFullBlocks).2.m_blocksWithSpace ∧
    ¬ (doCompactionWithinSubset 4 2 false quarterAndFullBlocks).2.UnpinnedSpaceInv := by
  decide

/-- The set `m_blocksWithSpace` under further premises: when the buckets are
sets, every block in a bucket of the compacted array is an unpinned block of
the table and none of them is full, and `m_blocksWithSpace` is exactly the set
of unpinned blocks of the table with a free slot, then it is exactly that set
again whenever `doCompactionWithinSubset` returns (with `true` or with
`false`). -/
theorem doCompactionWithinSubset_keeps_blocksWithSpace (B fuel : Nat) (p : Bool) (t : Table)
    (hbn : t.BucketsNodup B)
    (hin : ∀ j, j < B → ∀ a ∈ t.bucketMap p j, a ∈ t.m_data ∧ t.unpinned a)
    (hfree : ∀ j, j < B → ∀ a ∈ t.bucketMap p j, (t.heap a).hasFreeTuples = true)
    (hs : t.UnpinnedSpaceInv)
    (hret : (doCompactionWithinSubset B fuel p t).1 ≠ Outcome.outOfFuel) :
    (doCompactionWithinSubset B fuel p t).2.UnpinnedSpaceInv := by
  unfold doCompactionWithinSubset at hret ⊢
  rcases hf : findFullest B (t.bucketMap p) with _ | f
  · exact hs
  · rw [hf] at hret
    dsimp only at hret ⊢
    obtain ⟨i, hi, hfi⟩ := findFullest_mem B _ f hf
    have hiB : i < B := by omega
    have hQ : ∀ t2, SpaceLoopInv B p f t2 → (t2.heap f).hasFreeTuples = true →
        t2.UnpinnedSpaceInv := by
      rintro t2 ⟨_, _, ⟨hf1, hf2, hf3⟩, hs1, hs2⟩ hfr
      constructor
      · intro a ha
        by_cases haf : a = f
        · rw [haf]; exact ⟨hf2, hf3, hfr⟩
        · exact hs1 a ha haf
      · intro a ha hu hfa
        by_cases haf : a = f
        · rw [haf]; exact hf1
        · exact hs2 a ha haf hu hfa
    have key := compactionLoop_induction B p f
      (fun t2 _ => SpaceLoopInv B p f t2)
      (fun r => r.1 ≠ Outcome.outOfFuel → r.2.UnpinnedSpaceInv)
      (fun t2 fbc l h _ hl => spaceLoopInv_step B p f l t2 fbc h hl)
      (fun t2 _ h hfr _ _ => hQ t2 h hfr)
      (fun t2 fbc h hfr _ => by
        obtain ⟨k1, k2, _, k4, _, k6, k7, _⟩ := finishCompaction_fields p f t2 fbc
        obtain ⟨f1, _, f3, f4⟩ := finishCompaction_frame p f t2 fbc
        obtain ⟨_, _, ⟨hf1, hf2, hf3⟩, hs1, hs2⟩ := h
        have hfree2 : ∀ x, ((finishCompaction p f t2 fbc).heap x).hasFreeTuples
            = (t2.heap x).hasFreeTuples := by
          intro x
          simp only [TupleBlock.hasFreeTuples, k1 x, k2 x]
        have hunp : ∀ x, (finishCompaction p f t2 fbc).unpinned x ↔ t2.unpinned x := by
          intro x
          unfold unpinned
          rw [k6, k7]
        constructor
        · intro a ha
          have haf : a ≠ f := fun h => f4 hfr (h ▸ ha)
          obtain ⟨c1, c2, c3⟩ := hs1 a (f3 a ha) haf
          exact ⟨by rw [k4]; exact c1, (hunp a).mpr c2, by rw [hfree2]; exact c3⟩
        · intro a ha hu hfa
          rw [hfree2] at hfa
          have haf : a ≠ f := by
            rintro rfl
            rw [hfr] at hfa
            exact absurd hfa (by simp)
          rw [k4] at ha
          exact (f1 a haf).mpr (hs2 a ha haf ((hunp a).mp hu) hfa))
      (fun t2 _ _ hne => absurd rfl hne)
      fuel t none
      ⟨fun q j hj => hbn q j hj, fun j hj a ha _ => hfree j hj a ha,
        ⟨hs.2 f (hin i hiB f hfi).1 (hin i hiB f hfi).2 (hfree i hiB f hfi),
          (hin i hiB f hfi).1, (hin i hiB f hfi).2⟩,
        fun a ha _ => hs.1 a ha, fun a ha _ hu hfa => hs.2 a ha hu hfa⟩
    exact key hret

/-- The set `m_blocksWithSpace` on two half-full blocks that the compaction
merges into one. -/
theorem doCompactionWithinSubset_keeps_blocksWithSpace_witness :
    (doCompactionWithinSubset 4 2 false twoHalfBlocks).2.UnpinnedSpaceInv :=
  doCompactionWithinSubset_keeps_blocksWithSpace 4 2 false twoHalfBlocks
    (by decide) (by decide) (by decide) (by decide) (by decide)

end Table
end voltdb

namespace voltdb
namespace Table

/-! ## Compaction: bucket membership on exit -/

theorem finishCompaction_bucketMap (p q : Bool) (f : Nat) (t : Table) (fbc : Option Nat) :
    (finishCompaction p f t fbc).bucketMap q
      = (match fbc with
          | some b => t.swapToBucket f p b
          | none => t).bucketMap q := by
  unfold finishCompaction
  dsimp only
  split
  · cases q <;> rfl
  · rfl

/-- C6: when the buckets are sets and the bucket membership invariant holds
for the compacted partition, then after `doCompactionWithinSubset` returns,
with `true` or with `false`, every non-empty block of the compacted partition
(the block chosen as `fullest` included) is in exactly one bucket of the two
arrays: the bucket of its own partition's array whose index is
`floor(active_count * B / capacity)` clamped to `[0, B-1]`. -/
theorem doCompactionWithinSubset_keeps_bucket_membership (B fuel : Nat) (p : Bool) (t : Table)
    (hbn : t.BucketsNodup B) (hb : t.BucketInvFor B p)
    (hret : (doCompactionWithinSubset B fuel p t).1 ≠ Outcome.outOfFuel) :
    ∀ a ∈ (doCompactionWithinSubset B fuel p t).2.partitionSet p,
      ((doCompactionWithinSubset B fuel p t).2.heap a).activeCount ≠ 0 →
      ∀ q j, j < B →
        (a ∈ (doCompactionWithinSubset B fuel p t).2.bucketMap q j ↔
          q = p ∧ j = calculateBucketIndex B
            ((doCompactionWithinSubset B fuel p t).2.heap a).capacity
            ((doCompactionWithinSubset B fuel p t).2.heap a).activeCount) := by
  rcases Nat.eq_zero_or_pos B with hB0 | hB
  · intro a _ _ q j hj
    omega
  -- the shape of the result that gives the claim
  have final : ∀ t2 : Table,
      (∀ a ∈ t2.partitionSet p,
        (∀ j, j < B → (a ∈ t2.bucketMap p j ↔ j = t2.bucketOf B a)) ∧
        (∀ j, j < B → a ∉ t2.bucketMap (!p) j)) →
      ∀ a ∈ t2.partitionSet p, (t2.heap a).activeCount ≠ 0 → ∀ q j, j < B →
        (a ∈ t2.bucketMap q j ↔
          q = p ∧ j = calculateBucketIndex B (t2.heap a).capacity (t2.heap a).activeCount) := by
    intro t2 h a ha _ q j hj
    obtain ⟨h1, h2⟩ := h a ha
    by_cases hq : q = p
    · subst hq
      rw [h1 j hj]
      unfold bucketOf
      tauto
    · have hq2 : q = !p := by cases p <;> cases q <;> simp_all
      subst hq2
      constructor
      · intro hx; exact absurd hx (h2 j hj)
      · intro hx; exact absurd hx.1 hq
  have hinit : ∀ a ∈ t.partitionSet p,
      (∀ j, j < B → (a ∈ t.bucketMap p j ↔ j = t.bucketOf B a)) ∧
      (t.heap a).currentBucket = some (p, t.bucketOf B a) ∧
      (∀ j, j < B → a ∉ t.bucketMap (!p) j) := by
    intro a ha
    obtain ⟨c1, c2, c3⟩ := hb.2 a ha
    refine ⟨fun j hj => ⟨fun hx => (hb.1 j hj a hx).2, fun hx => hx ▸ c1⟩, c2, c3⟩
  unfold doCompactionWithinSubset at hret ⊢
  rcases hf : findFullest B (t.bucketMap p) with _ | f
  · exact final t (fun a ha => ⟨(hinit a ha).1, (hinit a ha).2.2⟩)
  · rw [hf] at hret
    dsimp only at hret ⊢
    obtain ⟨i0, hi0, hfi⟩ := findFullest_mem B _ f hf
    have hi0B : i0 < B := by omega
    obtain ⟨hfp, hfidx⟩ := hb.1 i0 hi0B f hfi
    have key := compactionLoop_induction B p f
      (fun t2 fbc => BucketLoopInv B p f i0 t2 fbc)
      (fun r => r.1 ≠ Outcome.outOfFuel →
        ∀ a ∈ r.2.partitionSet p,
          (∀ j, j < B → (a ∈ r.2.bucketMap p j ↔ j = r.2.bucketOf B a)) ∧
          (∀ j, j < B → a ∉ r.2.bucketMap (!p) j))
      (fun t2 fbc l h _ hl => bucketLoopInv_step B p f i0 l t2 fbc h hl)
      (fun t2 fbc h _ hn _ a ha => by
        obtain ⟨_, _, hA, hA2, ⟨_, hF2, _, _, hF5⟩, _, hJ⟩ := h
        have hnone : fbc = none := by
          rcases hJ with h | ⟨x, hxf, j, hj, hx⟩
          · exact h
          · exact absurd (findLightest_none _ f _ hn j (List.mem_range.mpr hj) x hx) hxf
        refine ⟨?_, hA2 a ha⟩
        by_cases haf : a = f
        · rw [haf]
          intro j hj
          rw [hF2 j hj, hF5, hnone]
          rfl
        · exact (hA a ha haf).1)
      (fun t2 fbc h _ _ a ha => by
        obtain ⟨_, _, hA, hA2, ⟨hF1, hF2, hF3, hF4, hF5⟩, _, _⟩ := h
        obtain ⟨k1, k2, _, _, _, k6, k7, _⟩ := finishCompaction_fields p f t2 fbc
        obtain ⟨_, f2, _, _⟩ := finishCompaction_frame p f t2 fbc
        have hpart : (finishCompaction p f t2 fbc).partitionSet p = t2.partitionSet p := by
          cases p
          · exact k6
          · exact k7
        have hbo : ∀ x, (finishCompaction p f t2 fbc).bucketOf B x = t2.bucketOf B x := by
          intro x
          unfold bucketOf
          rw [k1 x, k2 x]
        show (∀ j, j < B → (a ∈ (finishCompaction p f t2 fbc).bucketMap p j
            ↔ j = (finishCompaction p f t2 fbc).bucketOf B a)) ∧
          (∀ j, j < B → a ∉ (finishCompaction p f t2 fbc).bucketMap (!p) j)
        have ha2 : a ∈ t2.partitionSet p := hpart ▸ ha
        rw [hbo]
        by_cases haf : a = f
        · rw [haf]
          rcases fbc with _ | b
          · simp only [finishCompaction_bucketMap]
            refine ⟨fun j hj => ?_, hA2 f hF1⟩
            rw [hF2 j hj, hF5]
            rfl
          · simp only [finishCompaction_bucketMap, mem_bucketMap_swapToBucket, hF3]
            have hbf : t2.bucketOf B f = b := hF5
            rw [hbf]
            refine ⟨fun j hj => ?_, fun j hj => ?_⟩
            · constructor
              · rintro (⟨_, _, hjb⟩ | ⟨hin, hne⟩)
                · exact hjb
                · exfalso
                  apply hne
                  refine ⟨trivial, ?_⟩
                  rw [(hF2 j hj).mp hin]
              · intro hjb
                exact Or.inl ⟨trivial, trivial, hjb⟩
            · rintro (⟨_, hpp, _⟩ | ⟨hin, _⟩)
              · cases p <;> simp at hpp
              · exact hA2 f hF1 j hj hin
        · refine ⟨fun j hj => (f2 p j a haf).trans ((hA a ha2 haf).1 j hj), fun j hj hx => ?_⟩
          exact hA2 a ha2 j hj ((f2 (!p) j a haf).mp hx))
      (fun t2 _ _ hne => absurd rfl hne)
      fuel t none
      ⟨hB, fun q j hj => hbn q j hj,
        fun a ha _ => ⟨(hinit a ha).1, (hinit a ha).2.1⟩,
        fun a ha => (hinit a ha).2.2,
        ⟨hfp, fun j hj => by rw [(hinit f hfp).1 j hj, ← hfidx],
          by rw [(hinit f hfp).2.1, ← hfidx], hi0B, by rw [← hfidx]; rfl⟩,
        fun j hj a ha => Or.inl (hb.1 j hj a ha).1,
        Or.inl rfl⟩
    exact final _ (key hret)

/-- C6 on two half-full blocks, a table with sets as buckets that satisfies the
bucket invariant: the compaction fills block 10, which moves to the top
bucket, and returns `true`. -/
theorem doCompactionWithinSubset_keeps_bucket_membership_witness :
    (twoHalfBlocks.BucketsNodup 4 ∧ twoHalfBlocks.BucketInvFor 4 false ∧
      (doCompactionWithinSubset 4 2 false twoHalfBlocks).1 ≠ Outcome.outOfFuel) ∧
    ∀ a ∈ (doCompactionWithinSubset 4 2 false twoHalfBlocks).2.partitionSet false,
      ((doCompactionWithinSubset 4 2 false twoHalfBlocks).2.heap a).activeCount ≠ 0 →
      ∀ q j, j < 4 →
        (a ∈ (doCompactionWithinSubset 4 2 false twoHalfBlocks).2.bucketMap q j ↔
          q = false ∧ j = calculateBucketIndex 4
            ((doCompactionWithinSubset 4 2 false twoHalfBlocks).2.heap a).capacity
            ((doCompactionWithinSubset 4 2 false twoHalfBlocks).2.heap a).activeCount) :=
  ⟨⟨by decide, by decide, by decide⟩,
    doCompactionWithinSubset_keeps_bucket_membership 4 2 false twoHalfBlocks
      (by decide) (by decide) (by decide)⟩

end Table
end voltdb

namespace voltdb
namespace Table

/-! ## Allocation: `m_blocksWithSpace` -/

/-- C7: if `m_blocksWithSpace` is exactly the set of blocks of the table that
have a free slot, it is exactly that set after `nextFreeTuple`, on the path
that uses a block of `m_blocksWithSpace` and on the path that allocates a new
block. The block that handed out the slot is a block of the table, and it is
in `m_blocksWithSpace` afterwards exactly when it still has a free slot; in
particular a new block of capacity 1 is not inserted. -/
theorem nextFreeTuple_keeps_blocksWithSpace (B : Nat) (t : Table) (hs : t.SpaceInv) :
    (nextFreeTuple B t).1.SpaceInv ∧
    (nextFreeTuple B t).2.1 ∈ (nextFreeTuple B t).1.m_data ∧
    ((nextFreeTuple B t).2.1 ∈ (nextFreeTuple B t).1.m_blocksWithSpace ↔
      ((nextFreeTuple B t).1.heap (nextFreeTuple B t).2.1).hasFreeTuples = true) ∧
    (t.m_blocksWithSpace = [] → t.m_tuplesPerBlock = 1 →
      (nextFreeTuple B t).1.m_blocksWithSpace = []) := by
  rcases hbws : t.m_blocksWithSpace with _ | ⟨a, rest⟩
  · -- a new block is allocated
    obtain ⟨e1, e2⟩ := nextFreeTuple_new B t hbws
    obtain ⟨_, a2, a3, a4, a5, _, _, _, a9, _⟩ := allocateNextBlock_fields t
    obtain ⟨k1, _, k3, k4, k5, k6, _⟩ := allocated_fields B t.allocateNextBlock.1 t.nextAddress _
      (rebucketNewBlock_shape (t.allocateNextBlock.1.setBlock t.nextAddress
        ((t.allocateNextBlock.1.heap t.nextAddress).nextFreeTuple B).1) t.nextAddress
        ((t.allocateNextBlock.1.heap t.nextAddress).nextFreeTuple B).2.2)
    rw [e1, e2]
    set X := rebucketNewBlock (t.allocateNextBlock.1.setBlock t.nextAddress
        ((t.allocateNextBlock.1.heap t.nextAddress).nextFreeTuple B).1) t.nextAddress
        ((t.allocateNextBlock.1.heap t.nextAddress).nextFreeTuple B).2.2 with hX
    have hXbws : X.m_blocksWithSpace = [] := by rw [k6, a5, hbws]
    have hXdata : ∀ x, x ∈ X.m_data ↔ x = t.nextAddress ∨ x ∈ t.m_data := by
      intro x
      rw [k5, a4, mem_setInsert]
    have hold : ∀ x, x ≠ t.nextAddress → X.heap x = t.heap x := by
      intro x hx
      rw [k1 x hx, a3 x hx]
    have hfull : ∀ x ∈ t.m_data, x ≠ t.nextAddress → (X.heap x).hasFreeTuples = false := by
      intro x hx hxa
      rw [hold x hxa]
      by_contra hc
      have := hs.2 x hx (by simpa using hc)
      rw [hbws] at this
      simp at this
    by_cases hfree : (X.heap t.nextAddress).hasFreeTuples = true
    · rw [if_pos hfree]
      refine ⟨⟨?_, ?_⟩, ?_, ?_, ?_⟩
      · intro x hx
        have hx2 : x ∈ setInsert t.nextAddress X.m_blocksWithSpace := hx
        rw [hXbws, mem_setInsert] at hx2
        have hxa : x = t.nextAddress := by simpa using hx2
        rw [hxa]
        exact ⟨(hXdata _).mpr (Or.inl rfl), hfree⟩
      · intro x hx hxf
        show x ∈ setInsert t.nextAddress X.m_blocksWithSpace
        rw [mem_setInsert]
        by_cases hxa : x = t.nextAddress
        · exact Or.inl hxa
        · exfalso
          have hx2 : x ∈ t.m_data := by
            rcases (hXdata x).mp hx with h | h
            · exact absurd h hxa
            · exact h
          have := hfull x hx2 hxa
          change (X.heap x).hasFreeTuples = true at hxf
          rw [this] at hxf
          exact absurd hxf (by simp)
      · exact (hXdata _).mpr (Or.inl rfl)
      · constructor
        · intro _; exact hfree
        · intro _
          show t.nextAddress ∈ setInsert t.nextAddress X.m_blocksWithSpace
          exact mem_setInsert.mpr (Or.inl rfl)
      · intro _ hcap
        exfalso
        simp only [TupleBlock.hasFreeTuples, decide_eq_true_eq] at hfree
        rw [k3, k4, a2] at hfree
        simp only at hfree
        omega
    · rw [if_neg hfree]
      have hfree2 : (X.heap t.nextAddress).hasFreeTuples = false := by simpa using hfree
      refine ⟨⟨?_, ?_⟩, (hXdata _).mpr (Or.inl rfl), ?_, fun _ _ => hXbws⟩
      · intro x hx
        rw [hXbws] at hx
        simp at hx
      · intro x hx hxf
        exfalso
        by_cases hxa : x = t.nextAddress
        · rw [hxa, hfree2] at hxf
          exact absurd hxf (by simp)
        · have hx2 : x ∈ t.m_data := by
            rcases (hXdata x).mp hx with h | h
            · exact absurd h hxa
            · exact h
          rw [hfull x hx2 hxa] at hxf
          exact absurd hxf (by simp)
      · rw [hXbws, hfree2]
        simp
  · -- a block of `m_blocksWithSpace` is used
    obtain ⟨e1, e2⟩ := nextFreeTuple_existing B t a rest hbws
    obtain ⟨k1, _, _, _, k5, k6, _⟩ := allocated_fields B t a _
      (rebucketUsedBlock_shape (t.setBlock a ((t.heap a).nextFreeTuple B).1) a
        ((t.heap a).nextFreeTuple B).2.2)
    rw [e1, e2]
    set X := rebucketUsedBlock (t.setBlock a ((t.heap a).nextFreeTuple B).1) a
        ((t.heap a).nextFreeTuple B).2.2 with hX
    have ha : a ∈ t.m_blocksWithSpace := by rw [hbws]; exact List.mem_cons_self _ _
    have had : a ∈ t.m_data := (hs.1 a ha).1
    by_cases hfree : (X.heap a).hasFreeTuples = true
    · have hnf : (!(X.heap a).hasFreeTuples) = false := by rw [hfree]; rfl
      rw [hnf]
      simp only [Bool.false_eq_true, if_false]
      refine ⟨⟨?_, ?_⟩, by rw [k5]; exact had, ?_, fun h => ?_⟩
      · intro x hx
        rw [k6] at hx
        refine ⟨by rw [k5]; exact (hs.1 x hx).1, ?_⟩
        by_cases hxa : x = a
        · rw [hxa]; exact hfree
        · rw [k1 x hxa]; exact (hs.1 x hx).2
      · intro x hx hxf
        rw [k5] at hx
        rw [k6]
        by_cases hxa : x = a
        · rw [hxa]; exact ha
        · rw [k1 x hxa] at hxf
          exact hs.2 x hx hxf
      · rw [k6]
        exact ⟨fun _ => hfree, fun _ => ha⟩
      · simp at h
    · have hfree2 : (X.heap a).hasFreeTuples = false := by simpa using hfree
      have hnf : (!(X.heap a).hasFreeTuples) = true := by rw [hfree2]; rfl
      rw [hnf]
      simp only [if_true]
      refine ⟨⟨?_, ?_⟩, by rw [k5]; exact had, ?_, fun h => ?_⟩
      · intro x hx
        have hx2 : x ∈ setErase a X.m_blocksWithSpace := hx
        rw [mem_setErase, k6] at hx2
        refine ⟨by show x ∈ X.m_data; rw [k5]; exact (hs.1 x hx2.1).1, ?_⟩
        show (X.heap x).hasFreeTuples = true
        rw [k1 x hx2.2]; exact (hs.1 x hx2.1).2
      · intro x hx hxf
        change x ∈ X.m_data at hx
        change (X.heap x).hasFreeTuples = true at hxf
        show x ∈ setErase a X.m_blocksWithSpace
        rw [k5] at hx
        have hxa : x ≠ a := by
          rintro rfl
          rw [hfree2] at hxf
          exact absurd hxf (by simp)
        rw [k1 x hxa] at hxf
        rw [mem_setErase, k6]
        exact ⟨hs.2 x hx hxf, hxa⟩
      · show a ∈ setErase a X.m_blocksWithSpace ↔ (X.heap a).hasFreeTuples = true
        rw [hfree2, mem_setErase]
        simp
      · simp at h

/-- C7 on two half-full blocks, where the slot comes from block 10. -/
theorem nextFreeTuple_keeps_blocksWithSpace_witness :
    (nextFreeTuple 4 twoHalfBlocks).1.SpaceInv ∧
    (nextFreeTuple 4 twoHalfBlocks).2.1 ∈ (nextFreeTuple 4 twoHalfBlocks).1.m_data ∧
    ((nextFreeTuple 4 twoHalfBlocks).2.1 ∈ (nextFreeTuple 4 twoHalfBlocks).1.m_blocksWithSpace ↔
      ((nextFreeTuple 4 twoHalfBlocks).1.heap
        (nextFreeTuple 4 twoHalfBlocks).2.1).hasFreeTuples = true) ∧
    (twoHalfBlocks.m_blocksWithSpace = [] → twoHalfBlocks.m_tuplesPerBlock = 1 →
      (nextFreeTuple 4 twoHalfBlocks).1.m_blocksWithSpace = []) :=
  nextFreeTuple_keeps_blocksWithSpace 4 twoHalfBlocks (by decide)

end Table
end voltdb

namespace voltdb
namespace Table

/-! ## Allocation: the three-case rule -/

/-- Under the bucket invariant a block of partition `p` is in bucket `j` of
array `q` exactly when `q` is the array of `p` and `j` the density bucket. -/
theorem bucketInvFor_mem_iff (B : Nat) (t : Table) (hinv : ∀ q, t.BucketInvFor B q)
    (a : Nat) (p : Bool) (ha : a ∈ t.partitionSet p) (q : Bool) (j : Nat) (hj : j < B) :
    a ∈ t.bucketMap q j ↔ q = p ∧ j = t.bucketOf B a := by
  obtain ⟨k1, _, k3⟩ := (hinv p).2 a ha
  by_cases hq : q = p
  · subst hq
    constructor
    · intro hx; exact ⟨rfl, ((hinv q).1 j hj a hx).2⟩
    · rintro ⟨_, hjb⟩; rw [hjb]; exact k1
  · have hq2 : q = !p := by cases p <;> cases q <;> simp_all
    subst hq2
    constructor
    · intro hx; exact absurd hx (k3 j hj)
    · intro hx; exact absurd hx.1 hq

/-- C5: on a table that satisfies the shape and bucket invariants,
`nextFreeTuple` keeps the bucket invariant, by the three-case rule. When the
allocation in the block reports a bucket change `b`, a block of the
not-pending set ends in bucket `b` of the not-pending array and in no other
bucket of either array, and a block of the pending set ends in bucket `b` of
the pending array and in no other bucket; a block in neither set leaves both
bucket arrays as they were. After the call every unpinned block is in the
bucket `floor(active_count * B / capacity)` clamped to `[0, B-1]` of the array
of its partition, and in no other bucket of that array. -/
theorem nextFreeTuple_keeps_bucket_membership (B : Nat) (t : Table) (hB : 0 < B)
    (hs : t.ShapeInv) (hinv : t.BucketInv B) :
    (nextFreeTuple B t).1.BucketInv B ∧
    (∀ b, allocationReport B t = some b →
      (nextFreeTuple B t).2.1 ∈ (nextFreeTuple B t).1.m_blocksNotPendingSnapshot →
      ∀ q j, j < B → ((nextFreeTuple B t).2.1 ∈ (nextFreeTuple B t).1.bucketMap q j
        ↔ q = false ∧ j = b)) ∧
    (∀ b, allocationReport B t = some b →
      (nextFreeTuple B t).2.1 ∈ (nextFreeTuple B t).1.m_blocksPendingSnapshot →
      ∀ q j, j < B → ((nextFreeTuple B t).2.1 ∈ (nextFreeTuple B t).1.bucketMap q j
        ↔ q = true ∧ j = b)) ∧
    ((nextFreeTuple B t).2.1 ∉ (nextFreeTuple B t).1.m_blocksNotPendingSnapshot →
      (nextFreeTuple B t).2.1 ∉ (nextFreeTuple B t).1.m_blocksPendingSnapshot →
      ∀ q, (nextFreeTuple B t).1.bucketMap q = t.bucketMap q) ∧
    (∀ q, ∀ x ∈ (nextFreeTuple B t).1.partitionSet q, ∀ j, j < B →
      (x ∈ (nextFreeTuple B t).1.bucketMap q j ↔
        j = calculateBucketIndex B ((nextFreeTuple B t).1.heap x).capacity
          ((nextFreeTuple B t).1.heap x).activeCount)) := by
  obtain ⟨t0, h0, hrep, hh, hbm, hpt, hpin⟩ :=
    nextFreeTuple_buckets B t hs ((bucketInv_iff B t).mp hinv)
  obtain ⟨c1, c2, c3⟩ := bucketInv_allocated B t0 (nextFreeTuple B t).2.1 hB h0
  obtain ⟨_, _, _, _, _, _, k7, k8, _⟩ := allocated_fields B t0 (nextFreeTuple B t).2.1 _
    (rebucketUsedBlock_shape (t0.setBlock (nextFreeTuple B t).2.1
      ((t0.heap (nextFreeTuple B t).2.1).nextFreeTuple B).1) (nextFreeTuple B t).2.1
      ((t0.heap (nextFreeTuple B t).2.1).nextFreeTuple B).2.2)
  have hinv2 : ∀ q, (nextFreeTuple B t).1.BucketInvFor B q := by
    intro q
    apply bucketInvFor_congr B _ _ q hh hbm _ (c1 q)
    intro p
    rw [hpt p]
    cases p
    · exact k7.symm
    · exact k8.symm
  have hrepb : ∀ b, allocationReport B t = some b →
      b = (nextFreeTuple B t).1.bucketOf B (nextFreeTuple B t).2.1 := by
    intro b hb
    rw [hrep] at hb
    have := c3 b hb
    unfold bucketOf at this ⊢
    rw [hh]
    exact this
  refine ⟨(bucketInv_iff B _).mpr hinv2, ?_, ?_, ?_, ?_⟩
  · intro b hb hmem q j hj
    rw [bucketInvFor_mem_iff B _ hinv2 _ false hmem q j hj, ← hrepb b hb]
  · intro b hb hmem q j hj
    rw [bucketInvFor_mem_iff B _ hinv2 _ true hmem q j hj, ← hrepb b hb]
  · intro h1 h2 q
    have h1b : (nextFreeTuple B t).2.1 ∉ t0.m_blocksNotPendingSnapshot := by
      have := hpt false
      simp only [partitionSet, Bool.false_eq_true, if_false] at this
      rw [← this]; exact h1
    have h2b : (nextFreeTuple B t).2.1 ∉ t0.m_blocksPendingSnapshot := by
      have := hpt true
      simp only [partitionSet, if_true] at this
      rw [← this]; exact h2
    rw [hbm q, c2 h1b h2b q, hpin h1b h2b q]
  · intro q x hx j hj
    rw [bucketInvFor_mem_iff B _ hinv2 x q hx q j hj]
    unfold bucketOf
    simp

/-- C5 on two half-full blocks: the slot comes from block 10, which goes from
bucket 2 to bucket 3 of the not-pending array. -/
theorem nextFreeTuple_keeps_bucket_membership_witness :
    (nextFreeTuple 4 twoHalfBlocks).1.BucketInv 4 ∧
    (∀ b, allocationReport 4 twoHalfBlocks = some b →
      (nextFreeTuple 4 twoHalfBlocks).2.1
        ∈ (nextFreeTuple 4 twoHalfBlocks).1.m_blocksNotPendingSnapshot →
      ∀ q j, j < 4 → ((nextFreeTuple 4 twoHalfBlocks).2.1
        ∈ (nextFreeTuple 4 twoHalfBlocks).1.bucketMap q j ↔ q = false ∧ j = b)) ∧
    (∀ b, allocationReport 4 twoHalfBlocks = some b →
      (nextFreeTuple 4 twoHalfBlocks).2.1
        ∈ (nextFreeTuple 4 twoHalfBlocks).1.m_blocksPendingSnapshot →
      ∀ q j, j < 4 → ((nextFreeTuple 4 twoHalfBlocks).2.1
        ∈ (nextFreeTuple 4 twoHalfBlocks).1.bucketMap q j ↔ q = true ∧ j = b)) ∧
    ((nextFreeTuple 4 twoHalfBlocks).2.1
        ∉ (nextFreeTuple 4 twoHalfBlocks).1.m_blocksNotPendingSnapshot →
      (nextFreeTuple 4 twoHalfBlocks).2.1
        ∉ (nextFreeTuple 4 twoHalfBlocks).1.m_blocksPendingSnapshot →
      ∀ q, (nextFreeTuple 4 twoHalfBlocks).1.bucketMap q = twoHalfBlocks.bucketMap q) ∧
    (∀ q, ∀ x ∈ (nextFreeTuple 4 twoHalfBlocks).1.partitionSet q, ∀ j, j < 4 →
      (x ∈ (nextFreeTuple 4 twoHalfBlocks).1.bucketMap q j ↔
        j = calculateBucketIndex 4 ((nextFreeTuple 4 twoHalfBlocks).1.heap x).capacity
          ((nextFreeTuple 4 twoHalfBlocks).1.heap x).activeCount)) :=
  nextFreeTuple_keeps_bucket_membership 4 twoHalfBlocks (by decide) (by decide) (by decide)

end Table
end voltdb

namespace voltdb
namespace Table

/-! ## Allocation: successive calls on a fresh table -/

/-- A call that finds a block in `m_blocksWithSpace` allocates no block. -/
theorem nextFreeTuple_m_data_of_space (B : Nat) (t : Table) (h : t.m_blocksWithSpace ≠ []) :
    (nextFreeTuple B t).1.m_data = t.m_data := by
  rcases hbws : t.m_blocksWithSpace with _ | ⟨a, rest⟩
  · exact absurd hbws h
  · obtain ⟨_, e2⟩ := nextFreeTuple_existing B t a rest hbws
    obtain ⟨_, _, _, _, k5, _⟩ := allocated_fields B t a _
      (rebucketUsedBlock_shape (t.setBlock a ((t.heap a).nextFreeTuple B).1) a
        ((t.heap a).nextFreeTuple B).2.2)
    rw [e2]
    split
    · exact k5
    · exact k5

/-- C9: for every capacity `c >= 1` and every `n >= 1`, `n` successive
`nextFreeTuple` calls on a freshly initialised table with `c` tuples per block
leave exactly `ceil(n / c)` blocks (those at addresses `0 .. ceil(n/c) - 1`),
all but the last full, the last holding `n mod c` tuples, or `c` when `n mod c`
is zero; `m_blocksWithSpace` holds exactly the last block when `n mod c` is not
zero and is empty otherwise; and a call that finds `m_blocksWithSpace`
non-empty allocates no block. -/
theorem nextFreeTupleTimes_fills_blocks (B c n : Nat) (hc : 1 ≤ c) (hn : 1 ≤ n) :
    (nextFreeTupleTimes B n (fresh c)).m_data.length = (n + c - 1) / c ∧
    (nextFreeTupleTimes B n (fresh c)).m_data = List.range ((n + c - 1) / c) ∧
    (∀ i, i + 1 < (n + c - 1) / c →
      ((nextFreeTupleTimes B n (fresh c)).heap i).activeCount = c ∧
      ((nextFreeTupleTimes B n (fresh c)).heap i).hasFreeTuples = false) ∧
    (n % c ≠ 0 →
      (nextFreeTupleTimes B n (fresh c)).m_blocksWithSpace = [(n + c - 1) / c - 1] ∧
      ((nextFreeTupleTimes B n (fresh c)).heap ((n + c - 1) / c - 1)).activeCount = n % c) ∧
    (n % c = 0 →
      (nextFreeTupleTimes B n (fresh c)).m_blocksWithSpace = [] ∧
      ((nextFreeTupleTimes B n (fresh c)).heap ((n + c - 1) / c - 1)).activeCount = c) ∧
    (∀ m, (nextFreeTupleTimes B m (fresh c)).m_blocksWithSpace ≠ [] →
      (nextFreeTupleTimes B (m + 1) (fresh c)).m_data
        = (nextFreeTupleTimes B m (fresh c)).m_data) := by
  have hc0 : 0 < c := hc
  obtain ⟨_, h2, _, h4, h5, h6⟩ := filledTo_times B c hc0 n
  have hdm : n = (n / c) * c + n % c := by
    have := Nat.div_add_mod n c
    rw [Nat.mul_comm] at this
    omega
  obtain ⟨hk, _, _⟩ := ceil_div_of_eq c (n / c) (n % c) n hc0 (Nat.mod_lt n hc0) hdm
  rw [hk]
  refine ⟨by rw [h2, List.length_range], h2, ?_, ?_, ?_, ?_⟩
  · intro i hi
    have hiq : i < n / c := by
      by_cases h0 : n % c = 0
      · rw [if_pos h0] at hi; omega
      · rw [if_neg h0] at hi; omega
    obtain ⟨k1, k2⟩ := h5 i hiq
    refine ⟨k1, ?_⟩
    simp only [TupleBlock.hasFreeTuples, k1, k2]
    simp
  · intro h0
    rw [if_neg h0] at h4 ⊢
    exact ⟨by simpa using h4, by simpa using (h6 h0).1⟩
  · intro h0
    rw [if_pos h0] at h4 ⊢
    refine ⟨h4, ?_⟩
    have hq : 1 ≤ n / c := by
      rcases Nat.eq_zero_or_pos (n / c) with hz | hp
      · rw [hz, h0] at hdm
        omega
      · exact hp
    exact (h5 (n / c + 0 - 1) (by omega)).1
  · intro m hm
    exact nextFreeTuple_m_data_of_space B _ hm

/-- C9 for five allocations with four tuples per block: two blocks, the first
full, and `m_blocksWithSpace` holding the second. -/
theorem nextFreeTupleTimes_fills_blocks_witness :
    (nextFreeTupleTimes 4 5 (fresh 4)).m_data.length = (5 + 4 - 1) / 4 ∧
    (nextFreeTupleTimes 4 5 (fresh 4)).m_data = List.range ((5 + 4 - 1) / 4) ∧
    (∀ i, i + 1 < (5 + 4 - 1) / 4 →
      ((nextFreeTupleTimes 4 5 (fresh 4)).heap i).activeCount = 4 ∧
      ((nextFreeTupleTimes 4 5 (fresh 4)).heap i).hasFreeTuples = false) ∧
    (5 % 4 ≠ 0 →
      (nextFreeTupleTimes 4 5 (fresh 4)).m_blocksWithSpace = [(5 + 4 - 1) / 4 - 1] ∧
      ((nextFreeTupleTimes 4 5 (fresh 4)).heap ((5 + 4 - 1) / 4 - 1)).activeCount = 5 % 4) ∧
    (5 % 4 = 0 →
      (nextFreeTupleTimes 4 5 (fresh 4)).m_blocksWithSpace = [] ∧
      ((nextFreeTupleTimes 4 5 (fresh 4)).heap ((5 + 4 - 1) / 4 - 1)).activeCount = 4) ∧
    (∀ m, (nextFreeTupleTimes 4 m (fresh 4)).m_blocksWithSpace ≠ [] →
      (nextFreeTupleTimes 4 (m + 1) (fresh 4)).m_data
        = (nextFreeTupleTimes 4 m (fresh 4)).m_data) :=
  nextFreeTupleTimes_fills_blocks 4 4 5 (by decide) (by decide)

end Table
end voltdb

namespace voltdb

/-! ## Serialized integers: encoding and decoding -/

theorem toInt32_of_fits (v : Int) (h1 : -2147483648 ≤ v) (h2 : v < 2147483648) :
    toInt32 v = v := by
  unfold toInt32; omega

theorem toInt16_of_fits (v : Int) (h1 : -32768 ≤ v) (h2 : v < 32768) : toInt16 v = v := by
  unfold toInt16; omega

theorem toInt8_of_fits (v : Int) (h1 : -128 ≤ v) (h2 : v < 128) : toInt8 v = v := by
  unfold toInt8; omega

theorem int32BE_toInt32 (v : Int) : int32BE (toInt32 v) = int32BE v := by
  have h : toInt32 v % 4294967296 = v % 4294967296 := by
    unfold toInt32; omega
  unfold int32BE
  rw [h]

theorem int16BE_toInt16 (v : Int) : int16BE (toInt16 v) = int16BE v := by
  have h : toInt16 v % 65536 = v % 65536 := by
    unfold toInt16; omega
  unfold int16BE
  rw [h]

theorem int8Byte_toInt8 (v : Int) : int8Byte (toInt8 v) = int8Byte v := by
  have h : toInt8 v % 256 = v % 256 := by
    unfold toInt8; omega
  unfold int8Byte
  rw [h]

theorem length_int32BE (v : Int) : (int32BE v).length = 4 := rfl

theorem length_int16BE (v : Int) : (int16BE v).length = 2 := rfl

theorem readInt_int32BE (v : Int) (rest : List Nat) :
    SerializeInput.readInt (int32BE v ++ rest) = some (toInt32 v, rest) := by
  have h : toInt32 (((v % 4294967296).toNat / 16777216 : Nat) * 16777216
      + ((v % 4294967296).toNat / 65536 % 256 : Nat) * 65536
      + ((v % 4294967296).toNat / 256 % 256 : Nat) * 256
      + ((v % 4294967296).toNat % 256 : Nat)) = toInt32 v := by
    unfold toInt32; omega
  unfold int32BE
  simp only [List.cons_append, List.nil_append, SerializeInput.readInt]
  rw [h]

theorem readShort_int16BE (v : Int) (rest : List Nat) :
    SerializeInput.readShort (int16BE v ++ rest) = some (toInt16 v, rest) := by
  have h : toInt16 (((v % 65536).toNat / 256 : Nat) * 256 + ((v % 65536).toNat % 256 : Nat))
      = toInt16 v := by
    unfold toInt16; omega
  unfold int16BE
  simp only [List.cons_append, List.nil_append, SerializeInput.readShort]
  rw [h]

theorem readByte_int8Byte (v : Int) (rest : List Nat) :
    SerializeInput.readByte (int8Byte v :: rest) = some (toInt8 v, rest) := by
  have h : toInt8 ((v % 256).toNat : Nat) = toInt8 v := by
    unfold toInt8; omega
  unfold int8Byte
  simp only [SerializeInput.readByte]
  rw [h]

theorem readTextString_string (s rest : List Nat) (h : s.length < 2147483648) :
    SerializeInput.readTextString (int32BE s.length ++ s ++ rest) = some (s, rest) := by
  unfold SerializeInput.readTextString
  rw [List.append_assoc, readInt_int32BE]
  have h1 : toInt32 (s.length : Int) = s.length := toInt32_of_fits _ (by omega) (by omega)
  simp only [h1]
  rw [if_neg (by omega), if_neg (by simp)]
  simp

end voltdb

namespace voltdb
namespace TableObject

/-! ## Initialisation -/

/-- C11: in the default build, with `T` the allocation target and
`L = schema tuple length + TUPLE_HEADER_SIZE > 0`, `initializeWithColumns` sets
`m_tupleLength = L`; when `T / L >= 1` (truncating division) it sets
`m_tuplesPerBlock = T / L` and `m_tableAllocationSize = T`, and when `T / L < 1`
it sets `m_tuplesPerBlock = 1` and `m_tableAllocationSize = L`. -/
theorem initializeWithColumns_block_size (tupleHeaderSize : Int) (t : TableObject)
    (schema : TupleSchema) (columnNames : List (List Nat))
    (hL : 0 < schema.tupleLength + tupleHeaderSize) :
    (initializeWithColumns tupleHeaderSize t schema columnNames).m_tupleLength
      = schema.tupleLength + tupleHeaderSize ∧
    (1 ≤ Int.tdiv t.m_tableAllocationTargetSize (schema.tupleLength + tupleHeaderSize) →
      ((initializeWithColumns tupleHeaderSize t schema columnNames).store.m_tuplesPerBlock : Int)
        = Int.tdiv t.m_tableAllocationTargetSize (schema.tupleLength + tupleHeaderSize) ∧
      (initializeWithColumns tupleHeaderSize t schema columnNames).m_tableAllocationSize
        = t.m_tableAllocationTargetSize) ∧
    (Int.tdiv t.m_tableAllocationTargetSize (schema.tupleLength + tupleHeaderSize) < 1 →
      (initializeWithColumns tupleHeaderSize t schema columnNames).store.m_tuplesPerBlock = 1 ∧
      (initializeWithColumns tupleHeaderSize t schema columnNames).m_tableAllocationSize
        = schema.tupleLength + tupleHeaderSize) := by
  have _ := hL
  refine ⟨rfl, fun h => ?_, fun h => ?_⟩
  · unfold initializeWithColumns
    simp only [if_neg (not_lt.mpr h)]
    exact ⟨Int.toNat_of_nonneg (by omega), trivial⟩
  · unfold initializeWithColumns
    simp only [if_pos h]
    exact ⟨rfl, trivial⟩

/-- C11 on a target of 64 bytes and tuples of 8 + 8 bytes: four tuples per
block, blocks of 64 bytes. -/
theorem initializeWithColumns_block_size_witness :
    (initializeWithColumns 8 (constructed 64) ⟨[6], 8⟩ [[65]]).m_tupleLength = 8 + 8 ∧
    (1 ≤ Int.tdiv (constructed 64).m_tableAllocationTargetSize (8 + 8) →
      ((initializeWithColumns 8 (constructed 64) ⟨[6], 8⟩ [[65]]).store.m_tuplesPerBlock : Int)
        = Int.tdiv (constructed 64).m_tableAllocationTargetSize (8 + 8) ∧
      (initializeWithColumns 8 (constructed 64) ⟨[6], 8⟩ [[65]]).m_tableAllocationSize
        = (constructed 64).m_tableAllocationTargetSize) ∧
    (Int.tdiv (constructed 64).m_tableAllocationTargetSize (8 + 8) < 1 →
      (initializeWithColumns 8 (constructed 64) ⟨[6], 8⟩ [[65]]).store.m_tuplesPerBlock = 1 ∧
      (initializeWithColumns 8 (constructed 64) ⟨[6], 8⟩ [[65]]).m_tableAllocationSize
        = 8 + 8) :=
  initializeWithColumns_block_size 8 (constructed 64) ⟨[6], 8⟩ [[65]] (by decide)

end TableObject
end voltdb

namespace voltdb
namespace TableObject

/-! ## The column header -/

theorem map_getD_range {α : Type} (l : List α) (d : α) :
    (List.range l.length).map (fun i => l.getD i d) = l := by
  apply List.ext_getElem
  · simp
  · intro i h1 h2
    simp only [List.getElem_map, List.getElem_range]
    exact List.getD_eq_getElem l d h2

theorem writeColumnTypes_eq (t : TableObject) (idx : List Nat) (io : List Nat) :
    writeColumnTypes t idx io
      = io ++ idx.map (fun i => int8Byte (t.m_schema.columnType i)) := by
  induction idx generalizing io with
  | nil => simp [writeColumnTypes]
  | cons i rest ih =>
    rw [writeColumnTypes, ih]
    simp [SerializeOutput.writeByte, int8Byte_toInt8]

theorem writeColumnNames_eq (t : TableObject) (idx : List Nat) (io : List Nat)
    (h : ∀ i ∈ idx, (t.columnName i).length < 2147483648) :
    writeColumnNames t idx io
      = some (io ++ idx.flatMap
          (fun i => int32BE (t.columnName i).length ++ t.columnName i)) := by
  induction idx generalizing io with
  | nil => simp [writeColumnNames]
  | cons i rest ih =>
    have hi := h i (List.mem_cons_self _ _)
    have h1 : toInt32 ((t.columnName i).length : Int) = (t.columnName i).length :=
      toInt32_of_fits _ (by omega) (by omega)
    rw [writeColumnNames, h1, if_neg (by omega),
      ih _ (fun j hj => h j (List.mem_cons_of_mem _ hj))]
    simp [SerializeOutput.writeBytes, SerializeOutput.writeInt]

theorem length_namesBytes (names : List (List Nat)) :
    (names.flatMap (fun s => int32BE s.length ++ s)).length
      = (names.map (fun s => 4 + s.length)).sum := by
  induction names with
  | nil => rfl
  | cons s rest ih =>
    simp only [List.flatMap_cons, List.length_append, length_int32BE, List.map_cons,
      List.sum_cons, ih]

theorem length_columnHeaderBytes (types : List Int) (names : List (List Nat)) :
    (columnHeaderBytes types names).length
      = 4 + (3 + types.length + (names.map (fun s => 4 + s.length)).sum) := by
  unfold columnHeaderBytes
  simp only [List.length_append, length_int32BE, length_int16BE, List.length_map,
    length_namesBytes, List.length_singleton]
  omega

/-- The first `serializeColumnHeaderTo` call: it appends the header of the
specification and fills the cache with it. -/
theorem serializeColumnHeaderTo_first (t : TableObject) (io : List Nat)
    (hc : t.ColumnsInv) (he : t.CacheEmpty) (hf : t.HeaderFits) :
    serializeColumnHeaderTo t io
      = some ({ t with
                m_columnHeaderSize :=
                  (columnHeaderBytes t.m_schema.columnTypes t.m_columnNames).length
                m_columnHeaderData :=
                  some (columnHeaderBytes t.m_schema.columnTypes t.m_columnNames) },
              io ++ columnHeaderBytes t.m_schema.columnTypes t.m_columnNames) := by
  obtain ⟨hc1, hc2⟩ := hc
  obtain ⟨he1, he2⟩ := he
  have hf2 : (columnHeaderBytes t.m_schema.columnTypes t.m_columnNames).length < 2147483648 := hf
  have hlen := length_columnHeaderBytes t.m_schema.columnTypes t.m_columnNames
  have hn : t.m_columnCount = t.m_schema.columnTypes.length := hc1
  have htypes : (List.range t.m_columnCount).map
      (fun i => int8Byte (t.m_schema.columnType i)) = t.m_schema.columnTypes.map int8Byte := by
    rw [hn]
    conv_rhs => rw [← map_getD_range t.m_schema.columnTypes 0]
    rw [List.map_map]
    rfl
  have hnames : (List.range t.m_columnCount).flatMap
      (fun i => int32BE (t.columnName i).length ++ t.columnName i)
      = t.m_columnNames.flatMap (fun s => int32BE s.length ++ s) := by
    rw [← hc2]
    conv_rhs => rw [← map_getD_range t.m_columnNames []]
    rw [List.flatMap_map]
    rfl
  have hfit : ∀ i ∈ List.range t.m_columnCount, (t.columnName i).length < 2147483648 := by
    intro i hi
    have hi2 : i < t.m_columnNames.length := by
      rw [hc2]; exact List.mem_range.mp hi
    unfold columnName
    rw [List.getD_eq_getElem _ _ hi2]
    have hle : 4 + (t.m_columnNames[i]).length
        ≤ (t.m_columnNames.map (fun s => 4 + s.length)).sum :=
      List.single_le_sum (fun x _ => Nat.zero_le x) _
        (List.mem_map_of_mem (fun s => 4 + s.length) (List.getElem_mem hi2))
    omega
  unfold serializeColumnHeaderTo
  rw [he1]
  simp only [he2, ne_eq, not_true_eq_false, if_false]
  rw [writeColumnTypes_eq, writeColumnNames_eq _ _ _ hfit, htypes, hnames]
  simp only
  have hpos : ((SerializeOutput.position
      (SerializeOutput.writeShort
        (SerializeOutput.writeByte (SerializeOutput.writeInt io (-1)) (-128))
        (toInt16 t.m_columnCount) ++ t.m_schema.columnTypes.map int8Byte ++
        t.m_columnNames.flatMap (fun s => int32BE s.length ++ s)) : Nat) : Int)
      - (SerializeOutput.position io : Nat)
      = ((columnHeaderBytes t.m_schema.columnTypes t.m_columnNames).length : Nat) := by
    rw [hlen]
    simp only [SerializeOutput.position, SerializeOutput.writeShort, SerializeOutput.writeByte,
      SerializeOutput.writeInt, List.length_append, length_int32BE, length_int16BE,
      List.length_map, length_namesBytes, List.length_singleton]
    push_cast
    omega
  rw [hpos]
  have hsz : toInt32 ((columnHeaderBytes t.m_schema.columnTypes t.m_columnNames).length : Int)
      = (columnHeaderBytes t.m_schema.columnTypes t.m_columnNames).length :=
    toInt32_of_fits _ (by omega) (by omega)
  rw [hsz, if_neg (by omega)]
  have hio6 : SerializeOutput.writeIntAt
      (SerializeOutput.writeShort
        (SerializeOutput.writeByte (SerializeOutput.writeInt io (-1)) (-128))
        (toInt16 t.m_columnCount) ++ t.m_schema.columnTypes.map int8Byte ++
        t.m_columnNames.flatMap (fun s => int32BE s.length ++ s))
      (SerializeOutput.position io)
      (toInt32 (((columnHeaderBytes t.m_schema.columnTypes t.m_columnNames).length : Int) - 4))
      = io ++ columnHeaderBytes t.m_schema.columnTypes t.m_columnNames := by
    have hv : int32BE (((columnHeaderBytes t.m_schema.columnTypes t.m_columnNames).length
          : Int) - 4)
        = int32BE ((3 + t.m_schema.columnTypes.length
            + (t.m_columnNames.map (fun s => 4 + s.length)).sum : Nat) : Int) := by
      have h4 : ((columnHeaderBytes t.m_schema.columnTypes t.m_columnNames).length : Int) - 4
          = ((3 + t.m_schema.columnTypes.length
            + (t.m_columnNames.map (fun s => 4 + s.length)).sum : Nat) : Int) := by
        rw [hlen]
        push_cast
        omega
      rw [h4]
    have hb : int8Byte (-128) = 128 := by decide
    unfold SerializeOutput.writeIntAt
    rw [int32BE_toInt32, hv]
    simp only [SerializeOutput.position, SerializeOutput.writeShort, SerializeOutput.writeByte,
      SerializeOutput.writeInt, List.append_assoc]
    rw [List.take_left, ← List.append_assoc io (int32BE (-1)), List.drop_left'
      (by simp [length_int32BE] : (io ++ int32BE (-1)).length = io.length + 4)]
    rw [int16BE_toInt16, hb, hn]
    unfold columnHeaderBytes
    simp only [List.append_assoc, Nat.cast_inj]
  rw [hio6]
  simp only [SerializeOutput.position, List.drop_left, Int.toNat_ofNat, List.take_length]

/-- A later `serializeColumnHeaderTo` call: it appends the cached header and
changes nothing in the object. -/
theorem serializeColumnHeaderTo_cached (t : TableObject) (io : List Nat) (hc : t.CacheFilled) :
    serializeColumnHeaderTo t io
      = some (t, io ++ columnHeaderBytes t.m_schema.columnTypes t.m_columnNames) := by
  obtain ⟨h1, h2⟩ := hc
  unfold serializeColumnHeaderTo
  rw [h1]
  simp only [h2]
  rw [if_neg (by omega)]
  simp [SerializeOutput.writeBytes]

/-- The object after a `serializeColumnHeaderTo` call, whatever the state of
the cache was. -/
theorem serializeColumnHeaderTo_any (t : TableObject) (io : List Nat)
    (hc : t.ColumnsInv) (hi : t.CacheInv) (hf : t.HeaderFits) :
    ∃ t1, serializeColumnHeaderTo t io
        = some (t1, io ++ columnHeaderBytes t.m_schema.columnTypes t.m_columnNames) ∧
      t1.store = t.store ∧ t1.m_schema = t.m_schema ∧ t1.m_columnNames = t.m_columnNames ∧
      t1.m_columnCount = t.m_columnCount ∧ t1.m_databaseId = t.m_databaseId ∧
      t1.m_name = t.m_name ∧ t1.tableType = t.tableType ∧ t1.indexes = t.indexes ∧
      t1.loadedTuples = t.loadedTuples ∧ t1.CacheFilled := by
  rcases hi with he | hfl
  · exact ⟨_, serializeColumnHeaderTo_first t io hc he hf, rfl, rfl, rfl, rfl, rfl, rfl, rfl,
      rfl, rfl, rfl, by simp⟩
  · exact ⟨t, serializeColumnHeaderTo_cached t io hfl, rfl, rfl, rfl, rfl, rfl, rfl, rfl, rfl,
      rfl, hfl⟩

/-- C12: for a table whose column fields are as `initializeWithColumns` leaves
them (`n` columns with types `t_i` and names `s_i`), whose header cache is
still empty and whose header is shorter than `2^31` bytes, the first
`serializeColumnHeaderTo` call returns and the output is then the bytes
already there followed by exactly
`int32_be(h) ++ [0x80] ++ int16_be(n) ++ [t_i as one byte each] ++
concat(int32_be(len s_i) ++ s_i)`, where `h = 3 + n + sum (4 + len s_i)` is the
number of bytes after the 4-byte prefix. -/
theorem serializeColumnHeaderTo_writes_header (t : TableObject) (io : List Nat)
    (hc : t.ColumnsInv) (he : t.CacheEmpty) (hf : t.HeaderFits) :
    (serializeColumnHeaderTo t io).map Prod.snd
      = some (io ++ (int32BE (3 + t.m_schema.columnTypes.length
            + (t.m_columnNames.map (fun s => 4 + s.length)).sum : Nat) ++ [128] ++
          int16BE t.m_schema.columnTypes.length ++ t.m_schema.columnTypes.map int8Byte ++
          t.m_columnNames.flatMap (fun s => int32BE s.length ++ s))) ∧
    ([128] ++ int16BE t.m_schema.columnTypes.length ++ t.m_schema.columnTypes.map int8Byte ++
        t.m_columnNames.flatMap (fun s => int32BE s.length ++ s)).length
      = 3 + t.m_schema.columnTypes.length + (t.m_columnNames.map (fun s => 4 + s.length)).sum ∧
    t.m_columnCount = t.m_schema.columnTypes.length ∧
    columnHeaderBytes t.m_schema.columnTypes t.m_columnNames
      = int32BE (3 + t.m_schema.columnTypes.length
            + (t.m_columnNames.map (fun s => 4 + s.length)).sum : Nat) ++ [128] ++
          int16BE t.m_schema.columnTypes.length ++ t.m_schema.columnTypes.map int8Byte ++
          t.m_columnNames.flatMap (fun s => int32BE s.length ++ s) := by
  refine ⟨?_, ?_, hc.1, rfl⟩
  · rw [serializeColumnHeaderTo_first t io hc he hf]
    rfl
  · simp only [List.length_append, length_int16BE, List.length_map, length_namesBytes,
      List.length_singleton]

/-- C12 on a table of one column of type 6 named `A`, with two bytes already
in the output. -/
theorem serializeColumnHeaderTo_writes_header_witness :
    (serializeColumnHeaderTo oneColumnFresh [1, 2]).map Prod.snd
      = some ([1, 2] ++ (int32BE (3 + oneColumnFresh.m_schema.columnTypes.length
            + (oneColumnFresh.m_columnNames.map (fun s => 4 + s.length)).sum : Nat) ++ [128] ++
          int16BE oneColumnFresh.m_schema.columnTypes.length ++
          oneColumnFresh.m_schema.columnTypes.map int8Byte ++
          oneColumnFresh.m_columnNames.flatMap (fun s => int32BE s.length ++ s))) ∧
    ([128] ++ int16BE oneColumnFresh.m_schema.columnTypes.length ++
        oneColumnFresh.m_schema.columnTypes.map int8Byte ++
        oneColumnFresh.m_columnNames.flatMap (fun s => int32BE s.length ++ s)).length
      = 3 + oneColumnFresh.m_schema.columnTypes.length
        + (oneColumnFresh.m_columnNames.map (fun s => 4 + s.length)).sum ∧
    oneColumnFresh.m_columnCount = oneColumnFresh.m_schema.columnTypes.length ∧
    columnHeaderBytes oneColumnFresh.m_schema.columnTypes oneColumnFresh.m_columnNames
      = int32BE (3 + oneColumnFresh.m_schema.columnTypes.length
            + (oneColumnFresh.m_columnNames.map (fun s => 4 + s.length)).sum : Nat) ++ [128] ++
          int16BE oneColumnFresh.m_schema.columnTypes.length ++
          oneColumnFresh.m_schema.columnTypes.map int8Byte ++
          oneColumnFresh.m_columnNames.flatMap (fun s => int32BE s.length ++ s) :=
  serializeColumnHeaderTo_writes_header oneColumnFresh [1, 2] (by decide) (by decide) (by decide)

/-- C13: after the first (uncached) `serializeColumnHeaderTo` call has written
the header `header` behind the bytes `io`, the cached size is the length of
`header`, 4-byte prefix included, and a later call, into any output `io2`,
appends byte for byte the same `header` and returns the same object, so that
every call after it does so too. -/
theorem serializeColumnHeaderTo_cache_transparent (t : TableObject) (io io2 : List Nat)
    (hc : t.ColumnsInv) (he : t.CacheEmpty) (hf : t.HeaderFits) :
    ∃ t1 header,
      serializeColumnHeaderTo t io = some (t1, io ++ header) ∧
      t1.m_columnHeaderSize = header.length ∧
      t1.m_columnHeaderData = some header ∧
      serializeColumnHeaderTo t1 io2 = some (t1, io2 ++ header) := by
  refine ⟨_, _, serializeColumnHeaderTo_first t io hc he hf, rfl, rfl, ?_⟩
  exact serializeColumnHeaderTo_cached _ io2 ⟨rfl, rfl⟩

/-- C13 on a table of two columns: the second call, into an output that holds
three bytes, appends the header of the first call. -/
theorem serializeColumnHeaderTo_cache_transparent_witness :
    ∃ t1 header,
      serializeColumnHeaderTo twoColumnTable [] = some (t1, [] ++ header) ∧
      t1.m_columnHeaderSize = header.length ∧
      t1.m_columnHeaderData = some header ∧
      serializeColumnHeaderTo t1 [9, 9, 9] = some (t1, [9, 9, 9] ++ header) :=
  serializeColumnHeaderTo_cache_transparent twoColumnTable [] [9, 9, 9]
    (by decide) (by decide) (by decide)

end TableObject
end voltdb

namespace voltdb

/-! ## Serialization of a table -/

theorem writeIntAt_placeholder (io rest : List Nat) (v0 v : Int) :
    SerializeOutput.writeIntAt (io ++ int32BE v0 ++ rest) (SerializeOutput.position io) v
      = io ++ int32BE v ++ rest := by
  have h1 : List.take io.length (io ++ int32BE v0 ++ rest) = io := by
    rw [List.append_assoc]
    exact List.take_left _ _
  have h2 : List.drop (io.length + 4) (io ++ int32BE v0 ++ rest) = rest :=
    List.drop_left' (by simp [length_int32BE])
  unfold SerializeOutput.writeIntAt SerializeOutput.position
  rw [h1, h2]

theorem foldl_serializeTuple (serializeTuple : TupleSlot → List Nat) (tuples : List TupleSlot)
    (io : List Nat) :
    tuples.foldl (fun out tuple => out ++ serializeTuple tuple) io
      = io ++ tuples.flatMap serializeTuple := by
  induction tuples generalizing io with
  | nil => simp
  | cons s rest ih => simp [ih]

namespace Table

theorem length_activeTuples_aux (t : Table) (l : List Nat)
    (h : ∀ a ∈ l, activeFlags (t.heap a) = (t.heap a).activeCount) :
    (l.flatMap (fun a => (t.heap a).slots.filter (fun s => s.active))).length
      = (l.map (fun a => (t.heap a).activeCount)).sum := by
  induction l with
  | nil => rfl
  | cons a rest ih =>
    have h1 := h a (List.mem_cons_self _ _)
    unfold activeFlags at h1
    simp only [List.flatMap_cons, List.length_append, List.map_cons, List.sum_cons, h1,
      ih (fun b hb => h b (List.mem_cons_of_mem _ hb))]

/-- An iteration yields as many tuples as the tuple count says. -/
theorem length_activeTuples (t : Table) (hc : t.CountInv) (hf : t.FlagsInv) :
    t.activeTuples.length = t.m_tupleCount := by
  unfold CountInv activeSum at hc
  rw [hc]
  exact length_activeTuples_aux t t.m_data hf

end Table

namespace TableObject

/-- What `serializeTo` does when the number of active tuples is the tuple
count and the table fits a signed 32-bit size. -/
theorem serializeTo_eq (serializeTuple : TupleSlot → List Nat) (t : TableObject) (io : List Nat)
    (hc : t.ColumnsInv) (hi : t.CacheInv)
    (hn : t.store.activeTuples.length = t.store.m_tupleCount)
    (hs : (tableBytes serializeTuple t).length < 2147483648) :
    ∃ t1, serializeTo serializeTuple t io
        = some (t1, io ++ int32BE (tableBytes serializeTuple t).length ++
            tableBytes serializeTuple t) ∧
      t1.store = t.store ∧ t1.m_schema = t.m_schema ∧ t1.m_columnNames = t.m_columnNames ∧
      t1.m_columnCount = t.m_columnCount ∧ t1.m_databaseId = t.m_databaseId ∧
      t1.m_name = t.m_name ∧ t1.tableType = t.tableType ∧ t1.indexes = t.indexes ∧
      t1.loadedTuples = t.loadedTuples ∧ t1.CacheFilled := by
  have hlen : (tableBytes serializeTuple t).length
      = (columnHeaderBytes t.m_schema.columnTypes t.m_columnNames).length + 4
        + (t.store.activeTuples.flatMap serializeTuple).length := by
    unfold tableBytes
    simp only [List.length_append, length_int32BE]
  have hf : t.HeaderFits := by
    unfold HeaderFits
    omega
  have hgt : ((tableBytes serializeTuple t).length : Int) > 0 := by omega
  have hsz : toInt32 ((tableBytes serializeTuple t).length : Int)
      = (tableBytes serializeTuple t).length :=
    toInt32_of_fits _ (by omega) (by omega)
  obtain ⟨t1, e1, k1, k2, k3, k4, k5, k6, k7, k8, k9, k10⟩ :=
    serializeColumnHeaderTo_any t (SerializeOutput.writeInt io (-1)) hc hi hf
  refine ⟨t1, ?_, k1, k2, k3, k4, k5, k6, k7, k8, k9, k10⟩
  unfold serializeTo
  dsimp only
  rw [e1]
  simp only [k1, hn, ne_eq, not_true_eq_false, if_false]
  rw [foldl_serializeTuple]
  have hpos : ((SerializeOutput.position
      (SerializeOutput.writeInt
        (SerializeOutput.writeInt io (-1) ++
          columnHeaderBytes t.m_schema.columnTypes t.m_columnNames)
        (toInt32 t.store.m_tupleCount) ++
        t.store.activeTuples.flatMap serializeTuple) : Nat) : Int)
      - (SerializeOutput.position io : Nat) - 4
      = ((tableBytes serializeTuple t).length : Nat) := by
    rw [hlen]
    simp only [SerializeOutput.position, SerializeOutput.writeInt, List.length_append,
      length_int32BE]
    push_cast
    omega
  rw [hpos]
  rw [hsz, if_pos hgt]
  have hbytes : SerializeOutput.writeInt
        (SerializeOutput.writeInt io (-1) ++
          columnHeaderBytes t.m_schema.columnTypes t.m_columnNames)
        (toInt32 t.store.m_tupleCount) ++
        t.store.activeTuples.flatMap serializeTuple
      = io ++ int32BE (-1) ++ tableBytes serializeTuple t := by
    unfold tableBytes
    simp only [SerializeOutput.writeInt, int32BE_toInt32, List.append_assoc]
  rw [hbytes, writeIntAt_placeholder]

end TableObject
end voltdb

namespace voltdb
namespace TableObject

/-! ## Loading: the column header check -/

theorem loadRows_outcome (B : Nat) (deserializeTuple : List Nat → Option (List Nat × List Nat))
    (allowExport : Bool) (n : Nat) (t : TableObject) (io : List Nat) :
    (loadRows B deserializeTuple allowExport n t io).1 = LoadOutcome.loaded ∨
    (loadRows B deserializeTuple allowExport n t io).1 = LoadOutcome.deserializationError := by
  induction n generalizing t io with
  | zero => exact Or.inl rfl
  | succ n ih =>
    rw [loadRows]
    dsimp only
    rcases hd : deserializeTuple io with _ | ⟨row, io1⟩
    · exact Or.inr rfl
    · exact ih _ _

theorem loadTuplesFromNoHeader_outcome (B : Nat)
    (deserializeTuple : List Nat → Option (List Nat × List Nat)) (allowExport : Bool)
    (t : TableObject) (io : List Nat) :
    (loadTuplesFromNoHeader B deserializeTuple allowExport t io).1 = LoadOutcome.loaded ∨
    (loadTuplesFromNoHeader B deserializeTuple allowExport t io).1
      = LoadOutcome.deserializationError ∨
    (loadTuplesFromNoHeader B deserializeTuple allowExport t io).1
      = LoadOutcome.assertionFailed := by
  unfold loadTuplesFromNoHeader
  rcases SerializeInput.readInt io with _ | ⟨tupleCount, io1⟩
  · exact Or.inr (Or.inl rfl)
  · dsimp only
    by_cases hneg : tupleCount < 0
    · rw [if_pos hneg]
      exact Or.inr (Or.inr rfl)
    · rw [if_neg hneg]
      rcases loadRows_outcome B deserializeTuple allowExport tupleCount.toNat t io1 with h | h
      · rw [h]
        exact Or.inl rfl
      · rw [h]
        exact Or.inr (Or.inl rfl)

/-- C16, as written, fails: the header of this input declares one column, as
the schema of the table has, but of type 9 where the schema has type 6, and
`loadTuplesFrom` raises no error: it loads the two rows of the input. -/
theorem loadTuplesFrom_accepts_other_type :
    readColumnHeader [0, 0, 0, 9, 128, 0, 1, 9, 0, 0, 0, 1, 65, 0, 0, 0, 2, 1, 7, 1, 9]
      = HeaderRead.header 1 [9] [[65]] [0, 0, 0, 2, 1, 7, 1, 9] ∧
    oneColumnFresh.m_schema.columnTypes = [6] ∧
    (loadTuplesFrom 4 exampleDeserializeTuple false oneColumnFresh
      [0, 0, 0, 9, 128, 0, 1, 9, 0, 0, 0, 1, 65, 0, 0, 0, 2, 1, 7, 1, 9]).1
      = LoadOutcome.loaded ∧
    (loadTuplesFrom 4 exampleDeserializeTuple false oneColumnFresh
      [0, 0, 0, 9, 128, 0, 1, 9, 0, 0, 0, 1, 65, 0, 0, 0, 2, 1, 7, 1, 9]).2.store.m_tupleCount
      = 2 := by
  decide

/-- C16, amended: for an input whose column header is complete and declares a
column count that is not negative, `loadTuplesFrom` raises the schema-mismatch
error exactly when the declared count differs from the column count of the
schema; when the counts agree it does what `loadTuplesFromNoHeader` does on the
rest of the input, whatever the declared types and names are. -/
theorem loadTuplesFrom_checks_count_only (B : Nat)
    (deserializeTuple : List Nat → Option (List Nat × List Nat)) (allowExport : Bool)
    (t : TableObject) (io : List Nat) (colcount : Int) (types : List Int)
    (names : List (List Nat)) (rest : List Nat)
    (hh : readColumnHeader io = HeaderRead.header colcount types names rest) :
    (colcount = t.m_schema.columnCount →
      loadTuplesFrom B deserializeTuple allowExport t io
        = loadTuplesFromNoHeader B deserializeTuple allowExport t rest) ∧
    ((∃ expected given ns ts, (loadTuplesFrom B deserializeTuple allowExport t io).1
        = LoadOutcome.schemaMismatch expected given ns ts) ↔
      colcount ≠ t.m_schema.columnCount) := by
  have heq : colcount = t.m_schema.columnCount →
      loadTuplesFrom B deserializeTuple allowExport t io
        = loadTuplesFromNoHeader B deserializeTuple allowExport t rest := by
    intro h
    unfold loadTuplesFrom
    rw [hh]
    dsimp only
    rw [if_neg (not_not.mpr h)]
  refine ⟨heq, ?_, ?_⟩
  · rintro ⟨expected, given, ns, ts, h⟩ hc
    rw [heq hc] at h
    rcases loadTuplesFromNoHeader_outcome B deserializeTuple allowExport t rest with k | k | k
    all_goals
      rw [k] at h
      exact LoadOutcome.noConfusion h
  · intro hne
    refine ⟨t.m_schema.columnCount, colcount, names, types, ?_⟩
    unfold loadTuplesFrom
    rw [hh]
    dsimp only
    rw [if_pos hne]

/-- C16, amended, on the input whose header declares another type for the one
column. -/
theorem loadTuplesFrom_checks_count_only_witness :
    ((1 : Int) = oneColumnFresh.m_schema.columnCount →
      loadTuplesFrom 4 exampleDeserializeTuple false oneColumnFresh
          [0, 0, 0, 9, 128, 0, 1, 9, 0, 0, 0, 1, 65, 0, 0, 0, 2, 1, 7, 1, 9]
        = loadTuplesFromNoHeader 4 exampleDeserializeTuple false oneColumnFresh
          [0, 0, 0, 2, 1, 7, 1, 9]) ∧
    ((∃ expected given ns ts, (loadTuplesFrom 4 exampleDeserializeTuple false oneColumnFresh
          [0, 0, 0, 9, 128, 0, 1, 9, 0, 0, 0, 1, 65, 0, 0, 0, 2, 1, 7, 1, 9]).1
        = LoadOutcome.schemaMismatch expected given ns ts) ↔
      (1 : Int) ≠ oneColumnFresh.m_schema.columnCount) :=
  loadTuplesFrom_checks_count_only 4 exampleDeserializeTuple false oneColumnFresh
    [0, 0, 0, 9, 128, 0, 1, 9, 0, 0, 0, 1, 65, 0, 0, 0, 2, 1, 7, 1, 9] 1 [9] [[65]]
    [0, 0, 0, 2, 1, 7, 1, 9] (by decide)

/-! ## Comparison -/

theorem equalsIndexes_self (indexes : List Nat) (idx : List Nat) :
    equalsIndexes indexes indexes idx = true := by
  induction idx with
  | nil => rfl
  | cons ii rest ih =>
    rw [equalsIndexes]
    simp [ih]

theorem equalsTuples_self (tuples : List TupleSlot) : equalsTuples tuples tuples = true := by
  induction tuples with
  | nil => rfl
  | cons s rest ih =>
    rw [equalsTuples]
    simp [TupleSlot.equalsTuple, ih]

/-- The comparison never looks at the tuples of the other table: two tables
set up alike, with the same tuple count, are found equal. -/
theorem equals_of_sameSetup (t other : TableObject) (hs : t.SameSetup other)
    (hc : t.store.m_tupleCount = other.store.m_tupleCount) :
    t.equals other = true := by
  obtain ⟨h1, h2, h3, h4, h5, h6⟩ := hs
  unfold equals columnCount indexCount activeTupleCount
  simp [← h1, ← h2, ← h3, ← h4, ← h5, ← h6, ← hc, equalsIndexes_self, equalsTuples_self]

/-- C19 fails: `oneColumnTable` and `oneColumnTableChanged` are set up alike
and hold four tuples each, and the second tuple is 9 in the one and 6 in the
other; `equals` returns `true`, where the equality of the specification is
`false`. -/
theorem equals_ignores_other_tuples :
    oneColumnTable.SameSetup oneColumnTableChanged ∧
    oneColumnTable.store.m_tupleCount = oneColumnTableChanged.store.m_tupleCount ∧
    oneColumnTable.store.activeTuples.map (fun s => s.payload) = [[7], [9], [8], [5]] ∧
    oneColumnTableChanged.store.activeTuples.map (fun s => s.payload)
      = [[7], [6], [8], [5]] ∧
    oneColumnTable.equals oneColumnTableChanged = true ∧
    oneColumnTableChanged.equals oneColumnTable = true ∧
    equalsAsSpecified oneColumnTable oneColumnTableChanged = false := by
  decide

end TableObject

namespace Table

/-! ## Forced compaction twice -/

theorem forcedLoop_finished (B : Nat) (compactionPredicate : Table → Bool) (innerFuel : Nat)
    (fuel : Nat) (t : Table) (hadWork1 hadWork2 : Bool)
    (h : (forcedLoop B compactionPredicate innerFuel fuel t hadWork1 hadWork2).1
      = ForcedOutcome.finished) :
    compactionPredicate
      (forcedLoop B compactionPredicate innerFuel fuel t hadWork1 hadWork2).2 = false := by
  induction fuel generalizing t hadWork1 hadWork2 with
  | zero =>
    rw [forcedLoop] at h
    exact ForcedOutcome.noConfusion h
  | succ fuel ih =>
    rw [forcedLoop] at h ⊢
    by_cases hp : compactionPredicate t = true
    · rw [if_pos hp] at h ⊢
      by_cases hw : (!(hadWork1 || hadWork2)) = true
      · rw [if_pos hw] at h
        exact ForcedOutcome.noConfusion h
      · rw [if_neg hw] at h ⊢
        dsimp only at h ⊢
        split at h
        · exact ForcedOutcome.noConfusion h
        · split at h
          · exact ForcedOutcome.noConfusion h
          · exact ih _ _ _ h
    · rw [if_neg hp]
      simpa using hp

theorem forcedLoop_of_not_predicate (B : Nat) (compactionPredicate : Table → Bool)
    (innerFuel fuel : Nat) (t : Table) (hadWork1 hadWork2 : Bool)
    (h : compactionPredicate t = false) :
    forcedLoop B compactionPredicate innerFuel (fuel + 1) t hadWork1 hadWork2
      = (ForcedOutcome.finished, t) := by
  rw [forcedLoop, if_neg (by simp [h])]

/-- C20: whenever a `doForcedCompaction` call returns, the compaction predicate
is false on the table it leaves, and a second `doForcedCompaction` call on that
table, with any fuel that allows one test of the predicate, returns at once
with the very same table state: no relocation callback is made, no block is
removed. -/
theorem doForcedCompaction_idempotent (B : Nat) (compactionPredicate : Table → Bool)
    (innerFuel fuel innerFuel2 fuel2 : Nat) (t : Table)
    (h : (doForcedCompaction B compactionPredicate innerFuel fuel t).1
      = ForcedOutcome.finished) :
    compactionPredicate (doForcedCompaction B compactionPredicate innerFuel fuel t).2 = false ∧
    doForcedCompaction B compactionPredicate innerFuel2 (fuel2 + 1)
        (doForcedCompaction B compactionPredicate innerFuel fuel t).2
      = (ForcedOutcome.finished, (doForcedCompaction B compactionPredicate innerFuel fuel t).2) := by
  have hp := forcedLoop_finished B compactionPredicate innerFuel fuel t true true h
  exact ⟨hp, forcedLoop_of_not_predicate B compactionPredicate innerFuel2 fuel2 _ true true hp⟩

/-- C20 on two half-full blocks with the predicate "more slots allocated than
tuples active": the first run merges the blocks and returns, the second does
nothing. -/
theorem doForcedCompaction_idempotent_witness :
    (doForcedCompaction 4 allocatedExceedsActive 5 3 twoHalfBlocks).1 = ForcedOutcome.finished ∧
    (doForcedCompaction 4 allocatedExceedsActive 5 3 twoHalfBlocks).2.relocated.length = 2 ∧
    allocatedExceedsActive (doForcedCompaction 4 allocatedExceedsActive 5 3 twoHalfBlocks).2
      = false ∧
    doForcedCompaction 4 allocatedExceedsActive 5 (0 + 1)
        (doForcedCompaction 4 allocatedExceedsActive 5 3 twoHalfBlocks).2
      = (ForcedOutcome.finished,
          (doForcedCompaction 4 allocatedExceedsActive 5 3 twoHalfBlocks).2) :=
  ⟨by decide, by decide,
    doForcedCompaction_idempotent 4 allocatedExceedsActive 5 3 5 0 twoHalfBlocks (by decide)⟩

end Table
end voltdb

namespace voltdb

/-! ## Loading: one allocation -/

theorem setInsert_of_lt (a : Nat) (s : List Nat) (h : ∀ x ∈ s, x < a) :
    setInsert a s = s ++ [a] := by
  unfold setInsert
  rw [if_neg (fun hm => Nat.lt_irrefl _ (h a hm)), orderedInsert_of_lt a s h]

namespace TupleBlock

/-- The slot a block hands out is inside the block, and the block stays well
formed. -/
theorem nextFreeTuple_offset (B : Nat) (b : TupleBlock)
    (h1 : ∀ o ∈ b.freeList, o < b.nextUnusedOffset)
    (h2 : b.activeCount + b.freeList.length = b.nextUnusedOffset)
    (h3 : b.nextUnusedOffset ≤ b.capacity) (h4 : b.activeCount < b.capacity) :
    (b.nextFreeTuple B).2.1 < b.capacity ∧
    (b.nextFreeTuple B).1.nextUnusedOffset ≤ b.capacity ∧
    (b.nextFreeTuple B).1.activeCount + (b.nextFreeTuple B).1.freeList.length
      = (b.nextFreeTuple B).1.nextUnusedOffset ∧
    (∀ o ∈ (b.nextFreeTuple B).1.freeList, o < (b.nextFreeTuple B).1.nextUnusedOffset) := by
  unfold nextFreeTuple
  rcases hfl : b.freeList with _ | ⟨o, rest⟩
  · rw [hfl] at h1 h2
    simp only [List.length_nil, Nat.add_zero] at h2
    dsimp only
    refine ⟨by omega, by omega, by simpa using h2, fun o ho => by simp at ho⟩
  · rw [hfl] at h1 h2
    simp only [List.length_cons] at h2
    have ho := h1 o (List.mem_cons_self _ _)
    dsimp only
    refine ⟨by omega, h3, by omega, fun x hx => h1 x (List.mem_cons_of_mem _ hx)⟩

end TupleBlock

namespace Table

/-- What `nextFreeTuple` does to the table, in terms of the block `b0` the
slot is taken from: the first block of `m_blocksWithSpace`, or a new block. -/
theorem nextFreeTuple_shape (B : Nat) (t : Table) :
    ∃ b0 cb,
      (nextFreeTuple B t).1.heap (nextFreeTuple B t).2.1
        = { (b0.nextFreeTuple B).1 with currentBucket := cb } ∧
      (nextFreeTuple B t).2.2 = (b0.nextFreeTuple B).2.1 ∧
      (∀ x, x ≠ (nextFreeTuple B t).2.1 → (nextFreeTuple B t).1.heap x = t.heap x) ∧
      (nextFreeTuple B t).1.m_tupleCount = t.m_tupleCount ∧
      (nextFreeTuple B t).1.m_tuplesPerBlock = t.m_tuplesPerBlock ∧
      (((∃ rest, t.m_blocksWithSpace = (nextFreeTuple B t).2.1 :: rest) ∧
          b0 = t.heap (nextFreeTuple B t).2.1 ∧
          (nextFreeTuple B t).1.m_data = t.m_data ∧
          (nextFreeTuple B t).1.nextAddress = t.nextAddress ∧
          (nextFreeTuple B t).1.m_blocksWithSpace
            = (if (b0.nextFreeTuple B).1.hasFreeTuples then t.m_blocksWithSpace
                else setErase (nextFreeTuple B t).2.1 t.m_blocksWithSpace)) ∨
        (t.m_blocksWithSpace = [] ∧ (nextFreeTuple B t).2.1 = t.nextAddress ∧
          b0 = t.newBlock ∧
          (nextFreeTuple B t).1.m_data = setInsert t.nextAddress t.m_data ∧
          (nextFreeTuple B t).1.nextAddress = t.nextAddress + 1 ∧
          (nextFreeTuple B t).1.m_blocksWithSpace
            = (if (b0.nextFreeTuple B).1.hasFreeTuples then [t.nextAddress] else []))) := by
  rcases hbws : t.m_blocksWithSpace with _ | ⟨a, rest⟩
  · obtain ⟨e1, e2⟩ := nextFreeTuple_new B t hbws
    obtain ⟨_, a2, a3, a4, a5, _, _, a8, a9, _⟩ := allocateNextBlock_fields t
    have hsh := rebucketNewBlock_shape (t.allocateNextBlock.1.setBlock t.nextAddress
      ((t.allocateNextBlock.1.heap t.nextAddress).nextFreeTuple B).1) t.nextAddress
      ((t.allocateNextBlock.1.heap t.nextAddress).nextFreeTuple B).2.2
    obtain ⟨k1, ⟨cb, k2⟩, _, _, k5, k6, _, _, k9, k10⟩ :=
      allocated_fields B t.allocateNextBlock.1 t.nextAddress _ hsh
    obtain ⟨_, _, _, _, _, _, r7, _⟩ := rebucketed_fields
      (t.allocateNextBlock.1.setBlock t.nextAddress
        ((t.allocateNextBlock.1.heap t.nextAddress).nextFreeTuple B).1) t.nextAddress _ hsh
    have hoff : (nextFreeTuple B t).2.2
        = ((t.allocateNextBlock.1.heap t.nextAddress).nextFreeTuple B).2.1 := by
      unfold nextFreeTuple
      rw [hbws]
      rfl
    have hnb : t.allocateNextBlock.1.heap t.nextAddress = t.newBlock := a2
    rw [hnb] at hoff
    have k2n : (rebucketNewBlock (t.allocateNextBlock.1.setBlock t.nextAddress
        ((t.allocateNextBlock.1.heap t.nextAddress).nextFreeTuple B).1) t.nextAddress
        ((t.allocateNextBlock.1.heap t.nextAddress).nextFreeTuple B).2.2).heap t.nextAddress
        = { (t.newBlock.nextFreeTuple B).1 with currentBucket := cb } := by
      rw [k2, hnb]
    have hhf : ((rebucketNewBlock (t.allocateNextBlock.1.setBlock t.nextAddress
        ((t.allocateNextBlock.1.heap t.nextAddress).nextFreeTuple B).1) t.nextAddress
        ((t.allocateNextBlock.1.heap t.nextAddress).nextFreeTuple B).2.2).heap
          t.nextAddress).hasFreeTuples = (t.newBlock.nextFreeTuple B).1.hasFreeTuples := by
      rw [k2n]
      rfl
    refine ⟨t.newBlock, cb, ?_, ?_, ?_, ?_, ?_, Or.inr ⟨rfl, e1, rfl, ?_, ?_, ?_⟩⟩
    · rw [e1, e2]
      split
      · exact k2n
      · exact k2n
    · exact hoff
    · intro x hx
      rw [e1] at hx
      rw [e2]
      have hx2 := (k1 x hx).trans (a3 x hx)
      split
      · exact hx2
      · exact hx2
    · rw [e2]
      split
      · exact r7
      · exact r7
    · rw [e2]
      split
      · exact k10.trans a9
      · exact k10.trans a9
    · rw [e2]
      split
      · exact k5.trans a4
      · exact k5.trans a4
    · rw [e2]
      split
      · exact k9.trans a8
      · exact k9.trans a8
    · rw [e2, hhf]
      have hb : (rebucketNewBlock (t.allocateNextBlock.1.setBlock t.nextAddress
          ((t.allocateNextBlock.1.heap t.nextAddress).nextFreeTuple B).1) t.nextAddress
          ((t.allocateNextBlock.1.heap t.nextAddress).nextFreeTuple B).2.2).m_blocksWithSpace
          = [] := (k6.trans a5).trans hbws
      by_cases hf : (t.newBlock.nextFreeTuple B).1.hasFreeTuples = true
      · rw [if_pos hf, if_pos hf]
        show setInsert t.nextAddress _ = _
        rw [hb]
        rfl
      · rw [if_neg hf, if_neg hf]
        exact hb
  · obtain ⟨e1, e2⟩ := nextFreeTuple_existing B t a rest hbws
    have hsh := rebucketUsedBlock_shape (t.setBlock a ((t.heap a).nextFreeTuple B).1) a
      ((t.heap a).nextFreeTuple B).2.2
    obtain ⟨k1, ⟨cb, k2⟩, _, _, k5, k6, _, _, k9, k10⟩ := allocated_fields B t a _ hsh
    obtain ⟨_, _, _, _, _, _, r7, _⟩ := rebucketed_fields
      (t.setBlock a ((t.heap a).nextFreeTuple B).1) a _ hsh
    have hoff : (nextFreeTuple B t).2.2 = ((t.heap a).nextFreeTuple B).2.1 := by
      unfold nextFreeTuple
      rw [hbws]
    have hhf : ((rebucketUsedBlock (t.setBlock a ((t.heap a).nextFreeTuple B).1) a
        ((t.heap a).nextFreeTuple B).2.2).heap a).hasFreeTuples
        = ((t.heap a).nextFreeTuple B).1.hasFreeTuples := by
      rw [k2]
      rfl
    refine ⟨t.heap a, cb, ?_, ?_, ?_, ?_, ?_, Or.inl ⟨⟨rest, by rw [e1]⟩, by rw [e1], ?_, ?_, ?_⟩⟩
    · rw [e1, e2]
      split
      · exact k2
      · exact k2
    · exact hoff
    · intro x hx
      rw [e1] at hx
      rw [e2]
      split
      · exact k1 x hx
      · exact k1 x hx
    · rw [e2]
      split
      · exact r7
      · exact r7
    · rw [e2]
      split
      · exact k10
      · exact k10
    · rw [e2]
      split
      · exact k5
      · exact k5
    · rw [e2]
      split
      · exact k9
      · exact k9
    · rw [e2, hhf, e1]
      have hb : (rebucketUsedBlock (t.setBlock a ((t.heap a).nextFreeTuple B).1) a
          ((t.heap a).nextFreeTuple B).2.2).m_blocksWithSpace = a :: rest := k6.trans hbws
      by_cases hf : ((t.heap a).nextFreeTuple B).1.hasFreeTuples = true
      · simp only [hf, Bool.not_true, if_true]
        simpa using hb
      · rw [Bool.not_eq_true] at hf
        simp only [hf, Bool.not_false, if_true, Bool.false_eq_true, if_false]
        show setErase a _ = _
        rw [hb]

end Table
end voltdb

namespace voltdb
namespace Table

/-! ## Loading: the invariants of an allocation -/

theorem hasFreeTuples_with_currentBucket (b : TupleBlock) (cb : Option (Bool × Nat)) :
    TupleBlock.hasFreeTuples { b with currentBucket := cb } = b.hasFreeTuples := rfl

/-- An allocation keeps what allocations rely on, adds one to the sum of the
active counts, leaves the tuple count alone, and hands out a slot that exists
in a block of the table. -/
theorem nextFreeTuple_alloc (B : Nat) (t : Table) (ha : t.AllocInv) (hs : t.SlotsInv) :
    (nextFreeTuple B t).1.AllocInv ∧ (nextFreeTuple B t).1.SlotsInv ∧
    (nextFreeTuple B t).1.activeSum = t.activeSum + 1 ∧
    (nextFreeTuple B t).1.m_tupleCount = t.m_tupleCount ∧
    (nextFreeTuple B t).2.1 ∈ (nextFreeTuple B t).1.m_data ∧
    (nextFreeTuple B t).2.2
      < ((nextFreeTuple B t).1.heap (nextFreeTuple B t).2.1).slots.length := by
  obtain ⟨b0, cb, s1, s2, s3, s4, s5, s6⟩ := nextFreeTuple_shape B t
  generalize nextFreeTuple B t = r at s1 s2 s3 s4 s5 s6 ⊢
  obtain ⟨a1, a2, a3⟩ := ha
  obtain ⟨c1, c2, c3⟩ := hs
  obtain ⟨n1, n2, _, _, _, n6, _⟩ := TupleBlock.nextFreeTuple_fields B b0
  have hcount : (r.1.heap r.2.1).activeCount = b0.activeCount + 1 := by
    rw [s1]; exact n1
  have hcap : (r.1.heap r.2.1).capacity = b0.capacity := by
    rw [s1]; exact n2
  have hslots : (r.1.heap r.2.1).slots = b0.slots := by
    rw [s1]; exact n6
  have hfree : (r.1.heap r.2.1).hasFreeTuples = (b0.nextFreeTuple B).1.hasFreeTuples := by
    rw [s1]; rfl
  have hfl : (r.1.heap r.2.1).freeList = (b0.nextFreeTuple B).1.freeList := by
    rw [s1]
  have hnu : (r.1.heap r.2.1).nextUnusedOffset = (b0.nextFreeTuple B).1.nextUnusedOffset := by
    rw [s1]
  have hac : (r.1.heap r.2.1).activeCount = (b0.nextFreeTuple B).1.activeCount := by
    rw [s1]
  rcases s6 with ⟨⟨rest, hb⟩, hb0, hd, hna, hbw⟩ | ⟨hb, hq, hb0, hd, hna, hbw⟩
  · -- a block of m_blocksWithSpace
    have hmem : r.2.1 ∈ t.m_blocksWithSpace := by
      rw [hb]; exact List.mem_cons_self _ _
    have hdata : r.2.1 ∈ t.m_data := a3 _ hmem
    obtain ⟨w1, w2, w3, w4⟩ := c3 _ hdata
    have hhas := c2 _ hmem
    have hlt : (t.heap r.2.1).activeCount < (t.heap r.2.1).capacity := by
      simpa [TupleBlock.hasFreeTuples] using hhas
    rw [← hb0] at w1 w2 w3 w4 hlt
    obtain ⟨o1, o2, o3, o4⟩ := TupleBlock.nextFreeTuple_offset B b0 w4 w3 w2 hlt
    have hsub : ∀ x ∈ r.1.m_blocksWithSpace, x ∈ t.m_blocksWithSpace ∧
        (x = r.2.1 → (b0.nextFreeTuple B).1.hasFreeTuples = true) := by
      intro x hx
      rw [hbw] at hx
      by_cases hf : (b0.nextFreeTuple B).1.hasFreeTuples = true
      · rw [if_pos hf] at hx
        exact ⟨hx, fun _ => hf⟩
      · rw [if_neg hf] at hx
        obtain ⟨hx1, hx2⟩ := mem_setErase.mp hx
        exact ⟨hx1, fun h => absurd h hx2⟩
    refine ⟨⟨?_, ?_, ?_⟩, ⟨?_, ?_, ?_⟩, ?_, s4, ?_, ?_⟩
    · rw [hd]; exact a1
    · rw [hd, hna]; exact a2
    · intro x hx
      rw [hd]
      exact a3 _ (hsub x hx).1
    · rw [s5]; exact c1
    · intro x hx
      by_cases hxa : x = r.2.1
      · rw [hxa, hfree]
        exact (hsub x hx).2 hxa
      · rw [s3 x hxa]
        exact c2 _ (hsub x hx).1
    · intro x hx
      rw [hd] at hx
      by_cases hxa : x = r.2.1
      · rw [hxa, hslots, hcap, hnu, hac, hfl]
        exact ⟨w1, o2, o3, o4⟩
      · rw [s3 x hxa]
        exact c3 _ hx
    · unfold activeSum
      rw [hd]
      have hfun : (fun x => (r.1.heap x).activeCount)
          = Function.update (fun x => (t.heap x).activeCount) r.2.1
              ((t.heap r.2.1).activeCount + 1) := by
        funext x
        by_cases hxa : x = r.2.1
        · rw [hxa, Function.update_same, hcount, hb0]
        · rw [Function.update_noteq hxa, s3 x hxa]
      rw [hfun]
      have := sum_map_update (fun x => (t.heap x).activeCount) r.2.1
        ((t.heap r.2.1).activeCount + 1) t.m_data a1 hdata
      simp only at this
      omega
    · rw [hd]; exact hdata
    · rw [hslots, w1, s2]; exact o1
  · -- a new block
    have hfresh : r.2.1 ∉ t.m_data := by
      intro h
      have := a2 _ h
      omega
    have hins : setInsert t.nextAddress t.m_data = t.m_data ++ [t.nextAddress] :=
      setInsert_of_lt _ _ a2
    have hne : ∀ x ∈ t.m_data, x ≠ r.2.1 := by
      intro x hx h
      exact hfresh (h ▸ hx)
    have hlt : b0.activeCount < b0.capacity := by
      rw [hb0]; exact c1
    obtain ⟨o1, o2, o3, o4⟩ := TupleBlock.nextFreeTuple_offset B b0
      (by rw [hb0]; intro o ho; simp [newBlock] at ho) (by rw [hb0]; rfl)
      (by rw [hb0]; exact Nat.zero_le _) hlt
    have w1 : b0.slots.length = b0.capacity := by
      rw [hb0]; simp [newBlock]
    have hsub : ∀ x ∈ r.1.m_blocksWithSpace,
        x = r.2.1 ∧ (b0.nextFreeTuple B).1.hasFreeTuples = true := by
      intro x hx
      rw [hbw] at hx
      by_cases hf : (b0.nextFreeTuple B).1.hasFreeTuples = true
      · rw [if_pos hf] at hx
        exact ⟨(List.mem_singleton.mp hx).trans hq.symm, hf⟩
      · rw [if_neg hf] at hx
        simp at hx
    refine ⟨⟨?_, ?_, ?_⟩, ⟨?_, ?_, ?_⟩, ?_, s4, ?_, ?_⟩
    · rw [hd]; exact nodup_setInsert a1
    · intro x hx
      rw [hd] at hx
      rw [hna]
      rcases mem_setInsert.mp hx with h | h
      · omega
      · have := a2 _ h
        omega
    · intro x hx
      rw [(hsub x hx).1, hd, hq]
      exact mem_setInsert.mpr (Or.inl rfl)
    · rw [s5]; exact c1
    · intro x hx
      rw [(hsub x hx).1, hfree]
      exact (hsub x hx).2
    · intro x hx
      rw [hd] at hx
      rcases mem_setInsert.mp hx with h | h
      · rw [h, ← hq, hslots, hcap, hnu, hac, hfl]
        exact ⟨w1, o2, o3, o4⟩
      · rw [s3 x (hne x h)]
        exact c3 _ h
    · unfold activeSum
      rw [hd, hins, List.map_append, List.sum_append]
      have hsame : t.m_data.map (fun x => (r.1.heap x).activeCount)
          = t.m_data.map (fun x => (t.heap x).activeCount) := by
        apply List.map_congr_left
        intro x hx
        rw [s3 x (hne x hx)]
      rw [hsame, ← hq]
      simp only [List.map_cons, List.map_nil, List.sum_cons, List.sum_nil, hcount, hb0]
      rfl
    · rw [hd, hq]
      exact mem_setInsert.mpr (Or.inl rfl)
    · rw [hslots, w1, s2]; exact o1

/-- Writing a slot of a block of the table keeps what allocations rely on and
the sum of the active counts. -/
theorem writeSlot_alloc (t : Table) (slot : Nat × Nat) (s : TupleSlot)
    (ha : t.AllocInv) (hs : t.SlotsInv) :
    (t.writeSlot slot s).AllocInv ∧ (t.writeSlot slot s).SlotsInv ∧
    (t.writeSlot slot s).activeSum = t.activeSum := by
  have hheap : ∀ x, ((t.writeSlot slot s).heap x).activeCount = (t.heap x).activeCount ∧
      ((t.writeSlot slot s).heap x).capacity = (t.heap x).capacity ∧
      ((t.writeSlot slot s).heap x).slots.length = (t.heap x).slots.length ∧
      ((t.writeSlot slot s).heap x).freeList = (t.heap x).freeList ∧
      ((t.writeSlot slot s).heap x).nextUnusedOffset = (t.heap x).nextUnusedOffset := by
    intro x
    by_cases hx : x = slot.1
    · subst hx
      have : (t.writeSlot slot s).heap slot.1
          = { t.heap slot.1 with slots := (t.heap slot.1).slots.set slot.2 s } := by
        show Function.update t.heap slot.1 _ slot.1 = _
        rw [Function.update_same]
      rw [this]
      exact ⟨rfl, rfl, by simp, rfl, rfl⟩
    · have : (t.writeSlot slot s).heap x = t.heap x := by
        show Function.update t.heap slot.1 _ x = _
        rw [Function.update_noteq hx]
      rw [this]
      exact ⟨rfl, rfl, rfl, rfl, rfl⟩
  obtain ⟨c1, c2, c3⟩ := hs
  refine ⟨ha, ⟨c1, ?_, ?_⟩, ?_⟩
  · intro x hx
    have := c2 x hx
    unfold TupleBlock.hasFreeTuples at this ⊢
    rw [(hheap x).1, (hheap x).2.1]
    exact this
  · intro x hx
    obtain ⟨h1, h2, h3, h4, h5⟩ := hheap x
    rw [h1, h2, h3, h4, h5]
    exact c3 x hx
  · unfold activeSum
    apply congrArg
    apply List.map_congr_left
    intro x _
    exact (hheap x).1

/-- The two writes of a loaded row, the flags and then the payload, leave the
slot as `loadedSlot` says. -/
theorem writeSlot_loaded (t : Table) (slot : Nat × Nat) (row : List Nat)
    (h : slot.2 < (t.heap slot.1).slots.length) :
    (((t.writeSlot slot
        { (t.heap slot.1).slotAt slot.2 with
          active := true, dirty := false, pendingDelete := false,
          pendingDeleteOnUndoRelease := false }).writeSlot slot
      { ((t.writeSlot slot
            { (t.heap slot.1).slotAt slot.2 with
              active := true, dirty := false, pendingDelete := false,
              pendingDeleteOnUndoRelease := false }).heap slot.1).slotAt slot.2 with
        payload := row }).heap slot.1).slotAt slot.2 = TableObject.loadedSlot row ∧
    (t.writeSlot slot
        { (t.heap slot.1).slotAt slot.2 with
          active := true, dirty := false, pendingDelete := false,
          pendingDeleteOnUndoRelease := false }).writeSlot slot
      { ((t.writeSlot slot
            { (t.heap slot.1).slotAt slot.2 with
              active := true, dirty := false, pendingDelete := false,
              pendingDeleteOnUndoRelease := false }).heap slot.1).slotAt slot.2 with
        payload := row }
      = t.writeSlot slot (TableObject.loadedSlot row) := by
  have hw : ∀ (u : Table) (s : TupleSlot), (u.writeSlot slot s).heap slot.1
      = { u.heap slot.1 with slots := (u.heap slot.1).slots.set slot.2 s } := by
    intro u s
    show Function.update u.heap slot.1 _ slot.1 = _
    rw [Function.update_same]
  have hget : ∀ (l : List TupleSlot) (s : TupleSlot), slot.2 < l.length →
      (l.set slot.2 s).getD slot.2 TupleSlot.unused = s := by
    intro l s hl
    rw [List.getD_eq_getElem _ _ (by simpa using hl)]
    simp
  have hflag : ((t.writeSlot slot
        { (t.heap slot.1).slotAt slot.2 with
          active := true, dirty := false, pendingDelete := false,
          pendingDeleteOnUndoRelease := false }).heap slot.1).slotAt slot.2
      = { (t.heap slot.1).slotAt slot.2 with
          active := true, dirty := false, pendingDelete := false,
          pendingDeleteOnUndoRelease := false } := by
    rw [hw]
    unfold TupleBlock.slotAt
    exact hget _ _ h
  rw [hflag]
  constructor
  · rw [hw]
    unfold TupleBlock.slotAt
    rw [hget _ _ (by rw [hw]; simpa using h)]
    rfl
  · unfold writeSlot setBlock
    simp only [Function.update_same, Function.update_idem, List.set_set]
    rfl

end Table
end voltdb

namespace voltdb
namespace TableObject

/-! ## Loading: the rows -/

theorem parseRows_succ (deserializeTuple : List Nat → Option (List Nat × List Nat)) (n : Nat)
    (io : List Nat) (rows : List (List Nat)) (rest : List Nat)
    (h : parseRows deserializeTuple (n + 1) io = some (rows, rest)) :
    ∃ row io1 rows1, deserializeTuple io = some (row, io1) ∧
      parseRows deserializeTuple n io1 = some (rows1, rest) ∧ rows = row :: rows1 := by
  rw [parseRows] at h
  rcases hd : deserializeTuple io with _ | ⟨row, io1⟩
  · rw [hd] at h
    exact Option.noConfusion h
  · rw [hd] at h
    dsimp only at h
    rcases hp : parseRows deserializeTuple n io1 with _ | ⟨rows1, rest1⟩
    · rw [hp] at h
      exact Option.noConfusion h
    · rw [hp] at h
      dsimp only at h
      have h2 := Option.some.inj h
      have h3 : row :: rows1 = rows := congrArg Prod.fst h2
      have h4 : rest1 = rest := congrArg Prod.snd h2
      exact ⟨row, io1, rows1, rfl, by rw [← h4]; exact hp, h3.symm⟩

/-- One turn of the loop of `loadTuplesFromNoHeader` on a row that
deserializes: the store is the one after the allocation with the loaded slot
written into it, and the call of the hook is recorded with that slot. -/
theorem loadRows_succ (B : Nat) (deserializeTuple : List Nat → Option (List Nat × List Nat))
    (allowExport : Bool) (n : Nat) (t : TableObject) (io : List Nat) (row : List Nat)
    (io1 : List Nat) (hd : deserializeTuple io = some (row, io1))
    (hin : (t.store.nextFreeTuple B).2.2
      < (((t.store.nextFreeTuple B).1).heap (t.store.nextFreeTuple B).2.1).slots.length) :
    loadRows B deserializeTuple allowExport (n + 1) t io
      = loadRows B deserializeTuple allowExport n
          { t with
            store := (t.store.nextFreeTuple B).1.writeSlot (t.store.nextFreeTuple B).2
              (loadedSlot row)
            loadedTuples := t.loadedTuples ++
              [(allowExport, (t.store.nextFreeTuple B).2, loadedSlot row)] }
          io1 := by
  obtain ⟨w1, w2⟩ := Table.writeSlot_loaded (t.store.nextFreeTuple B).1
    (t.store.nextFreeTuple B).2 row hin
  rw [loadRows]
  dsimp only
  rw [hd]
  dsimp only
  rw [w1, w2]

/-- The loop of `loadTuplesFromNoHeader` on `n` rows that deserialize: it ends
normally, the hook is called once per row, in the order of the stream, with a
slot that is active, not dirty and not pending delete and holds the row; the
sum of the active counts grows by `n` and the tuple count is not yet
touched. -/
theorem loadRows_loaded (B : Nat) (deserializeTuple : List Nat → Option (List Nat × List Nat))
    (allowExport : Bool) (n : Nat) :
    ∀ (t : TableObject) (io : List Nat) (rows : List (List Nat)) (rest : List Nat),
      parseRows deserializeTuple n io = some (rows, rest) →
      t.store.AllocInv → t.store.SlotsInv →
      (loadRows B deserializeTuple allowExport n t io).1 = LoadOutcome.loaded ∧
      (loadRows B deserializeTuple allowExport n t io).2.2 = rest ∧
      (∃ records,
        (loadRows B deserializeTuple allowExport n t io).2.1.loadedTuples
          = t.loadedTuples ++ records ∧
        records.map (fun e => (e.1, e.2.2))
          = rows.map (fun row => (allowExport, loadedSlot row))) ∧
      rows.length = n ∧
      (loadRows B deserializeTuple allowExport n t io).2.1.store.AllocInv ∧
      (loadRows B deserializeTuple allowExport n t io).2.1.store.SlotsInv ∧
      (loadRows B deserializeTuple allowExport n t io).2.1.store.activeSum
        = t.store.activeSum + n ∧
      (loadRows B deserializeTuple allowExport n t io).2.1.store.m_tupleCount
        = t.store.m_tupleCount ∧
      (loadRows B deserializeTuple allowExport n t io).2.1.m_schema = t.m_schema ∧
      (loadRows B deserializeTuple allowExport n t io).2.1.m_columnCount = t.m_columnCount ∧
      (loadRows B deserializeTuple allowExport n t io).2.1.m_databaseId = t.m_databaseId ∧
      (loadRows B deserializeTuple allowExport n t io).2.1.m_name = t.m_name ∧
      (loadRows B deserializeTuple allowExport n t io).2.1.tableType = t.tableType ∧
      (loadRows B deserializeTuple allowExport n t io).2.1.indexes = t.indexes := by
  induction n with
  | zero =>
    intro t io rows rest hp _ _
    rw [parseRows] at hp
    have h2 := Option.some.inj hp
    have h3 : [] = rows := congrArg Prod.fst h2
    have h4 : io = rest := congrArg Prod.snd h2
    subst h3
    refine ⟨rfl, h4, ⟨[], by simp [loadRows], rfl⟩, rfl, by assumption, by assumption, rfl, rfl,
      rfl, rfl, rfl, rfl, rfl, rfl⟩
  | succ n ih =>
    intro t io rows rest hp ha hs
    obtain ⟨row, io1, rows1, hd, hp1, hrows⟩ := parseRows_succ deserializeTuple n io rows rest hp
    obtain ⟨a1, a2, a3, a4, _, a6⟩ := Table.nextFreeTuple_alloc B t.store ha hs
    obtain ⟨b1, b2, b3⟩ := Table.writeSlot_alloc (t.store.nextFreeTuple B).1
      (t.store.nextFreeTuple B).2 (loadedSlot row) a1 a2
    rw [loadRows_succ B deserializeTuple allowExport n t io row io1 hd a6]
    obtain ⟨i1, i2, ⟨records, i3, i4⟩, i5, i6, i7, i8, i9, i10, i11, i12, i13, i14, i15⟩ :=
      ih { t with
            store := (t.store.nextFreeTuple B).1.writeSlot (t.store.nextFreeTuple B).2
              (loadedSlot row)
            loadedTuples := t.loadedTuples ++
              [(allowExport, (t.store.nextFreeTuple B).2, loadedSlot row)] }
        io1 rows1 rest hp1 b1 b2
    refine ⟨i1, i2, ⟨(allowExport, (t.store.nextFreeTuple B).2, loadedSlot row) :: records,
      ?_, ?_⟩, ?_, i6, i7, ?_, ?_, i10, i11, i12, i13, i14, i15⟩
    · rw [i3]
      simp
    · rw [hrows]
      simp [i4]
    · rw [hrows]
      simp [i5]
    · rw [i8]
      show ((t.store.nextFreeTuple B).1.writeSlot _ _).activeSum + n = _
      rw [b3, a3]
      omega
    · rw [i9]
      exact a4

/-- What `loadTuplesFromNoHeader` does on a stream of `n` rows that
deserialize. -/
theorem loadTuplesFromNoHeader_eq (B : Nat)
    (deserializeTuple : List Nat → Option (List Nat × List Nat)) (allowExport : Bool)
    (t : TableObject) (io : List Nat) (n : Int) (io1 : List Nat) (rows : List (List Nat))
    (rest : List Nat) (hn : SerializeInput.readInt io = some (n, io1)) (hpos : 0 ≤ n)
    (hrows : parseRows deserializeTuple n.toNat io1 = some (rows, rest))
    (ha : t.store.AllocInv) (hs : t.store.SlotsInv) :
    loadTuplesFromNoHeader B deserializeTuple allowExport t io
      = (LoadOutcome.loaded,
          { (loadRows B deserializeTuple allowExport n.toNat t io1).2.1 with
            store := { (loadRows B deserializeTuple allowExport n.toNat t io1).2.1.store with
              m_tupleCount :=
                (loadRows B deserializeTuple allowExport n.toNat t io1).2.1.store.m_tupleCount
                  + n.toNat } }) := by
  obtain ⟨i1, _⟩ := loadRows_loaded B deserializeTuple allowExport n.toNat t io1 rows rest
    hrows ha hs
  unfold loadTuplesFromNoHeader
  rw [hn]
  dsimp only
  rw [if_neg (by omega)]
  rw [i1]

/-- C17: for a stream that starts with a row count `n >= 0` followed by `n`
rows that deserialize, on a table in which allocations are possible
(`AllocInv`, `SlotsInv`), `loadTuplesFromNoHeader` ends normally; it calls
`processLoadedTuple` once per row, in the order of the stream, with
`allowExport` and a slot that holds the row and is active, not dirty, not
pending delete and not pending delete on undo release; the `n` allocations
through `nextFreeTuple` add `n` to the sum of the active counts over the blocks
of the table; and `m_tupleCount` grows by exactly `n`, so that
`m_tupleCount = sum of the active counts` holds after the call if it held
before. -/
theorem loadTuplesFromNoHeader_loads (B : Nat)
    (deserializeTuple : List Nat → Option (List Nat × List Nat)) (allowExport : Bool)
    (t : TableObject) (io : List Nat) (n : Int) (io1 : List Nat) (rows : List (List Nat))
    (rest : List Nat) (hn : SerializeInput.readInt io = some (n, io1)) (hpos : 0 ≤ n)
    (hrows : parseRows deserializeTuple n.toNat io1 = some (rows, rest))
    (ha : t.store.AllocInv) (hs : t.store.SlotsInv) :
    (loadTuplesFromNoHeader B deserializeTuple allowExport t io).1 = LoadOutcome.loaded ∧
    (∃ records,
      (loadTuplesFromNoHeader B deserializeTuple allowExport t io).2.loadedTuples
        = t.loadedTuples ++ records ∧
      records.length = n.toNat ∧
      records.map (fun e => (e.1, e.2.2))
        = rows.map (fun row => (allowExport, (⟨true, false, false, false, row⟩ : TupleSlot)))) ∧
    (loadTuplesFromNoHeader B deserializeTuple allowExport t io).2.store.activeSum
      = t.store.activeSum + n.toNat ∧
    (loadTuplesFromNoHeader B deserializeTuple allowExport t io).2.store.m_tupleCount
      = t.store.m_tupleCount + n.toNat ∧
    (t.store.CountInv →
      (loadTuplesFromNoHeader B deserializeTuple allowExport t io).2.store.CountInv) := by
  obtain ⟨_, _, ⟨records, i3, i4⟩, i5, _, _, i8, i9, _⟩ :=
    loadRows_loaded B deserializeTuple allowExport n.toNat t io1 rows rest hrows ha hs
  rw [loadTuplesFromNoHeader_eq B deserializeTuple allowExport t io n io1 rows rest hn hpos
    hrows ha hs]
  have hsum : Table.activeSum
      { (loadRows B deserializeTuple allowExport n.toNat t io1).2.1.store with
        m_tupleCount :=
          (loadRows B deserializeTuple allowExport n.toNat t io1).2.1.store.m_tupleCount
            + n.toNat }
      = t.store.activeSum + n.toNat := i8
  refine ⟨rfl, ⟨records, i3, ?_, i4⟩, hsum, ?_, ?_⟩
  · have := congrArg List.length i4
    simp only [List.length_map] at this
    rw [this, i5]
  · show (loadRows B deserializeTuple allowExport n.toNat t io1).2.1.store.m_tupleCount
      + n.toNat = _
    rw [i9]
  · intro hc
    unfold Table.CountInv at hc ⊢
    rw [hsum]
    show (loadRows B deserializeTuple allowExport n.toNat t io1).2.1.store.m_tupleCount
      + n.toNat = _
    rw [i9, hc]

/-- C17 on a table of four tuples in two half-full blocks and a stream of
three rows. -/
theorem loadTuplesFromNoHeader_loads_witness :
    (loadTuplesFromNoHeader 4 exampleDeserializeTuple true oneColumnTable
      [0, 0, 0, 3, 1, 7, 1, 9, 1, 8]).1 = LoadOutcome.loaded ∧
    (∃ records,
      (loadTuplesFromNoHeader 4 exampleDeserializeTuple true oneColumnTable
        [0, 0, 0, 3, 1, 7, 1, 9, 1, 8]).2.loadedTuples
        = oneColumnTable.loadedTuples ++ records ∧
      records.length = (3 : Int).toNat ∧
      records.map (fun e => (e.1, e.2.2))
        = [[7], [9], [8]].map
            (fun row => (true, (⟨true, false, false, false, row⟩ : TupleSlot)))) ∧
    (loadTuplesFromNoHeader 4 exampleDeserializeTuple true oneColumnTable
      [0, 0, 0, 3, 1, 7, 1, 9, 1, 8]).2.store.activeSum
      = oneColumnTable.store.activeSum + (3 : Int).toNat ∧
    (loadTuplesFromNoHeader 4 exampleDeserializeTuple true oneColumnTable
      [0, 0, 0, 3, 1, 7, 1, 9, 1, 8]).2.store.m_tupleCount
      = oneColumnTable.store.m_tupleCount + (3 : Int).toNat ∧
    (oneColumnTable.store.CountInv →
      (loadTuplesFromNoHeader 4 exampleDeserializeTuple true oneColumnTable
        [0, 0, 0, 3, 1, 7, 1, 9, 1, 8]).2.store.CountInv) :=
  loadTuplesFromNoHeader_loads 4 exampleDeserializeTuple true oneColumnTable
    [0, 0, 0, 3, 1, 7, 1, 9, 1, 8] 3 [1, 7, 1, 9, 1, 8] [[7], [9], [8]] []
    (by decide) (by decide) (by decide) (by decide) (by decide)

end TableObject
end voltdb

namespace voltdb

/-! ## Loading into a fresh table -/

theorem filter_active_set (l : List TupleSlot) (o : Nat) (s : TupleSlot) (ho : o < l.length)
    (hin : ∀ x ∈ l.drop o, x.active = false) (hs : s.active = true) :
    (l.set o s).filter (fun x => x.active) = l.filter (fun x => x.active) ++ [s] ∧
    ∀ x ∈ (l.set o s).drop (o + 1), x.active = false := by
  have hset : l.set o s = l.take o ++ s :: l.drop (o + 1) := by
    rw [List.set_eq_take_append_cons_drop, if_pos ho]
  have hsub : ∀ x ∈ l.drop (o + 1), x.active = false := by
    intro x hx
    have h1 : l.drop (o + 1) = (l.drop o).drop 1 := by
      rw [List.drop_drop]
    rw [h1] at hx
    exact hin x (List.mem_of_mem_drop hx)
  have hnil1 : (l.drop (o + 1)).filter (fun x => x.active) = [] := by
    rw [List.filter_eq_nil_iff]
    intro x hx
    simp [hsub x hx]
  have hnil0 : (l.drop o).filter (fun x => x.active) = [] := by
    rw [List.filter_eq_nil_iff]
    intro x hx
    simp [hin x hx]
  constructor
  · rw [hset, List.filter_append, List.filter_cons, if_pos hs, hnil1]
    conv_rhs => rw [← List.take_append_drop o l, List.filter_append, hnil0, List.append_nil]
  · intro x hx
    rw [hset] at hx
    have hlen : (l.take o).length = o := by
      rw [List.length_take]
      omega
    have h2 : (l.take o ++ s :: l.drop (o + 1)).drop (o + 1) = l.drop (o + 1) := by
      have h3 : l.take o ++ s :: l.drop (o + 1) = (l.take o ++ [s]) ++ l.drop (o + 1) := by
        simp
      rw [h3]
      exact List.drop_left' (by simp [hlen])
    rw [h2] at hx
    exact hsub x hx

namespace TupleBlock

theorem nextFreeTuple_bump (B : Nat) (b : TupleBlock) (h : b.freeList = []) :
    (b.nextFreeTuple B).1
      = { b with nextUnusedOffset := b.nextUnusedOffset + 1, activeCount := b.activeCount + 1 } ∧
    (b.nextFreeTuple B).2.1 = b.nextUnusedOffset := by
  unfold nextFreeTuple
  rw [h]
  exact ⟨rfl, rfl⟩

end TupleBlock

namespace Table

/-- An allocation in a table that was only ever filled by loading, followed by
the write of an active slot: the slot exists, the table keeps that shape, and
the iteration yields the new slot after all the others. -/
theorem nextFreeTuple_loadInv (B c : Nat) (t : Table) (hl : t.LoadInv c) (s : TupleSlot)
    (hs : s.active = true) :
    (nextFreeTuple B t).2.2
      < ((nextFreeTuple B t).1.heap (nextFreeTuple B t).2.1).slots.length ∧
    ((nextFreeTuple B t).1.writeSlot (nextFreeTuple B t).2 s).LoadInv c ∧
    ((nextFreeTuple B t).1.writeSlot (nextFreeTuple B t).2 s).activeTuples
      = t.activeTuples ++ [s] ∧
    ((nextFreeTuple B t).1.writeSlot (nextFreeTuple B t).2 s).m_tupleCount = t.m_tupleCount := by
  obtain ⟨b0, cb, s1, s2, s3, s4, s5, s6⟩ := nextFreeTuple_shape B t
  generalize nextFreeTuple B t = r at s1 s2 s3 s4 s5 s6 ⊢
  obtain ⟨hc, htp, hdata, hb⟩ := hl
  -- what the two cases have in common
  have hK : b0.freeList = [] ∧ b0.capacity = c ∧ b0.slots.length = c ∧
      b0.activeCount = b0.nextUnusedOffset ∧ b0.nextUnusedOffset < c ∧
      (∀ x ∈ b0.slots.drop b0.nextUnusedOffset, x.active = false) ∧
      r.1.m_data = List.range (r.2.1 + 1) ∧ r.1.nextAddress = r.2.1 + 1 ∧
      t.activeTuples
        = (List.range r.2.1).flatMap (fun a => (t.heap a).slots.filter (fun x => x.active))
          ++ b0.slots.filter (fun x => x.active) ∧
      r.1.m_blocksWithSpace
        = (if (b0.nextFreeTuple B).1.hasFreeTuples then [r.2.1] else []) := by
    rcases s6 with ⟨⟨rest, hbw⟩, hb0, hd, hna, hbws⟩ | ⟨hbw, hq, hb0, hd, hna, hbws⟩
    · rcases hb with hb | ⟨q, k1, k2, k3, k4, k5, k6, k7, k8⟩
      · rw [hb] at hbw
        exact List.noConfusion hbw
      · rw [k2] at hbw
        have hq : q = r.2.1 := (List.cons.inj hbw).1
        subst hq
        rw [← hb0] at k3 k4 k5 k6 k7 k8
        refine ⟨k3, k4, k5, k6, k7, k8, ?_, ?_, ?_, ?_⟩
        · rw [hd, hdata, k1]
        · rw [hna, k1]
        · unfold activeTuples
          rw [hdata, k1, List.range_succ, List.flatMap_append, hb0]
          simp
        · rw [hbws, k2]
          by_cases hf : (b0.nextFreeTuple B).1.hasFreeTuples = true
          · rw [if_pos hf, if_pos hf]
          · rw [if_neg hf, if_neg hf]
            simp [setErase]
    · have hnb : b0.slots = List.replicate c TupleSlot.unused := by
        rw [hb0, ← htp]
        rfl
      refine ⟨by rw [hb0]; rfl, by rw [hb0, ← htp]; rfl, by rw [hnb]; simp,
        by rw [hb0]; rfl, by rw [hb0]; exact hc, ?_, ?_, ?_, ?_, ?_⟩
      · intro x hx
        have hx2 := List.mem_of_mem_drop hx
        rw [hnb] at hx2
        rw [List.eq_of_mem_replicate hx2]
        rfl
      · rw [hd, hq, hdata]
        exact setInsert_range _
      · rw [hna, hq]
      · have hnil : b0.slots.filter (fun x => x.active) = [] := by
          rw [List.filter_eq_nil_iff]
          intro x hx
          rw [hnb] at hx
          rw [List.eq_of_mem_replicate hx]
          simp [TupleSlot.unused]
        unfold activeTuples
        rw [hnil, List.append_nil, hdata, hq]
      · rw [hbws, hq]
  obtain ⟨f1, f2, f3, f4, f5, f6, f7, f8, f9, f10⟩ := hK
  obtain ⟨n1, n2⟩ := TupleBlock.nextFreeTuple_bump B b0 f1
  have hoff : r.2.2 = b0.nextUnusedOffset := s2.trans n2
  have hslots : (r.1.heap r.2.1).slots = b0.slots := by
    rw [s1, n1]
  have hw : (r.1.writeSlot r.2 s).heap r.2.1
      = { r.1.heap r.2.1 with slots := (r.1.heap r.2.1).slots.set r.2.2 s } := by
    show Function.update r.1.heap r.2.1 _ r.2.1 = _
    rw [Function.update_same]
  have hother : ∀ x, x ≠ r.2.1 → (r.1.writeSlot r.2 s).heap x = t.heap x := by
    intro x hx
    have : (r.1.writeSlot r.2 s).heap x = r.1.heap x := by
      show Function.update r.1.heap r.2.1 _ x = _
      rw [Function.update_noteq hx]
    rw [this, s3 x hx]
  obtain ⟨g1, g2⟩ := filter_active_set b0.slots b0.nextUnusedOffset s (by omega) f6 hs
  have hwslots : ((r.1.writeSlot r.2 s).heap r.2.1).slots
      = b0.slots.set b0.nextUnusedOffset s := by
    rw [hw]
    show (r.1.heap r.2.1).slots.set r.2.2 s = _
    rw [hslots, hoff]
  refine ⟨by rw [hslots, hoff, f3]; exact f5, ⟨hc, ?_, ?_, ?_⟩, ?_, s4⟩
  · exact s5.trans htp
  · show r.1.m_data = List.range r.1.nextAddress
    rw [f7, f8]
  · have f10w : (r.1.writeSlot r.2 s).m_blocksWithSpace
        = (if (b0.nextFreeTuple B).1.hasFreeTuples then [r.2.1] else []) := f10
    by_cases hf : (b0.nextFreeTuple B).1.hasFreeTuples = true
    · rw [if_pos hf] at f10w
      right
      have hlt : b0.activeCount + 1 < b0.capacity := by
        rw [n1] at hf
        simpa [TupleBlock.hasFreeTuples] using hf
      refine ⟨r.2.1, f8, f10w, ?_, ?_, ?_, ?_, ?_, ?_⟩
      · rw [hw, s1, n1]
        exact f1
      · rw [hw, s1, n1]
        exact f2
      · rw [hwslots, List.length_set]
        exact f3
      · rw [hw, s1, n1]
        show b0.activeCount + 1 = b0.nextUnusedOffset + 1
        rw [f4]
      · rw [hw, s1, n1]
        show b0.nextUnusedOffset + 1 < c
        omega
      · have hnu : ((r.1.writeSlot r.2 s).heap r.2.1).nextUnusedOffset
            = b0.nextUnusedOffset + 1 := by
          rw [hw, s1, n1]
        rw [hnu, hwslots]
        exact g2
    · rw [if_neg hf] at f10w
      left
      exact f10w
  · rw [f9]
    unfold activeTuples
    show r.1.m_data.flatMap _ = _
    rw [f7, List.range_succ, List.flatMap_append]
    have hpre : (List.range r.2.1).flatMap
        (fun a => ((r.1.writeSlot r.2 s).heap a).slots.filter (fun x => x.active))
        = (List.range r.2.1).flatMap
          (fun a => (t.heap a).slots.filter (fun x => x.active)) := by
      apply List.flatMap_congr
      intro a ha
      rw [hother a (by have := List.mem_range.mp ha; omega)]
    rw [hpre]
    simp only [List.flatMap_cons, List.flatMap_nil, List.append_nil, hwslots, g1,
      List.append_assoc]

end Table
end voltdb

namespace voltdb
namespace TableObject

/-- The loop of `loadTuplesFromNoHeader` on a table that was only ever filled
by loading: the iteration of the table yields the old tuples followed by the
loaded rows, in the order of the stream. -/
theorem loadRows_content (B c : Nat) (deserializeTuple : List Nat → Option (List Nat × List Nat))
    (allowExport : Bool) (n : Nat) :
    ∀ (t : TableObject) (io : List Nat) (rows : List (List Nat)) (rest : List Nat),
      parseRows deserializeTuple n io = some (rows, rest) →
      t.store.LoadInv c →
      (loadRows B deserializeTuple allowExport n t io).2.1.store.LoadInv c ∧
      (loadRows B deserializeTuple allowExport n t io).2.1.store.activeTuples
        = t.store.activeTuples ++ rows.map loadedSlot := by
  induction n with
  | zero =>
    intro t io rows rest hp hl
    rw [parseRows] at hp
    have h3 : [] = rows := congrArg Prod.fst (Option.some.inj hp)
    subst h3
    exact ⟨hl, by simp [loadRows]⟩
  | succ n ih =>
    intro t io rows rest hp hl
    obtain ⟨row, io1, rows1, hd, hp1, hrows⟩ := parseRows_succ deserializeTuple n io rows rest hp
    obtain ⟨a1, a2, a3, _⟩ := Table.nextFreeTuple_loadInv B c t.store hl (loadedSlot row) rfl
    rw [loadRows_succ B deserializeTuple allowExport n t io row io1 hd a1]
    obtain ⟨i1, i2⟩ :=
      ih { t with
            store := (t.store.nextFreeTuple B).1.writeSlot (t.store.nextFreeTuple B).2
              (loadedSlot row)
            loadedTuples := t.loadedTuples ++
              [(allowExport, (t.store.nextFreeTuple B).2, loadedSlot row)] }
        io1 rows1 rest hp1 a2
    refine ⟨i1, ?_⟩
    rw [i2, hrows]
    show ((t.store.nextFreeTuple B).1.writeSlot _ _).activeTuples ++ _ = _
    rw [a3]
    simp

theorem readColumnTypes_types (types : List Int) (rest : List Nat)
    (h : ∀ ty ∈ types, -128 ≤ ty ∧ ty < 128) :
    readColumnTypes types.length (types.map int8Byte ++ rest) = some (types, rest) := by
  induction types with
  | nil => rfl
  | cons ty more ih =>
    have hty := h ty (List.mem_cons_self _ _)
    rw [List.length_cons, readColumnTypes, List.map_cons, List.cons_append]
    unfold SerializeInput.readEnumInSingleByte
    rw [readByte_int8Byte, toInt8_of_fits ty hty.1 hty.2]
    dsimp only
    rw [ih (fun x hx => h x (List.mem_cons_of_mem _ hx))]

theorem readColumnNames_names (names : List (List Nat)) (rest : List Nat)
    (h : ∀ s ∈ names, s.length < 2147483648) :
    readColumnNames names.length (names.flatMap (fun s => int32BE s.length ++ s) ++ rest)
      = some (names, rest) := by
  induction names with
  | nil => rfl
  | cons s more ih =>
    have hs := h s (List.mem_cons_self _ _)
    rw [List.length_cons, readColumnNames, List.flatMap_cons, List.append_assoc,
      readTextString_string s _ hs]
    dsimp only
    rw [ih (fun x hx => h x (List.mem_cons_of_mem _ hx))]

/-- The header that `serializeColumnHeaderTo` writes is read back by
`loadTuplesFrom` to the same column count, types and names. -/
theorem readColumnHeader_columnHeaderBytes (types : List Int) (names : List (List Nat))
    (rest : List Nat) (ht : ∀ ty ∈ types, -128 ≤ ty ∧ ty < 128) (hn : types.length < 32768)
    (hnames : ∀ s ∈ names, s.length < 2147483648) (hlen : names.length = types.length) :
    readColumnHeader (columnHeaderBytes types names ++ rest)
      = HeaderRead.header types.length types names rest := by
  have h16 : toInt16 (types.length : Int) = types.length := toInt16_of_fits _ (by omega) (by omega)
  have hnn : ¬ ((types.length : Int) < 0) := by omega
  have hbyte : ∀ (b : Nat) (l : List Nat),
      SerializeInput.readByte (b :: l) = some (toInt8 b, l) := fun _ _ => rfl
  unfold columnHeaderBytes readColumnHeader
  simp only [List.append_assoc]
  rw [readInt_int32BE]
  dsimp only
  rw [List.singleton_append, hbyte]
  dsimp only
  rw [readShort_int16BE, h16]
  dsimp only
  rw [if_neg hnn, Int.toNat_ofNat, readColumnTypes_types types _ ht]
  dsimp only
  rw [← hlen, readColumnNames_names names rest hnames]

theorem parseRows_serialized (serializeTuple : TupleSlot → List Nat)
    (deserializeTuple : List Nat → Option (List Nat × List Nat)) (tuples : List TupleSlot)
    (rest : List Nat)
    (hinv : ∀ s ∈ tuples, ∀ r, deserializeTuple (serializeTuple s ++ r) = some (s.payload, r)) :
    parseRows deserializeTuple tuples.length (tuples.flatMap serializeTuple ++ rest)
      = some (tuples.map (fun s => s.payload), rest) := by
  induction tuples with
  | nil => rfl
  | cons s more ih =>
    rw [List.length_cons, parseRows, List.flatMap_cons, List.append_assoc,
      hinv s (List.mem_cons_self _ _)]
    dsimp only
    rw [ih (fun x hx => hinv x (List.mem_cons_of_mem _ hx))]
    rfl

theorem fresh_invariants (t : TableObject) (h : t.Fresh) :
    t.store.AllocInv ∧ t.store.SlotsInv ∧ t.store.LoadInv t.store.m_tuplesPerBlock ∧
    t.store.activeTuples = [] := by
  obtain ⟨h1, h2, h3, h4, _, _⟩ := h
  refine ⟨⟨?_, ?_, ?_⟩, ⟨h1, ?_, ?_⟩, ⟨h1, rfl, ?_, Or.inl h3⟩, ?_⟩
  · rw [h2]; exact List.nodup_nil
  · rw [h2]; intro a ha; simp at ha
  · rw [h3]; intro a ha; simp at ha
  · rw [h3]; intro a ha; simp at ha
  · rw [h2]; intro a ha; simp at ha
  · rw [h2, h4]; rfl
  · unfold Table.activeTuples
    rw [h2]
    rfl

theorem equalsTuples_of_payloads (l1 l2 : List TupleSlot)
    (h : l1.map (fun s => s.payload) = l2.map (fun s => s.payload)) :
    l1.length = l2.length ∧
    (List.zip l1 l2).all (fun p => p.1.equalsTuple p.2) = true := by
  induction l1 generalizing l2 with
  | nil =>
    cases l2 with
    | nil => exact ⟨rfl, rfl⟩
    | cons b bs => simp at h
  | cons a as ih =>
    cases l2 with
    | nil => simp at h
    | cons b bs =>
      simp only [List.map_cons, List.cons.injEq] at h
      obtain ⟨k1, k2⟩ := ih bs h.2
      refine ⟨by simp [k1], ?_⟩
      simp only [List.zip_cons_cons, List.all_cons, k2, Bool.and_true]
      simp [TupleSlot.equalsTuple, h.1]

theorem zip_self_all (l : List Nat) : (List.zip l l).all (fun p => p.1 == p.2) = true := by
  induction l with
  | nil => rfl
  | cons a as ih => simp [ih]

end TableObject
end voltdb

namespace voltdb
namespace TableObject

/-! ## The round trip -/

theorem activeTuples_with_tupleCount (t : Table) (n : Nat) :
    Table.activeTuples { t with m_tupleCount := n } = t.activeTuples := rfl

theorem loadTuplesFrom_of_header (B : Nat)
    (deserializeTuple : List Nat → Option (List Nat × List Nat)) (allowExport : Bool)
    (t : TableObject) (io : List Nat) (types : List Int) (names : List (List Nat))
    (rest : List Nat)
    (hh : readColumnHeader io = HeaderRead.header t.m_schema.columnTypes.length types names rest) :
    loadTuplesFrom B deserializeTuple allowExport t io
      = loadTuplesFromNoHeader B deserializeTuple allowExport t rest := by
  have hcnt : ¬ ((t.m_schema.columnTypes.length : Int) ≠ (t.m_schema.columnCount : Int)) :=
    not_not.mpr rfl
  unfold loadTuplesFrom
  rw [hh]
  dsimp only
  rw [if_neg hcnt]

theorem exampleDeserializeTuple_serialize (s : TupleSlot) (r : List Nat) :
    exampleDeserializeTuple (exampleSerializeTuple s ++ r) = some (s.payload, r) := by
  simp [exampleDeserializeTuple, exampleSerializeTuple]

end TableObject
end voltdb

namespace voltdb
namespace TableObject

/-! ## Initialisation: the slots of a block fit its allocation -/

theorem tdiv_lt_one_of_neg (a b : Int) (ha : a < 0) (hb : 0 < b) : Int.tdiv a b < 1 := by
  have h1 := Int.neg_tdiv (-a) b
  rw [Int.neg_neg] at h1
  have h2 := @Int.tdiv_nonneg (-a) b (by omega) (by omega)
  omega

theorem tdiv_mul_le_of_pos (a b : Int) (hb : 0 < b) (h : 1 ≤ Int.tdiv a b) :
    Int.tdiv a b * b ≤ a := by
  have ha : 0 ≤ a := by
    by_contra hneg
    have := tdiv_lt_one_of_neg a b (by omega) hb
    omega
  rw [Int.tdiv_eq_ediv ha (by omega)]
  exact Int.ediv_mul_le a (by omega)

end TableObject

namespace Table

/-! ## Compaction: the choice of the two blocks -/

theorem filterMap_head_of_empty (bm : Nat → List Nat) (l : List Nat)
    (h : ∀ i ∈ l, bm i = []) : l.filterMap (fun ii => (bm ii).head?) = [] := by
  induction l with
  | nil => rfl
  | cons x xs ih =>
    have hx := h x (List.mem_cons_self _ _)
    rw [List.filterMap_cons, hx]
    exact ih (fun i hi => h i (List.mem_cons_of_mem _ hi))

theorem findFullest_of_empty (B : Nat) (bm : Nat → List Nat)
    (h : ∀ i, i < B - 1 → bm i = []) : findFullest B bm = none := by
  unfold findFullest
  rw [filterMap_head_of_empty bm _ (fun i hi => h i (by simpa using hi))]
  rfl

theorem findFullest_highest_aux (bm : Nat → List Nat) (n : Nat) :
    ∀ i, i < n → bm i ≠ [] → (∀ j, i < j → j < n → bm j = []) →
      ((List.range n).reverse.filterMap (fun ii => (bm ii).head?)).head? = (bm i).head? := by
  induction n with
  | zero => intro i hi; omega
  | succ n ih =>
    intro i hi hne hem
    rw [List.range_succ, List.reverse_append, List.reverse_singleton, List.singleton_append]
    by_cases hin : i = n
    · subst hin
      rcases hb : bm i with _ | ⟨x, more⟩
      · exact absurd hb hne
      · rw [List.filterMap_cons, hb]
        rfl
    · have hn : bm n = [] := hem n (by omega) (by omega)
      rw [List.filterMap_cons, hn]
      exact ih i (by omega) hne (fun j h1 h2 => hem j h1 (by omega))

/-- C22: when the buckets `0 .. B-2` of the given array are all empty, whatever
bucket `B-1` holds, `doCompactionWithinSubset` returns false and leaves the
table state as it is (no merge, no relocation, no block removal), with any
fuel; and when bucket `i` is the highest-indexed non-empty bucket among
`0 .. B-2`, the block chosen as `fullest` is the first block of bucket `i`, the
call being the draining loop run with that block. -/
theorem doCompactionWithinSubset_chooses_fullest (B fuel : Nat) (p : Bool) (t : Table) :
    ((∀ i, i < B - 1 → t.bucketMap p i = []) →
      findFullest B (t.bucketMap p) = none ∧
      doCompactionWithinSubset B fuel p t = (Outcome.returned false, t)) ∧
    (∀ i, i < B - 1 → t.bucketMap p i ≠ [] →
      (∀ j, i < j → j < B - 1 → t.bucketMap p j = []) →
      ∃ f, (t.bucketMap p i).head? = some f ∧ f ∈ t.bucketMap p i ∧
        findFullest B (t.bucketMap p) = some f ∧
        doCompactionWithinSubset B fuel p t = compactionLoop B p f fuel t none) := by
  constructor
  · intro h
    have hf := findFullest_of_empty B (t.bucketMap p) h
    exact ⟨hf, doCompactionWithinSubset_of_no_fullest B fuel p t hf⟩
  · intro i hi hne hem
    have hh := findFullest_highest_aux (t.bucketMap p) (B - 1) i hi hne hem
    rcases hb : t.bucketMap p i with _ | ⟨f, more⟩
    · exact absurd hb hne
    · have hf : findFullest B (t.bucketMap p) = some f := by
        unfold findFullest
        rw [hh, hb]
        rfl
      exact ⟨f, rfl, List.mem_cons_self _ _, hf,
        doCompactionWithinSubset_of_fullest B fuel p t f hf⟩

/-- C22 on a table whose only bucketed block is full, in the top bucket: the
call returns false and changes nothing; and on two half-full blocks, where
bucket 2 is the highest non-empty bucket below the top. -/
theorem doCompactionWithinSubset_chooses_fullest_witness :
    (findFullest 4 ((exampleTable 4 4 [(10, [1, 2, 3, 4], some false)]).bucketMap false) = none ∧
      doCompactionWithinSubset 4 0 false (exampleTable 4 4 [(10, [1, 2, 3, 4], some false)])
        = (Outcome.returned false, exampleTable 4 4 [(10, [1, 2, 3, 4], some false)])) ∧
    (∃ f, (twoHalfBlocks.bucketMap false 2).head? = some f ∧ f ∈ twoHalfBlocks.bucketMap false 2 ∧
      findFullest 4 (twoHalfBlocks.bucketMap false) = some f ∧
      doCompactionWithinSubset 4 3 false twoHalfBlocks
        = compactionLoop 4 false f 3 twoHalfBlocks none) :=
  ⟨(doCompactionWithinSubset_chooses_fullest 4 0 false
      (exampleTable 4 4 [(10, [1, 2, 3, 4], some false)])).1 (by decide),
    (doCompactionWithinSubset_chooses_fullest 4 3 false twoHalfBlocks).2 2 (by decide)
      (by decide) (fun j h1 h2 => absurd h2 (by omega))⟩

theorem findLightest_lowest_aux (bm : Nat → List Nat) (f l : Nat) (n : Nat) :
    ∀ s, findLightest bm f (List.range' s n) = some l →
      ∃ i, s ≤ i ∧ i < s + n ∧ l ∈ bm i ∧ ∀ j, s ≤ j → j < i → ∀ a ∈ bm j, a = f := by
  induction n with
  | zero =>
    intro s h
    simp [findLightest] at h
  | succ n ih =>
    intro s h
    rw [List.range'_succ, findLightest] at h
    rcases hb : bm s with _ | ⟨x, more⟩
    · rw [hb] at h
      obtain ⟨i, h1, h2, h3, h4⟩ := ih (s + 1) h
      refine ⟨i, by omega, by omega, h3, fun j hj1 hj2 a ha => ?_⟩
      by_cases hjs : j = s
      · rw [hjs, hb] at ha
        simp at ha
      · exact h4 j (by omega) hj2 a ha
    · rw [hb] at h
      dsimp only at h
      by_cases hx : x ≠ f
      · rw [if_pos hx] at h
        have hl : x = l := Option.some.inj h
        exact ⟨s, Nat.le_refl _, by omega, by rw [hb, ← hl]; exact List.mem_cons_self _ _,
          fun j hj1 hj2 => by omega⟩
      · rw [if_neg hx] at h
        rcases more with _ | ⟨y, more2⟩
        · dsimp only at h
          obtain ⟨i, h1, h2, h3, h4⟩ := ih (s + 1) h
          refine ⟨i, by omega, by omega, h3, fun j hj1 hj2 a ha => ?_⟩
          by_cases hjs : j = s
          · rw [hjs, hb] at ha
            have hxf : x = f := not_not.mp hx
            simpa [hxf] using ha
          · exact h4 j (by omega) hj2 a ha
        · dsimp only at h
          have hl : y = l := Option.some.inj h
          exact ⟨s, Nat.le_refl _, by omega,
            by rw [hb, ← hl]; exact List.mem_cons_of_mem _ (List.mem_cons_self _ _),
            fun j hj1 hj2 => by omega⟩

theorem findLightest_of_only_fullest (bm : Nat → List Nat) (f : Nat) (idxs : List Nat)
    (hnd : ∀ i ∈ idxs, (bm i).Nodup) (h : ∀ i ∈ idxs, ∀ a ∈ bm i, a = f) :
    findLightest bm f idxs = none := by
  induction idxs with
  | nil => rfl
  | cons ii rest ih =>
    have hrest := ih (fun i hi => hnd i (List.mem_cons_of_mem _ hi))
      (fun i hi => h i (List.mem_cons_of_mem _ hi))
    have hii := hnd ii (List.mem_cons_self _ _)
    have hall := h ii (List.mem_cons_self _ _)
    rw [findLightest]
    rcases hb : bm ii with _ | ⟨x, more⟩
    · exact hrest
    · rw [hb] at hii hall
      have hx : x = f := hall x (List.mem_cons_self _ _)
      dsimp only
      rw [if_neg (not_not.mpr hx)]
      rcases more with _ | ⟨y, more2⟩
      · exact hrest
      · have hy : y = f := hall y (List.mem_cons_of_mem _ (List.mem_cons_self _ _))
        have hnd2 := (List.nodup_cons.mp hii).1
        rw [hx, hy] at hnd2
        exact absurd (List.mem_cons_self _ _) hnd2

/-- C21 fails. On two blocks of four slots holding one tuple each (Scenario
B), with the predicate "a block can be freed", which is true there and false
once the tuples need every block, `doForcedCompaction` never returns: whatever
the fuel, the run is still inside the first compaction, which has merged the
two blocks and erased block 20 from `m_data`, so that the predicate is already
false, but keeps finding the emptied block 20 in bucket 1. And an iteration
need not make the progress the claim names: on two blocks of eight slots with
five tuples each the compaction moves three tuples, returns true and removes
no block. -/
theorem doForcedCompaction_freeable_never_returns :
    twoQuarterBlocks.DataModelInvariants 4 ∧
    blockCanBeFreed twoQuarterBlocks = true ∧
    (∀ innerFuel fuel,
      (doForcedCompaction 4 blockCanBeFreed innerFuel (fuel + 1) twoQuarterBlocks).1
        = ForcedOutcome.outOfFuel) ∧
    (doCompactionWithinSubset 4 3 false twoQuarterBlocks).2.m_data = [10] ∧
    blockCanBeFreed (doCompactionWithinSubset 4 3 false twoQuarterBlocks).2 = false ∧
    20 ∈ (doCompactionWithinSubset 4 3 false twoQuarterBlocks).2.m_blocksNotPendingSnapshotLoad 1 ∧
    twoFiveEighthBlocks.DataModelInvariants 4 ∧
    allocatedExceedsActive twoFiveEighthBlocks = true ∧
    (doCompactionWithinSubset 4 3 false twoFiveEighthBlocks).1 = Outcome.returned true ∧
    (doCompactionWithinSubset 4 3 false twoFiveEighthBlocks).2.m_data = [10, 20] ∧
    (doCompactionWithinSubset 4 3 false twoFiveEighthBlocks).2.compactedAway = [] ∧
    (doCompactionWithinSubset 4 3 false twoFiveEighthBlocks).2.relocated.length = 3 := by
  refine ⟨by decide, by decide, fun innerFuel fuel => ?_, by decide, by decide, by decide,
    by decide, by decide, by decide, by decide, by decide, by decide⟩
  have h := twoQuarterBlocks_outOfFuel innerFuel
  have hp : blockCanBeFreed twoQuarterBlocks = true := by decide
  have hn : twoQuarterBlocks.m_blocksNotPendingSnapshot.isEmpty = false := by decide
  unfold doForcedCompaction
  rw [forcedLoop]
  simp [hp, hn, h]

end Table
end voltdb

namespace voltdb
namespace Table

/-! ## Compaction: the tuple count after two calls -/

/-- C4 fails. On two half-full blocks of four slots, a table that satisfies
the invariants of the data model, a first `doCompactionWithinSubset` call
merges block 20 into block 10 and returns `true`; `m_tupleCount = 4` is then
the sum of the active counts over `m_data = [10]`, and the emptied block 20 is
still in bucket 2. A second call on that state takes block 20 as `fullest` and
the full block 10 as `lightest`, moves the four tuples into block 20, which is
not in `m_data`, erases block 10 and returns `true`: `m_tupleCount` is still 4
while the sum of the active counts over `m_data`, now empty, is 0. -/
theorem doCompactionWithinSubset_breaks_tuple_count :
    twoHalfBlocks.DataModelInvariants 4 ∧
    (doCompactionWithinSubset 4 2 false twoHalfBlocks).1 = Outcome.returned true ∧
    (doCompactionWithinSubset 4 2 false twoHalfBlocks).2.CountInv ∧
    (doCompactionWithinSubset 4 2 false twoHalfBlocks).2.m_tupleCount = 4 ∧
    (doCompactionWithinSubset 4 2 false twoHalfBlocks).2.m_data = [10] ∧
    20 ∈ (doCompactionWithinSubset 4 2 false twoHalfBlocks).2.m_blocksNotPendingSnapshotLoad 2 ∧
    (doCompactionWithinSubset 4 3 false
      (doCompactionWithinSubset 4 2 false twoHalfBlocks).2).1 = Outcome.returned true ∧
    (doCompactionWithinSubset 4 3 false
      (doCompactionWithinSubset 4 2 false twoHalfBlocks).2).2.mergeCalls = [(10, 20), (20, 10)] ∧
    (doCompactionWithinSubset 4 3 false
      (doCompactionWithinSubset 4 2 false twoHalfBlocks).2).2.m_data = [] ∧
    ((doCompactionWithinSubset 4 3 false
      (doCompactionWithinSubset 4 2 false twoHalfBlocks).2).2.heap 20).activeCount = 4 ∧
    (doCompactionWithinSubset 4 3 false
      (doCompactionWithinSubset 4 2 false twoHalfBlocks).2).2.m_tupleCount = 4 ∧
    (doCompactionWithinSubset 4 3 false
      (doCompactionWithinSubset 4 2 false twoHalfBlocks).2).2.activeSum = 0 ∧
    ¬ (doCompactionWithinSubset 4 3 false
      (doCompactionWithinSubset 4 2 false twoHalfBlocks).2).2.CountInv := by
  decide

end Table
end voltdb
